import Mathlib

/-!
The libalpm file-set algebra and remove executor.

A shallow embedding of `src/libalpm/filelist.c` and of the commit path of
`src/libalpm/remove.c`.  C strings are Lean strings (one `Char` per byte),
`alpm_list_t` and C arrays are Lean lists, `alpm_list_add` appends at the end.
Loops that walk an array with counters keep their counters; the number of
iterations still allowed is an explicit structural argument, always started at a
bound the loop cannot exceed.
-/

namespace Pacman

/-! ## Strings -/

/-- The C library `strcmp` on two byte sequences; only the sign of the result is
specified by the C standard, so the model returns -1, 0 or 1. -/
def strcmpAux : List Char → List Char → Int
  | [], [] => 0
  | [], _ :: _ => -1
  | _ :: _, [] => 1
  | a :: as, b :: bs =>
    if a.toNat < b.toNat then -1
    else if b.toNat < a.toNat then 1
    else strcmpAux as bs

/-- The C library `strcmp` on strings. -/
def strcmp (s1 s2 : String) : Int := strcmpAux s1.data s2.data

/-- The test `str[strlen(str)-1] == '/'` of filelist.c.  On the empty string the C
expression reads `str[-1]`, outside the string; the model answers `false` there. -/
def last_is_slash (str : String) : Bool := str.data.getLast? == some '/'

/-! ## File lists (filelist.c) -/

/-- Modelled from the spec: `alpm_file_t` is declared in alpm.h, which is not part of
the sources; a file entry is "path (directories have a trailing `/` sentinel), mode,
size". -/
structure alpm_file_t where
  name : String
  size : Nat
  mode : Nat
deriving DecidableEq, Repr

/-- Modelled from the spec: `alpm_filelist_t` is declared in alpm.h, which is not part of
the sources; filelist.c uses its `count` (the length) and `files + i` (the i-th entry). -/
abbrev alpm_filelist_t := List alpm_file_t

/-- The first `while` loop of `_alpm_filelist_difference` (filelist.c:35-58): the
state is `(ctrA, ctrB, ret)`; the result is the final `ctrA` and `ret`. -/
def difference_loop (filesA filesB : alpm_filelist_t) :
    Nat → Nat → Nat → List alpm_file_t → Nat × List alpm_file_t
  | 0, ctrA, _, ret => (ctrA, ret)
  | fuel + 1, ctrA, ctrB, ret =>
    if h : ctrA < filesA.length ∧ ctrB < filesB.length then
      let fileA := filesA[ctrA]
      let fileB := filesB[ctrB]
      let strA := fileA.name
      let strB := fileB.name
      if last_is_slash strA then
        difference_loop filesA filesB fuel (ctrA + 1) ctrB ret
      else if last_is_slash strB then
        difference_loop filesA filesB fuel ctrA (ctrB + 1) ret
      else
        let cmp := strcmp strA strB
        if cmp < 0 then
          difference_loop filesA filesB fuel (ctrA + 1) ctrB (ret ++ [fileA])
        else if cmp > 0 then
          difference_loop filesA filesB fuel ctrA (ctrB + 1) ret
        else
          difference_loop filesA filesB fuel (ctrA + 1) (ctrB + 1) ret
    else (ctrA, ret)

/-- The second `while` loop of `_alpm_filelist_difference` (filelist.c:61-69). -/
def difference_rest (filesA : alpm_filelist_t) :
    Nat → Nat → List alpm_file_t → List alpm_file_t
  | 0, _, ret => ret
  | fuel + 1, ctrA, ret =>
    if h : ctrA < filesA.length then
      let fileA := filesA[ctrA]
      let strA := fileA.name
      if last_is_slash strA != true then
        difference_rest filesA fuel (ctrA + 1) (ret ++ [fileA])
      else
        difference_rest filesA fuel (ctrA + 1) ret
    else ret

/-- The function `_alpm_filelist_difference` (filelist.c:29-72).  Each iteration of
the first loop advances `ctrA` or `ctrB`, so `count A + count B` iterations are
enough; the second loop runs at most `count A - ctrA` times. -/
def _alpm_filelist_difference (filesA filesB : alpm_filelist_t) : List alpm_file_t :=
  let r := difference_loop filesA filesB (filesA.length + filesB.length) 0 0 []
  difference_rest filesA (filesA.length - r.1) r.1 r.2

/-- The `while` loop of `_alpm_filelist_intersection` (filelist.c:84-107). -/
def intersection_loop (filesA filesB : alpm_filelist_t) :
    Nat → Nat → Nat → List alpm_file_t → List alpm_file_t
  | 0, _, _, ret => ret
  | fuel + 1, ctrA, ctrB, ret =>
    if h : ctrA < filesA.length ∧ ctrB < filesB.length then
      let fileA := filesA[ctrA]
      let fileB := filesB[ctrB]
      let strA := fileA.name
      let strB := fileB.name
      if last_is_slash strA then
        intersection_loop filesA filesB fuel (ctrA + 1) ctrB ret
      else if last_is_slash strB then
        intersection_loop filesA filesB fuel ctrA (ctrB + 1) ret
      else
        let cmp := strcmp strA strB
        if cmp < 0 then
          intersection_loop filesA filesB fuel (ctrA + 1) ctrB ret
        else if cmp > 0 then
          intersection_loop filesA filesB fuel ctrA (ctrB + 1) ret
        else
          intersection_loop filesA filesB fuel (ctrA + 1) (ctrB + 1) (ret ++ [fileA])
    else ret

/-- The function `_alpm_filelist_intersection` (filelist.c:78-110). -/
def _alpm_filelist_intersection (filesA filesB : alpm_filelist_t) : List alpm_file_t :=
  intersection_loop filesA filesB (filesA.length + filesB.length) 0 0 []

/-- The comparison `_alpm_files_cmp` (filelist.c:114-119). -/
def _alpm_files_cmp (file1 file2 : alpm_file_t) : Int := strcmp file1.name file2.name

/-- Modelled from the spec: the C library `bsearch` is not part of the sources; the
spec calls it a "binary search on the sorted file list" that "returns the matching
entry or none".  The usual halving loop over `[l, u)`, probing the middle element. -/
def bsearch_loop {α : Type} (compar : α → α → Int) (key : α) (base : List α) :
    Nat → Nat → Nat → Option α
  | 0, _, _ => none
  | fuel + 1, l, u =>
    if l < u then
      let idx := (l + u) / 2
      match base[idx]? with
      | none => none
      | some p =>
        let comparison := compar key p
        if comparison < 0 then bsearch_loop compar key base fuel l idx
        else if comparison > 0 then bsearch_loop compar key base fuel (idx + 1) u
        else some p
    else none

/-- Modelled from the spec: `bsearch(key, base, nmemb, size, compar)` of the C
library, see `bsearch_loop`; the interval halves each round, so `nmemb` rounds
are enough. -/
def bsearch {α : Type} (compar : α → α → Int) (key : α) (base : List α) : Option α :=
  bsearch_loop compar key base base.length 0 base.length

/-- The function `alpm_filelist_contains` (filelist.c:122-135); a NULL file list is
`none`.  The key is an entry that carries only the path. -/
def alpm_filelist_contains (filelist : Option alpm_filelist_t) (path : String) :
    Option alpm_file_t :=
  match filelist with
  | none => none
  | some fl =>
    let key : alpm_file_t := { name := path, size := 0, mode := 0 }
    bsearch _alpm_files_cmp key fl

/-- A file list is sorted strictly ascending by byte-wise path comparison. -/
def strictly_sorted (l : alpm_filelist_t) : Prop :=
  l.Pairwise (fun a b => strcmp a.name b.name < 0)

instance (l : alpm_filelist_t) : Decidable (strictly_sorted l) := by
  unfold strictly_sorted; infer_instance

/-- A file list is sorted ascending (equal paths allowed). -/
def sorted_asc (l : alpm_filelist_t) : Prop :=
  l.Pairwise (fun a b => strcmp a.name b.name ≤ 0)

instance (l : alpm_filelist_t) : Decidable (sorted_asc l) := by
  unfold sorted_asc; infer_instance


/-! ## Packages, handle and transaction (trans.h and the parts of alpm.h that remove.c uses) -/

/-- Modelled from the spec: `alpm_backup_t` is declared in alpm.h, which is not part of
the sources; a backup entry is a "logical path within install root plus an expected
hash from install time". -/
structure alpm_backup_t where
  name : String
  hash : String
deriving DecidableEq, Repr

/-- Modelled from the spec: `alpm_depmod_t` is declared in alpm.h, which is not part of
the sources; the "comparison operator in {`<`, `≤`, `=`, `≥`, `>`, any}" of a
dependency expression. -/
inductive alpm_depmod_t where
  | ALPM_DEP_MOD_ANY
  | ALPM_DEP_MOD_EQ
  | ALPM_DEP_MOD_GE
  | ALPM_DEP_MOD_LE
  | ALPM_DEP_MOD_GT
  | ALPM_DEP_MOD_LT
deriving DecidableEq, Repr

/-- Modelled from the spec: `alpm_depend_t` is declared in alpm.h, which is not part of
the sources; a dependency expression is "name, comparison operator, version". -/
structure alpm_depend_t where
  name : String
  mod : alpm_depmod_t := alpm_depmod_t.ALPM_DEP_MOD_ANY
  version : String := ""
deriving DecidableEq, Repr

/-- Modelled from the spec: `alpm_pkgreason_t` is declared in alpm.h, which is not part
of the sources; the "install reason (`EXPLICIT` or `DEPEND`)". -/
inductive alpm_pkgreason_t where
  | ALPM_PKG_REASON_EXPLICIT
  | ALPM_PKG_REASON_DEPEND
deriving DecidableEq, Repr

/-- Modelled from the spec: `alpm_pkgfrom_t` is declared in alpm.h, which is not part of
the sources; the "origin (`LOCAL_DB`, `SYNC_DB`, `FILE`)" of a package. -/
inductive alpm_pkgfrom_t where
  | ALPM_PKG_FROM_FILE
  | ALPM_PKG_FROM_LOCALDB
  | ALPM_PKG_FROM_SYNCDB
deriving DecidableEq, Repr

/-- Modelled from the spec: `alpm_pkg_t` is declared in package.h of libalpm, which is
not part of the sources; these are the fields that remove.c and sync.c use: name, the
hash of the name cached with it, version, file list, backup list, scriptlet flag,
install reason, the dependency, provides and replaces lists, origin and, for a sync
package, its owning repository `origin_data.db` (a repository is identified by its
tree name) and its archive filename (`none` is NULL), the on-disk size, the download
size, the bit INFRQ_DSIZE of `infolevel` and the "validation method set" (a bit mask).
The `removes` list "names exactly the local packages" to remove: the C list
holds pointers into the local package cache, the model holds their names, the key of
the local database. -/
structure alpm_pkg_t where
  name : String
  name_hash : Nat := 0
  version : String := ""
  files : alpm_filelist_t := []
  backup : List alpm_backup_t := []
  scriptlet : Bool := false
  reason : alpm_pkgreason_t := alpm_pkgreason_t.ALPM_PKG_REASON_EXPLICIT
  depends : List alpm_depend_t := []
  provides : List alpm_depend_t := []
  replaces : List alpm_depend_t := []
  removes : List String := []
  origin : alpm_pkgfrom_t := alpm_pkgfrom_t.ALPM_PKG_FROM_LOCALDB
  db : Option String := none
  filename : Option String := none
  size : Int := 0
  download_size : Int := 0
  infolevel_dsize : Bool := false
  validation : Nat := 0
deriving DecidableEq, Repr

/-- Modelled from the spec: `alpm_transflag_t` is declared in alpm.h, which is not part
of the sources; the spec lists the flags of the bit set.  One boolean per bit:
`flags & ALPM_TRANS_FLAG_F` is the field `F`. -/
structure alpm_transflag_t where
  NODEPS : Bool := false
  FORCE : Bool := false
  NOSAVE : Bool := false
  NODEPVERSION : Bool := false
  CASCADE : Bool := false
  RECURSE : Bool := false
  DBONLY : Bool := false
  ALLDEPS : Bool := false
  DOWNLOADONLY : Bool := false
  NOSCRIPTLET : Bool := false
  NOCONFLICTS : Bool := false
  NEEDED : Bool := false
  ALLEXPLICIT : Bool := false
  UNNEEDED : Bool := false
  RECURSEALL : Bool := false
  NOLOCK : Bool := false
deriving DecidableEq, Repr

/-- The transaction states `alpm_transstate_t` (trans.h:28-36). -/
inductive alpm_transstate_t where
  | STATE_IDLE
  | STATE_INITIALIZED
  | STATE_PREPARED
  | STATE_DOWNLOADING
  | STATE_COMMITING
  | STATE_COMMITED
  | STATE_INTERRUPTED
deriving DecidableEq, Repr

/-- The transaction `struct __alpm_trans_t` (trans.h:39-46). -/
structure alpm_trans_t where
  flags : alpm_transflag_t := {}
  state : alpm_transstate_t := alpm_transstate_t.STATE_IDLE
  unresolvable : List alpm_pkg_t := []
  add : List alpm_pkg_t := []
  remove : List alpm_pkg_t := []
  skip_remove : List String := []
deriving DecidableEq, Repr

/-- Modelled from the spec: `alpm_errno_t` is declared in alpm.h, which is not part of
the sources; these are the values of `pm_errno` that remove.c and sync.c set, `OK` being 0. -/
inductive alpm_errno_t where
  | OK
  | ALPM_ERR_MEMORY
  | ALPM_ERR_WRONG_ARGS
  | ALPM_ERR_TRANS_NULL
  | ALPM_ERR_TRANS_NOT_INITIALIZED
  | ALPM_ERR_TRANS_DUP_TARGET
  | ALPM_ERR_TRANS_ABORT
  | ALPM_ERR_PKG_CANT_REMOVE
  | ALPM_ERR_UNSATISFIED_DEPS
  | ALPM_ERR_CONFLICTING_DEPS
  | ALPM_ERR_DB_INVALID
  | ALPM_ERR_DB_NOT_FOUND
  | ALPM_ERR_PKG_INVALID_NAME
  | ALPM_ERR_PKG_INVALID
  | ALPM_ERR_PKG_INVALID_CHECKSUM
  | ALPM_ERR_PKG_INVALID_SIG
  | ALPM_ERR_FILE_CONFLICTS
deriving DecidableEq, Repr

/-- Modelled from the spec: `alpm_db_t` is declared in db.h, which is not part of the
sources; a repository is "a set of packages keyed by name" with "status bits: `VALID`,
`INVALID`, `MISSING`"; `pkgcache` is what `_alpm_db_get_pkgcache` yields. -/
structure alpm_db_t where
  treename : String
  pkgcache : List alpm_pkg_t := []
  status_invalid : Bool := false
  status_missing : Bool := false
deriving DecidableEq, Repr

/-- Modelled from the spec: `alpm_handle_t` is declared in handle.h, which is not part
of the sources; these are the fields that remove.c and sync.c use: install root, the
package cache of the local database, the NoUpgrade globs, the transaction, `pm_errno`,
the sync repositories in configured order and the option `checkspace`. -/
structure alpm_handle_t where
  root : String := "/"
  db_local : List alpm_pkg_t := []
  noupgrade : List String := []
  trans : alpm_trans_t := {}
  pm_errno : alpm_errno_t := alpm_errno_t.OK
  dbs_sync : List alpm_db_t := []
  checkspace : Bool := false
deriving DecidableEq, Repr

/-! ## The file system and the collaborators outside the sources -/

/-- What `lstat` can tell about an on-disk entry: a directory, or anything else
(regular file, link), identified by its content. -/
inductive Node where
  | dir
  | file (content : String)
deriving DecidableEq, Repr

/-- The disk: the entry found at each absolute path, if any. -/
abbrev Disk := String → Option Node

/-- The values of `errno` that `can_remove_file` distinguishes. -/
inductive Errno where
  | EACCES
  | ETXTBSY
  | EROFS
  | ENOENT
  | other (code : Nat)
deriving DecidableEq, Repr

/-- Modelled from the spec: `alpm_event_t` is declared in alpm.h, which is not part of
the sources; these are the event kinds that remove.c and the commit of sync.c emit
with no argument or with a package. -/
inductive alpm_event_t where
  | ALPM_EVENT_CHECKDEPS_START
  | ALPM_EVENT_CHECKDEPS_DONE
  | ALPM_EVENT_REMOVE_START
  | ALPM_EVENT_REMOVE_DONE
  | ALPM_EVENT_INTEGRITY_START
  | ALPM_EVENT_INTEGRITY_DONE
  | ALPM_EVENT_LOAD_START
  | ALPM_EVENT_LOAD_DONE
  | ALPM_EVENT_FILECONFLICTS_START
  | ALPM_EVENT_FILECONFLICTS_DONE
  | ALPM_EVENT_DISKSPACE_START
  | ALPM_EVENT_DISKSPACE_DONE
deriving DecidableEq, Repr

/-- What the executor does to the outside, in order: system calls that change the
disk (recorded also when they fail), callbacks, scriptlets, database removal,
ldconfig and the call of the installer `_alpm_upgrade_packages`.  Log messages are not
recorded. -/
inductive Action where
  | unlink (path : String)
  | rmdir (path : String)
  | rename (oldpath newpath : String)
  | event (e : alpm_event_t) (pkgname : String)
  | progress (pkgname : String) (percent pkg_count targ_count : Nat)
  | runscriptlet (pkgname script : String)
  | local_db_remove (pkgname : String)
  | ldconfig
  | upgrade_packages
deriving DecidableEq, Repr

/-- Whether the action is an `unlink`, an `rmdir` or a `rename` of the given path. -/
def Action.removes (a : Action) (path : String) : Bool :=
  match a with
  | Action.unlink q => q == path
  | Action.rmdir q => q == path
  | Action.rename q _ => q == path
  | _ => false

/-- The state outside the handle: the disk and the record of actions so far. -/
structure World where
  disk : Disk
  trace : List Action

/-- The collaborators of remove.c that are not part of the sources, as parameters:
glob matching, directory counting, hashing, the access tests, whether a system call
is refused (permissions, busy, non-empty directory), what scriptlets, the database
removal and ldconfig do to the disk, and the signal that interrupts a transaction. -/
structure Env where
  /-- The helper `_alpm_fnmatch(pattern, string)`: 0 when the glob matches. -/
  fnmatch : String → String → Int
  /-- The helper `_alpm_files_in_directory(handle, path, 0)`: the number of entries,
  negative when they cannot be counted. -/
  files_in_directory : Disk → String → Int
  /-- The helper `alpm_compute_md5sum(path)`: `none` is NULL. -/
  compute_md5sum : Disk → String → Option String
  /-- The helper `_alpm_access(handle, NULL, path, W_OK)`: `none` is success, `some e`
  is -1 with `errno = e`. -/
  access_w : Disk → String → Option Errno
  /-- The test `access(path, F_OK) == 0`. -/
  access_f : Disk → String → Bool
  rmdir_ok : Disk → String → Bool
  unlink_ok : Disk → String → Bool
  rename_ok : Disk → String → String → Bool
  runscriptlet : Disk → String → String → Disk
  local_db_remove : Disk → alpm_pkg_t → Disk
  ldconfig : Disk → Disk
  /-- Whether the transaction has been interrupted (its state set to
  `STATE_INTERRUPTED` by the signal handler) when the commit loop reaches the
  target with the given 1-based index. -/
  interrupted_at : Nat → Bool

/-- The system call `lstat(path, &buf)`: fails when nothing is at the path. -/
def lstat (d : Disk) (path : String) : Option Node := d path

/-- The macro `S_ISDIR(buf.st_mode)`. -/
def S_ISDIR : Node → Bool
  | Node.dir => true
  | Node.file _ => false

/-- The system call `unlink(path)`: 0 and the entry is gone, or -1 and nothing
changes.  It needs a non-directory at the path. -/
def sys_unlink (env : Env) (w : World) (path : String) : Int × World :=
  let w1 : World := { w with trace := w.trace ++ [Action.unlink path] }
  match w.disk path with
  | some (Node.file _) =>
    if env.unlink_ok w.disk path then
      (0, { w1 with disk := fun q => if q = path then none else w.disk q })
    else (-1, w1)
  | _ => (-1, w1)

/-- The system call `rmdir(path)`: 0 and the directory is gone, or -1 and nothing
changes.  It needs a directory at the path. -/
def sys_rmdir (env : Env) (w : World) (path : String) : Int × World :=
  let w1 : World := { w with trace := w.trace ++ [Action.rmdir path] }
  match w.disk path with
  | some Node.dir =>
    if env.rmdir_ok w.disk path then
      (0, { w1 with disk := fun q => if q = path then none else w.disk q })
    else (-1, w1)
  | _ => (-1, w1)

/-- The system call `rename(oldpath, newpath)`: 0 and the entry has moved, replacing
what was at `newpath`, or -1 and nothing changes. -/
def sys_rename (env : Env) (w : World) (oldpath newpath : String) : Int × World :=
  let w1 : World := { w with trace := w.trace ++ [Action.rename oldpath newpath] }
  match w.disk oldpath with
  | some n =>
    if env.rename_ok w.disk oldpath newpath then
      (0, { w1 with disk := fun q =>
        if q = newpath then some n else if q = oldpath then none else w.disk q })
    else (-1, w1)
  | none => (-1, w1)

/-- Modelled from the spec: `alpm_list_find(haystack, needle, fn)` of alpm_list.c is
not part of the sources; it returns the first element `d` with `fn(d, needle) == 0`
("if the path matches any glob in `skip_remove`"). -/
def alpm_list_find {α β : Type} (haystack : List α) (needle : β) (fn : α → β → Int) :
    Option α :=
  haystack.find? (fun d => fn d needle == 0)

/-- Modelled from the spec: `_alpm_needbackup(file, pkg)` of backup.c is not part of
the sources; it returns the backup entry of the package for this path, if any ("if P
has a backup entry for this path"). -/
def _alpm_needbackup (file : String) (pkg : alpm_pkg_t) : Option alpm_backup_t :=
  pkg.backup.find? (fun b => strcmp file b.name == 0)

/-- Modelled from the spec: the accessor `alpm_pkg_get_files` of package.c is not part
of the sources; it yields the package's "file list (sorted lexicographic)". -/
def alpm_pkg_get_files (pkg : alpm_pkg_t) : Option alpm_filelist_t := some pkg.files

/-- Modelled from the spec: the accessor `alpm_pkg_get_backup` of package.c is not part
of the sources; it yields the package's "backup-file list (path + expected hash)". -/
def alpm_pkg_get_backup (pkg : alpm_pkg_t) : List alpm_backup_t := pkg.backup

/-! ## The remove executor (remove.c:238-611) -/

/-- The function `can_remove_file` (remove.c:247-271): 1 if the file can be deleted,
0 if not.  `snprintf` into `filepath` is the concatenation (paths shorter than
`PATH_MAX`). -/
def can_remove_file (env : Env) (handle : alpm_handle_t) (w : World) (file : alpm_file_t)
    (skip_remove : List String) : Int :=
  if (alpm_list_find skip_remove file.name env.fnmatch).isSome then
    1
  else
    let filepath := handle.root ++ file.name
    match env.access_w w.disk filepath with
    | some errno =>
      if errno ≠ Errno.EACCES ∧ errno ≠ Errno.ETXTBSY ∧ env.access_f w.disk filepath = true then
        0
      else 1
    | none => 1

/-- The loop over the local package cache in `unlink_file` (remove.c:335-351): the
final value of `found`. -/
def unlink_file_found (oldpkg : alpm_pkg_t) (fileobj : alpm_file_t) :
    List alpm_pkg_t → Bool
  | [] => false
  | local_pkg :: rest =>
    if oldpkg.name_hash = local_pkg.name_hash ∧ strcmp oldpkg.name local_pkg.name = 0 then
      unlink_file_found oldpkg fileobj rest
    else
      let filelist := alpm_pkg_get_files local_pkg
      if (alpm_filelist_contains filelist fileobj.name).isSome then true
      else unlink_file_found oldpkg fileobj rest

/-- The test `newpkg && alpm_filelist_contains(alpm_pkg_get_files(newpkg), name)` of
`unlink_file` (remove.c:326-327). -/
def newpkg_contains (newpkg : Option alpm_pkg_t) (name : String) : Bool :=
  match newpkg with
  | some np => (alpm_filelist_contains (alpm_pkg_get_files np) name).isSome
  | none => false

/-- The function `unlink_file` (remove.c:290-405): 0 on success, -1 if there was an
error unlinking the file, 1 if the file was skipped or did not exist.  `snprintf` into
`file` is the concatenation (paths shorter than `PATH_MAX`); a failing `MALLOC` of the
`.pacsave` name is not modelled. -/
def unlink_file (env : Env) (handle : alpm_handle_t) (oldpkg : alpm_pkg_t)
    (newpkg : Option alpm_pkg_t) (fileobj : alpm_file_t) (skip_remove : List String)
    (nosave : Bool) (w : World) : Int × World :=
  let file := handle.root ++ fileobj.name
  if (alpm_list_find skip_remove fileobj.name env.fnmatch).isSome then
    (1, w)
  else
    match lstat w.disk file with
    | none => (1, w)
    | some buf =>
      if S_ISDIR buf then
        let files := env.files_in_directory w.disk file
        if files > 0 then (0, w)
        else if files < 0 then (0, w)
        else if newpkg_contains newpkg fileobj.name then (0, w)
        else
          let found := unlink_file_found oldpkg fileobj handle.db_local
          if !found then
            let r := sys_rmdir env w file
            if r.1 ≠ 0 then (-1, r.2) else (0, r.2)
          else (0, w)
      else
        let do_unlink : Int × World :=
          let r := sys_unlink env w file
          if r.1 = -1 then (-1, r.2) else (0, r.2)
        match _alpm_needbackup fileobj.name oldpkg with
        | some backup =>
          if nosave then do_unlink
          else
            let filehash := env.compute_md5sum w.disk file
            let cmp : Int := match filehash with
              | some h => strcmp h backup.hash
              | none => 0
            if cmp ≠ 0 then
              let newpath := file ++ ".pacsave"
              let r := sys_rename env w file newpath
              if r.1 ≠ 0 then (-1, r.2) else (0, r.2)
            else do_unlink
        | none => do_unlink

/-- The list `skip_remove` that `remove_package_files` builds (remove.c:430-452);
`alpm_list_strdup` copies, `alpm_list_join` concatenates. -/
def remove_skip_list (handle : alpm_handle_t) (newpkg : Option alpm_pkg_t) : List String :=
  match newpkg with
  | some np =>
    let newfiles := alpm_pkg_get_files np
    (alpm_pkg_get_backup np).foldl
      (fun skip_remove backup =>
        if !(alpm_filelist_contains newfiles backup.name).isSome then skip_remove
        else skip_remove ++ [backup.name])
      (handle.trans.skip_remove ++ handle.noupgrade)
  | none => handle.trans.skip_remove

/-- The removability precheck of `remove_package_files` (remove.c:455-464): `true`
when the loop ends without finding a file that cannot be removed. -/
def remove_precheck (env : Env) (handle : alpm_handle_t) (w : World)
    (skip_remove : List String) : List alpm_file_t → Bool
  | [] => true
  | file :: rest =>
    if can_remove_file env handle w file skip_remove = 0 then false
    else remove_precheck env handle w skip_remove rest

/-- One round of the unlink loop of `remove_package_files` (remove.c:476-486) for the
entry `files + i - 1`; the state is the world and `err`.  Here `idx` is `i - 1`. -/
def unlink_round (env : Env) (handle : alpm_handle_t) (oldpkg : alpm_pkg_t)
    (newpkg : Option alpm_pkg_t) (skip_remove : List String) (nosave : Bool)
    (targ_count pkg_count count : Nat) (idx : Nat) (file : alpm_file_t)
    (st : World × Int) : World × Int :=
  let r := unlink_file env handle oldpkg newpkg file skip_remove nosave st.1
  let err := if r.1 < 0 then st.2 + 1 else st.2
  let w := r.2
  match newpkg with
  | none =>
    let percent := ((count - (idx + 1)) * 100) / count
    ({ w with trace := w.trace ++
        [Action.progress oldpkg.name percent pkg_count targ_count] }, err)
  | some _ => (w, err)

/-- The unlink loop of `remove_package_files` (remove.c:475-487),
`for(i = count; i > 0; i--)`: the first argument is `i`. -/
def unlink_loop (env : Env) (handle : alpm_handle_t) (oldpkg : alpm_pkg_t)
    (newpkg : Option alpm_pkg_t) (skip_remove : List String) (nosave : Bool)
    (targ_count pkg_count : Nat) (filelist : alpm_filelist_t) :
    (i : Nat) → i ≤ filelist.length → World × Int → World × Int
  | 0, _, st => st
  | i + 1, h, st =>
    unlink_loop env handle oldpkg newpkg skip_remove nosave targ_count pkg_count filelist i
      (Nat.le_of_succ_le h)
      (unlink_round env handle oldpkg newpkg skip_remove nosave targ_count pkg_count
        filelist.length i (filelist.get ⟨i, h⟩) st)

/-- The function `remove_package_files` (remove.c:420-497): 0 on success, -1 if the
package is rejected, otherwise the number of files that could not be deleted. -/
def remove_package_files (env : Env) (handle : alpm_handle_t) (oldpkg : alpm_pkg_t)
    (newpkg : Option alpm_pkg_t) (targ_count pkg_count : Nat) (w : World) :
    Int × alpm_handle_t × World :=
  let nosave := handle.trans.flags.NOSAVE
  let skip_remove := remove_skip_list handle newpkg
  let filelist := oldpkg.files
  if !remove_precheck env handle w skip_remove filelist then
    (-1, { handle with pm_errno := alpm_errno_t.ALPM_ERR_PKG_CANT_REMOVE }, w)
  else
    let w1 : World := match newpkg with
      | none => { w with trace := w.trace ++
          [Action.progress oldpkg.name 0 pkg_count targ_count] }
      | some _ => w
    let st := unlink_loop env handle oldpkg newpkg skip_remove nosave targ_count pkg_count
      filelist filelist.length (Nat.le_refl _) (w1, 0)
    let w2 : World := match newpkg with
      | none => { st.1 with trace := st.1.trace ++
          [Action.progress oldpkg.name 100 pkg_count targ_count] }
      | some _ => st.1
    (st.2, handle, w2)

/-- Modelled from the spec: `_alpm_db_remove_pkgfromcache(db, pkg)` of db.c is not
part of the sources; it takes the package of that name out of the in-memory cache
("remove P from the in-memory cache"). -/
def _alpm_db_remove_pkgfromcache (db : List alpm_pkg_t) (pkg : alpm_pkg_t) : List alpm_pkg_t :=
  db.filter (fun p => !(p.name == pkg.name))

/-- Running a scriptlet of the package when it has one and scriptlets are not
suppressed (remove.c:526-532 and 541-547). -/
def run_remove_scriptlet (env : Env) (handle : alpm_handle_t) (oldpkg : alpm_pkg_t)
    (script : String) (w : World) : World :=
  if oldpkg.scriptlet ∧ !handle.trans.flags.NOSCRIPTLET then
    { disk := env.runscriptlet w.disk oldpkg.name script,
      trace := w.trace ++ [Action.runscriptlet oldpkg.name script] }
  else w

/-- The function `_alpm_remove_single_package` (remove.c:510-567). -/
def _alpm_remove_single_package (env : Env) (handle : alpm_handle_t) (oldpkg : alpm_pkg_t)
    (newpkg : Option alpm_pkg_t) (targ_count pkg_count : Nat) (w : World) :
    Int × alpm_handle_t × World :=
  let w1 : World := match newpkg with
    | some _ => w
    | none =>
      run_remove_scriptlet env handle oldpkg "pre_remove"
        { w with trace := w.trace ++
            [Action.event alpm_event_t.ALPM_EVENT_REMOVE_START oldpkg.name] }
  let hw2 : alpm_handle_t × World :=
    if !handle.trans.flags.DBONLY then
      let r := remove_package_files env handle oldpkg newpkg targ_count pkg_count w1
      (r.2.1, r.2.2)
    else (handle, w1)
  let w3 : World := match newpkg with
    | some _ => hw2.2
    | none =>
      let w' := run_remove_scriptlet env hw2.1 oldpkg "post_remove" hw2.2
      { w' with trace := w'.trace ++
          [Action.event alpm_event_t.ALPM_EVENT_REMOVE_DONE oldpkg.name] }
  let w4 : World :=
    { disk := env.local_db_remove w3.disk oldpkg,
      trace := w3.trace ++ [Action.local_db_remove oldpkg.name] }
  let handle5 : alpm_handle_t :=
    { hw2.1 with db_local := _alpm_db_remove_pkgfromcache hw2.1.db_local oldpkg }
  (0, handle5, w4)

/-- The state of the loop of `_alpm_remove_packages`: handle, world, `run_ldconfig`
and `ret`. -/
structure RemoveLoopState where
  handle : alpm_handle_t
  world : World
  run_ldconfig : Bool
  ret : Int

/-- The handle as the commit loop finds it when it reaches the target with the given
1-based index: the signal handler may have set the transaction state to
`STATE_INTERRUPTED` in the meantime. -/
def poll_interrupt (env : Env) (targ_count : Nat) (handle : alpm_handle_t) : alpm_handle_t :=
  if env.interrupted_at targ_count then
    { handle with trans := { handle.trans with state := alpm_transstate_t.STATE_INTERRUPTED } }
  else handle

/-- The loop of `_alpm_remove_packages` (remove.c:587-603) over the targets from
`targ` on; the boolean tells whether the loop ended by the early `return ret` on
interruption. -/
def remove_packages_loop (env : Env) (pkg_count : Nat) :
    List alpm_pkg_t → Nat → RemoveLoopState → RemoveLoopState × Bool
  | [], _, st => (st, false)
  | pkg :: rest, targ_count, st =>
    let handle := poll_interrupt env targ_count st.handle
    if handle.trans.state = alpm_transstate_t.STATE_INTERRUPTED then
      ({ st with handle := handle }, true)
    else
      let r := _alpm_remove_single_package env handle pkg none targ_count pkg_count st.world
      let st1 : RemoveLoopState :=
        if r.1 = -1 then
          { handle := { r.2.1 with pm_errno := alpm_errno_t.ALPM_ERR_TRANS_ABORT },
            world := r.2.2, run_ldconfig := false, ret := -1 }
        else
          { handle := r.2.1, world := r.2.2, run_ldconfig := st.run_ldconfig, ret := st.ret }
      remove_packages_loop env pkg_count rest (targ_count + 1) st1

/-- The function `_alpm_remove_packages` (remove.c:577-611): 0 on success, -1 if
errors occurred while removing files. -/
def _alpm_remove_packages (env : Env) (handle : alpm_handle_t) (run_ldconfig : Bool)
    (w : World) : Int × alpm_handle_t × World :=
  let trans := handle.trans
  let pkg_count := trans.remove.length
  let r := remove_packages_loop env pkg_count trans.remove 1
    { handle := handle, world := w, run_ldconfig := run_ldconfig, ret := 0 }
  let st := r.1
  if r.2 then
    (st.ret, st.handle, st.world)
  else if st.run_ldconfig then
    (st.ret, st.handle,
      { disk := env.ldconfig st.world.disk, trace := st.world.trace ++ [Action.ldconfig] })
  else
    (st.ret, st.handle, st.world)

/-- The unlink phase as the spec describes it ("iterate P's file list in reverse sorted
order ... then for each file"): one round of the loop for each entry of the file list,
each entry with its index, from the last entry to the first. -/
def unlink_reverse_order (env : Env) (handle : alpm_handle_t) (oldpkg : alpm_pkg_t)
    (newpkg : Option alpm_pkg_t) (skip_remove : List String) (nosave : Bool)
    (targ_count pkg_count : Nat) (filelist : alpm_filelist_t) (st : World × Int) :
    World × Int :=
  filelist.enum.reverse.foldl
    (fun st p => unlink_round env handle oldpkg newpkg skip_remove nosave targ_count
      pkg_count filelist.length p.1 p.2 st) st

/-! ## The sync planner (sync.c:82-236) -/

/-- The collaborators of the planning code that are not part of the sources, as
parameters: version comparison, the ignore lists, the dependency matcher and the answers
of the front-end.  A question is identified by the number of questions asked before
it, so that every sequence of answers is some `question_replace_pkg`. -/
structure PlanEnv where
  /-- The helper `_alpm_pkg_compare_versions(spkg, lpkg)`: positive when `spkg` is
  newer, negative when older, 0 when equal. -/
  pkg_compare_versions : alpm_pkg_t → alpm_pkg_t → Int
  /-- The helper `_alpm_pkg_should_ignore(handle, pkg)` (IgnorePkg and IgnoreGroup). -/
  pkg_should_ignore : alpm_pkg_t → Bool
  /-- The helper `_alpm_depcmp_literal(pkg, dep)`: the literal match of the spec. -/
  depcmp_literal : alpm_pkg_t → alpm_depend_t → Bool
  /-- The helper `_alpm_depcmp(pkg, dep)`: whether the package satisfies the
  dependency expression, by its name or by a provides entry. -/
  depcmp : alpm_pkg_t → alpm_depend_t → Bool
  /-- The answer `doreplace` to `QUESTION(handle, ALPM_QUESTION_REPLACE_PKG, lpkg, spkg,
  treename, &doreplace)` when it is the question with the given number; without a
  callback the answer is no. -/
  question_replace_pkg : Nat → alpm_pkg_t → alpm_pkg_t → String → Bool

/-- Modelled from the spec: `_alpm_pkg_find(haystack, needle)` of package.c is not part
of the sources; it returns the first package of the list with the given name
("identity-by-name"). -/
def _alpm_pkg_find (haystack : List alpm_pkg_t) (needle : String) : Option alpm_pkg_t :=
  haystack.find? (fun p => p.name == needle)

/-- Modelled from the spec: `_alpm_db_get_pkgfromcache(db, target)` of db.c is not part
of the sources; a database is "a set of packages keyed by name", and this is the lookup
by name in its package cache. -/
def _alpm_db_get_pkgfromcache (pkgcache : List alpm_pkg_t) (target : String) :
    Option alpm_pkg_t :=
  pkgcache.find? (fun p => p.name == target)

/-- The handle with `trans->add` replaced. -/
def set_add (handle : alpm_handle_t) (add : List alpm_pkg_t) : alpm_handle_t :=
  { handle with trans := { handle.trans with add := add } }

/-- An assignment through the pointer that `_alpm_pkg_find(list, name)` returned: the
first package of that name in the list is replaced. -/
def update_found (list : List alpm_pkg_t) (name : String) (f : alpm_pkg_t → alpm_pkg_t) :
    List alpm_pkg_t :=
  match list with
  | [] => []
  | p :: rest => if p.name == name then f p :: rest else p :: update_found rest name f

/-- The function `check_literal` (sync.c:82-119): 1 when the sync package is to be
scheduled, 0 otherwise. -/
def check_literal (env : PlanEnv) (lpkg spkg : alpm_pkg_t) (enable_downgrade : Bool) : Int :=
  let cmp := env.pkg_compare_versions spkg lpkg
  if cmp > 0 then
    if env.pkg_should_ignore spkg || env.pkg_should_ignore lpkg then 0
    else 1
  else if cmp < 0 then
    if enable_downgrade then
      if env.pkg_should_ignore spkg || env.pkg_should_ignore lpkg then 0
      else 1
    else 0
  else 0

/-- The assignments to `tpkg` in `check_replacers` (sync.c:172-176): `lpkg` is appended
to the removes list, and the reason becomes EXPLICIT when `lpkg` was explicit. -/
def append_removes (lpkg tpkg : alpm_pkg_t) : alpm_pkg_t :=
  { tpkg with
    removes := tpkg.removes ++ [lpkg.name],
    reason :=
      if lpkg.reason = alpm_pkgreason_t.ALPM_PKG_REASON_EXPLICIT then
        alpm_pkgreason_t.ALPM_PKG_REASON_EXPLICIT
      else tpkg.reason }

/-- The assignments to `spkg` in `check_replacers` (sync.c:180-181): the reason of
`lpkg` is copied over and the removes list is `lpkg` alone. -/
def new_replacer (lpkg spkg : alpm_pkg_t) : alpm_pkg_t :=
  { spkg with reason := lpkg.reason, removes := [lpkg.name] }

/-- The state of the loop of `check_replacers`: the handle (whose `trans->add` the loop
changes through `tpkg`), the list `replacers` and the number of questions asked. -/
structure ReplacersState where
  handle : alpm_handle_t
  replacers : List alpm_pkg_t
  nq : Nat

/-- One round of the loop of `check_replacers` (sync.c:130-188), for the package `spkg`
of the repository.  The package object in the repository cache is also the one that ends
up in `trans->add`; the model changes the copy in `replacers` or in `trans->add`. -/
def check_replacers_pkg (env : PlanEnv) (lpkg : alpm_pkg_t) (sdb : alpm_db_t)
    (st : ReplacersState) (spkg : alpm_pkg_t) : ReplacersState :=
  let found := spkg.replaces.any (fun replace => env.depcmp_literal lpkg replace)
  if found then
    if env.pkg_should_ignore spkg || env.pkg_should_ignore lpkg then st
    else
      let doreplace := env.question_replace_pkg st.nq lpkg spkg sdb.treename
      let st1 : ReplacersState := { st with nq := st.nq + 1 }
      if !doreplace then st1
      else
        match _alpm_pkg_find st.handle.trans.add spkg.name with
        | some tpkg =>
          if tpkg.db ≠ some sdb.treename then st1
          else
            let add := update_found st.handle.trans.add spkg.name (append_removes lpkg)
            { st1 with handle := set_add st.handle add }
        | none =>
          { st1 with replacers := st.replacers ++ [new_replacer lpkg spkg] }
  else st

/-- The function `check_replacers` (sync.c:121-190). -/
def check_replacers (env : PlanEnv) (handle : alpm_handle_t) (lpkg : alpm_pkg_t)
    (sdb : alpm_db_t) (nq : Nat) : ReplacersState :=
  sdb.pkgcache.foldl (check_replacers_pkg env lpkg sdb)
    { handle := handle, replacers := [], nq := nq }

/-- The loop over the sync repositories in `alpm_sync_sysupgrade` (sync.c:213-232) for
the local package `lpkg`, from the repository `j` on; the state is the handle and the
number of questions asked. -/
def sysupgrade_dbs (env : PlanEnv) (lpkg : alpm_pkg_t) (enable_downgrade : Bool) :
    List alpm_db_t → alpm_handle_t × Nat → alpm_handle_t × Nat
  | [], st => st
  | sdb :: rest, st =>
    match _alpm_db_get_pkgfromcache sdb.pkgcache lpkg.name with
    | some spkg =>
      let literal_upgrade := check_literal env lpkg spkg enable_downgrade
      if literal_upgrade ≠ 0 then (set_add st.1 (st.1.trans.add ++ [spkg]), st.2)
      else st
    | none =>
      let r := check_replacers env st.1 lpkg sdb st.2
      let handle1 :=
        if r.replacers ≠ [] then set_add r.handle (r.handle.trans.add ++ r.replacers)
        else r.handle
      sysupgrade_dbs env lpkg enable_downgrade rest (handle1, r.nq)

/-- One round of the loop over the local packages in `alpm_sync_sysupgrade`
(sync.c:204-233). -/
def sysupgrade_local (env : PlanEnv) (enable_downgrade : Bool) (st : alpm_handle_t × Nat)
    (lpkg : alpm_pkg_t) : alpm_handle_t × Nat :=
  if (_alpm_pkg_find st.1.trans.add lpkg.name).isSome then st
  else sysupgrade_dbs env lpkg enable_downgrade st.1.dbs_sync st

/-- The function `alpm_sync_sysupgrade` (sync.c:193-236); the handle and the
transaction are not NULL.  The last component is the number of questions asked. -/
def alpm_sync_sysupgrade (env : PlanEnv) (handle : alpm_handle_t) (enable_downgrade : Bool)
    (nq : Nat) : Int × alpm_handle_t × Nat :=
  if handle.trans.state ≠ alpm_transstate_t.STATE_INITIALIZED then
    (-1, { handle with pm_errno := alpm_errno_t.ALPM_ERR_TRANS_NOT_INITIALIZED }, nq)
  else
    let st := handle.db_local.foldl (sysupgrade_local env enable_downgrade) (handle, nq)
    (0, st.1, st.2)

/-- The replacer scan of the repositories of a list, one after the other:
`check_replacers` on each repository, its replacers joined to `trans->add`
(sync.c:226-230). -/
def replacers_of_repos (env : PlanEnv) (lpkg : alpm_pkg_t) (dbs : List alpm_db_t)
    (st : alpm_handle_t × Nat) : alpm_handle_t × Nat :=
  dbs.foldl (fun st sdb =>
    let r := check_replacers env st.1 lpkg sdb st.2
    (if r.replacers ≠ [] then set_add r.handle (r.handle.trans.add ++ r.replacers)
     else r.handle, r.nq)) st

/-- The number of packages of a list that have the given local package in their
removes list. -/
def removers (name : String) (l : List alpm_pkg_t) : Nat :=
  l.countP (fun p => decide (name ∈ p.removes))

/-! ## The dependency helpers (deps.c, outside the sources) -/

/-- Modelled from the spec: `alpm_depmissing_t` is declared in alpm.h, which is not part
of the sources; the "unsatisfied-dependency record carrying the depending package and
the unmet expression".  remove.c reads its fields `target` (the depending package) and
`causingpkg` (the package whose removal breaks the dependency, NULL when there is
none). -/
structure alpm_depmissing_t where
  target : String
  depend : alpm_depend_t
  causingpkg : Option String := none
deriving DecidableEq, Repr

/-- Modelled from the spec: `find_dep_satisfier` of deps.c is not part of the sources;
the first package of the list that satisfies the expression (§4.3). -/
def find_dep_satisfier (env : PlanEnv) (pkgs : List alpm_pkg_t) (dep : alpm_depend_t) :
    Option alpm_pkg_t :=
  pkgs.find? (fun p => env.depcmp p dep)

/-- Modelled from the spec: `_alpm_dep_edge` of deps.c is not part of the sources;
"x depends on y": some dependency expression of `pkg1` is satisfied by `pkg2`. -/
def _alpm_dep_edge (env : PlanEnv) (pkg1 pkg2 : alpm_pkg_t) : Bool :=
  pkg1.depends.any (fun d => env.depcmp pkg2 d)

/-- Modelled from the spec: `alpm_checkdeps(handle, pkglist, rem, upgrade, reversedeps)`
of deps.c is not part of the sources.  The dependency check of the packages `pkglist`
"treating `add` installed and `remove` gone": the packages of `pkglist` named in `rem`
or `upgrade` are the modified ones, the others remain.  One record for every dependency
of an upgrade package that no upgrade package and no remaining package satisfies; with
`reversedeps`, one record for every dependency of a remaining package that a modified
package satisfied (the causing package) and that no upgrade package and no remaining
package satisfies. -/
def alpm_checkdeps (env : PlanEnv) (pkglist rem upgrade : List alpm_pkg_t)
    (reversedeps : Bool) : List alpm_depmissing_t :=
  let touched := fun (pkg : alpm_pkg_t) =>
    (_alpm_pkg_find rem pkg.name).isSome || (_alpm_pkg_find upgrade pkg.name).isSome
  let modified := pkglist.filter touched
  let dblist := pkglist.filter (fun pkg => !touched pkg)
  let unsatisfied := fun (dep : alpm_depend_t) =>
    (find_dep_satisfier env upgrade dep).isNone && (find_dep_satisfier env dblist dep).isNone
  let baddeps : List alpm_depmissing_t := upgrade.flatMap (fun tp =>
    (tp.depends.filter unsatisfied).map (fun dep => { target := tp.name, depend := dep }))
  if reversedeps then
    baddeps ++ dblist.flatMap (fun lp =>
      lp.depends.filterMap (fun dep =>
        match find_dep_satisfier env modified dep with
        | some causingpkg =>
          if unsatisfied dep then
            some { target := lp.name, depend := dep, causingpkg := some causingpkg.name }
          else none
        | none => none))
  else baddeps

/-- Modelled from the spec: the depth-first visit of `_alpm_sortbydeps` (deps.c, not part
of the sources): "DFS with a grey/black marker" on the vertices `0 .. n-1` with the edge
relation `g`.  `seen` holds the vertices that are grey or black, `out` the black ones in
the order in which they were left.  A vertex already seen is skipped (for a grey one
this is where a cycle is detected and broken); the children are visited in vertex
order; the first argument bounds the depth. -/
def sort_visit (g : Nat → Nat → Bool) (n : Nat) :
    Nat → Nat → List Nat × List Nat → List Nat × List Nat
  | 0, _, st => st
  | fuel + 1, v, st =>
    if st.1.contains v then st
    else
      let st1 := (List.range n).foldl
        (fun st c => if g v c then sort_visit g n fuel c st else st) (v :: st.1, st.2)
      (st1.1, st1.2 ++ [v])

/-- Modelled from the spec: the outer loop of `_alpm_sortbydeps` (deps.c, not part of the
sources): the visit of all vertices in order, from nothing seen. -/
def sort_order (g : Nat → Nat → Bool) (n : Nat) : List Nat :=
  ((List.range n).foldl (fun st v => sort_visit g n n v st) ([], [])).2

/-- The invariant of the depth-first visit: the vertices seen are distinct vertices of
the graph, the vertices left are distinct and seen, every child of a vertex left has
been left, and no vertex left has an edge to a vertex left after it. -/
structure DfsInv (A : Prop) (g : Nat → Nat → Bool) (n : Nat) (st : List Nat × List Nat) :
    Prop where
  seen_lt : ∀ x ∈ st.1, x < n
  seen_nodup : st.1.Nodup
  out_sub : ∀ x ∈ st.2, x ∈ st.1
  out_nodup : st.2.Nodup
  closed : A → ∀ a ∈ st.2, ∀ c, c < n → g a c = true → c ∈ st.2
  ordered : A → st.2.Pairwise (fun a b => g a b = false)

/-- What a part of the depth-first visit does to the state: vertices are only added,
no vertex becomes grey (seen and not left) for good, and a vertex that is left during
it had not been seen before. -/
structure DfsStep (st st' : List Nat × List Nat) : Prop where
  seen_mono : ∀ x ∈ st.1, x ∈ st'.1
  out_mono : ∀ x ∈ st.2, x ∈ st'.2
  grey : ∀ u ∈ st'.1, u ∉ st'.2 → u ∈ st.1 ∧ u ∉ st.2
  fresh : ∀ u ∈ st'.2, u ∈ st.2 ∨ u ∉ st.1
  len : st.1.length ≤ st'.1.length

/-- Modelled from the spec: the graph of `_alpm_sortbydeps` (deps.c, not part of the
sources): "an edge x → y iff x depends on y and y is in S", on the positions of the
target list. -/
def dep_graph (env : PlanEnv) (targets : List alpm_pkg_t) (i j : Nat) : Bool :=
  match targets[i]?, targets[j]? with
  | some p, some q => _alpm_dep_edge env p q
  | _, _ => false

/-- Modelled from the spec: `_alpm_sortbydeps(handle, targets, reverse)` of deps.c is not
part of the sources; the targets in the order in which the depth-first visit leaves
them (dependencies first), reversed when `reverse` is set: "the `remove` ordering is the
reversed install ordering". -/
def _alpm_sortbydeps (env : PlanEnv) (targets : List alpm_pkg_t) (reverse : Bool) :
    List alpm_pkg_t :=
  let newtargs := (sort_order (dep_graph env targets) targets.length).filterMap
    (fun i => targets[i]?)
  if reverse then newtargs.reverse else newtargs

/-! ## Preparing a remove transaction (remove.c:84-236) -/

/-- The collaborators of the prepare step that are not part of the sources, on top of
those of the planner. -/
structure PrepareEnv extends PlanEnv where
  /-- The helper `_alpm_recursedeps(db, targs, include_explicit)` of deps.c: the return
  code and the target list, to which it appends the dependencies that nothing else
  requires. -/
  recursedeps : List alpm_pkg_t → List alpm_pkg_t → Bool → Int × List alpm_pkg_t

/-- The handle with `trans->remove` replaced. -/
def set_remove (handle : alpm_handle_t) (remove : List alpm_pkg_t) : alpm_handle_t :=
  { handle with trans := { handle.trans with remove := remove } }

/-- One round of the `for` loop of `remove_prepare_cascade` (remove.c:98-114): the
package that the record names as target is looked up in the local database and a copy
is appended to `trans->remove` unless a package of that name is there. -/
def cascade_miss (handle : alpm_handle_t) (miss : alpm_depmissing_t) : alpm_handle_t :=
  match _alpm_db_get_pkgfromcache handle.db_local miss.target with
  | some info =>
    if (_alpm_pkg_find handle.trans.remove info.name).isNone then
      set_remove handle (handle.trans.remove ++ [info])
    else handle
  | none => handle

/-- The function `remove_prepare_cascade` (remove.c:92-122); the first argument bounds
the number of rounds of the `while` loop, `none` when it does not suffice.  Allocation
does not fail, so that `_alpm_pkg_dup` returns 0. -/
def remove_prepare_cascade (env : PlanEnv) :
    Nat → alpm_handle_t → List alpm_depmissing_t → Option (Int × alpm_handle_t)
  | _, handle, [] => some (0, handle)
  | 0, _, _ :: _ => none
  | fuel + 1, handle, miss :: lp =>
    let handle1 := (miss :: lp).foldl cascade_miss handle
    remove_prepare_cascade env fuel handle1
      (alpm_checkdeps env handle1.db_local handle1.trans.remove [] true)

/-- Modelled from the spec: `alpm_list_remove(haystack, needle, fn, &data)` of
alpm_list.c is not part of the sources; with `_alpm_pkg_cmp` the first package that has
the name of the needle is taken out of the list. -/
def alpm_list_remove (haystack : List alpm_pkg_t) (needle : alpm_pkg_t) : List alpm_pkg_t :=
  haystack.eraseP (fun p => p.name == needle.name)

/-- One round of the `for` loop of `remove_prepare_keep_needed` (remove.c:137-151): the
causing package of the record is taken out of `trans->remove` when it is there. -/
def keep_needed_miss (handle : alpm_handle_t) (miss : alpm_depmissing_t) : alpm_handle_t :=
  match miss.causingpkg with
  | none => handle
  | some causingpkg =>
    match _alpm_pkg_find handle.trans.remove causingpkg with
    | none => handle
    | some pkg => set_remove handle (alpm_list_remove handle.trans.remove pkg)

/-- The function `remove_prepare_keep_needed` (remove.c:130-158); the first argument
bounds the number of rounds of the `while` loop, `none` when it does not suffice. -/
def remove_prepare_keep_needed (env : PlanEnv) :
    Nat → alpm_handle_t → List alpm_depmissing_t → Option alpm_handle_t
  | _, handle, [] => some handle
  | 0, _, _ :: _ => none
  | fuel + 1, handle, miss :: lp =>
    let handle1 := (miss :: lp).foldl keep_needed_miss handle
    remove_prepare_keep_needed env fuel handle1
      (alpm_checkdeps env handle1.db_local handle1.trans.remove [] true)

/-- The dependency check of `_alpm_remove_prepare` (remove.c:187-212): the return code,
the handle and what is handed out through `data`.  A round of the cascade loop adds a
package of the local database and a round of the keep-needed loop drops a target, which
bounds their numbers. -/
def remove_prepare_checkdeps (env : PlanEnv) (handle : alpm_handle_t) :
    Option (Int × alpm_handle_t × List alpm_depmissing_t) :=
  let lp := alpm_checkdeps env handle.db_local handle.trans.remove [] true
  if lp ≠ [] then
    if handle.trans.flags.CASCADE then
      match remove_prepare_cascade env (handle.db_local.length + 1) handle lp with
      | some (r, handle1) => if r ≠ 0 then some (-1, handle1, []) else some (0, handle1, [])
      | none => none
    else if handle.trans.flags.UNNEEDED then
      match remove_prepare_keep_needed env (handle.trans.remove.length + 1) handle lp with
      | some handle1 => some (0, handle1, [])
      | none => none
    else
      some (-1, { handle with pm_errno := alpm_errno_t.ALPM_ERR_UNSATISFIED_DEPS }, lp)
  else some (0, handle, [])

/-- The function `_alpm_remove_prepare` (remove.c:172-236): the return code, the handle
and what is handed out through `data`; `none` when a loop bound did not suffice.  The
events CHECKDEPS_START and CHECKDEPS_DONE and the log lines are not part of the
state. -/
def _alpm_remove_prepare (env : PrepareEnv) (handle : alpm_handle_t) :
    Option (Int × alpm_handle_t × List alpm_depmissing_t) :=
  let flags := handle.trans.flags
  let r1 :=
    if flags.RECURSE && !flags.CASCADE then
      env.recursedeps handle.db_local handle.trans.remove flags.RECURSEALL
    else (0, handle.trans.remove)
  let handle1 := set_remove handle r1.2
  if r1.1 ≠ 0 then some (-1, handle1, [])
  else
    match (if flags.NODEPS then some (0, handle1, [])
      else remove_prepare_checkdeps env.toPlanEnv handle1) with
    | none => none
    | some (ret, handle2, data) =>
      if ret ≠ 0 then some (ret, handle2, data)
      else
        let handle3 :=
          set_remove handle2 (_alpm_sortbydeps env.toPlanEnv handle2.trans.remove true)
        let r2 :=
          if flags.CASCADE && flags.RECURSE then
            env.recursedeps handle3.db_local handle3.trans.remove flags.RECURSEALL
          else (0, handle3.trans.remove)
        if r2.1 ≠ 0 then some (-1, set_remove handle3 r2.2, [])
        else some (0, set_remove handle3 r2.2, [])

/-! ## Preparing a sync transaction (sync.c:284-631) -/

/-- Modelled from the spec: `alpm_conflict_t` is declared in alpm.h, which is not part
of the sources; sync.c reads the names of the two conflicting packages and the
expression that is the reason. -/
structure alpm_conflict_t where
  package1 : String
  package2 : String
  reason : alpm_depend_t
deriving DecidableEq, Repr

/-- The collaborators of `_alpm_sync_prepare` that are not part of the sources, on top
of those of the planner. -/
structure SyncEnv extends PlanEnv where
  /-- The helper `_alpm_resolvedeps(handle, localpkgs, pkg, preferred, &packages, remove,
  data)` of deps.c: the return code, the list `packages` after the call and `pm_errno`
  after the call. -/
  resolvedeps : alpm_handle_t → List alpm_pkg_t → alpm_pkg_t → List alpm_pkg_t →
    List alpm_pkg_t → List String → Int × List alpm_pkg_t × alpm_errno_t
  /-- The answer to `QUESTION(handle, ALPM_QUESTION_REMOVE_PKGS, unresolvable, ...)`. -/
  question_remove_pkgs : List alpm_pkg_t → Bool
  /-- The helper `_alpm_innerconflicts(handle, packages)` of conflict.c. -/
  innerconflicts : List alpm_pkg_t → List alpm_conflict_t
  /-- The helper `_alpm_outerconflicts(db, packages)` of conflict.c. -/
  outerconflicts : List alpm_pkg_t → List alpm_pkg_t → List alpm_conflict_t
  /-- The helper `_alpm_splitdep(depstring)` of deps.c. -/
  splitdep : String → alpm_depend_t
  /-- The answer to `QUESTION(handle, ALPM_QUESTION_CONFLICT_PKG, package1, package2,
  reason, &doremove)`. -/
  question_conflict_pkg : String → String → String → Bool
  /-- The helper `_alpm_filecache_find(handle, filename)`: the path of the file in a
  cache directory, `none` is NULL. -/
  filecache_find : String → Option String
  /-- The size `st.st_size` when `stat(fpath, &st) == 0`. -/
  stat_size : String → Option Int
  /-- The test `handle->deltaratio > 0.0`. -/
  use_deltas : Bool
  /-- The helper `_alpm_shortest_delta_path(handle, newpkg->deltas, newpkg->filename,
  &newpkg->delta_path)`: the size of the download by deltas, and whether a path was
  found whose size is below `newpkg->size * handle->deltaratio`. -/
  shortest_delta_path : alpm_pkg_t → Int × Bool

/-- The end of `compute_download_size` (sync.c:341-351): the size is recorded. -/
def set_download_size (newpkg : alpm_pkg_t) (size : Int) : alpm_pkg_t :=
  { newpkg with infolevel_dsize := true, download_size := size }

/-- The function `compute_download_size` (sync.c:284-352): the return code, the handle
(for `pm_errno`) and the package.  Allocation does not fail; the field `delta_path` is
not part of the package model. -/
def compute_download_size (env : SyncEnv) (handle : alpm_handle_t) (newpkg : alpm_pkg_t) :
    Int × alpm_handle_t × alpm_pkg_t :=
  if newpkg.origin ≠ alpm_pkgfrom_t.ALPM_PKG_FROM_SYNCDB then
    (0, handle, set_download_size newpkg 0)
  else
    match newpkg.filename with
    | none => (-1, { handle with pm_errno := alpm_errno_t.ALPM_ERR_PKG_INVALID_NAME }, newpkg)
    | some fname =>
      match env.filecache_find fname with
      | some _ => (0, handle, set_download_size newpkg 0)
      | none =>
        match env.filecache_find (fname ++ ".part") with
        | some fpath =>
          let size : Int :=
            match env.stat_size fpath with
            | some st_size => if newpkg.size - st_size < 0 then 0 else newpkg.size - st_size
            | none => 0
          (1, handle, set_download_size newpkg size)
        | none =>
          if env.use_deltas then
            let d := env.shortest_delta_path newpkg
            if d.2 then (0, handle, set_download_size newpkg d.1)
            else (0, handle, set_download_size newpkg newpkg.size)
          else (0, handle, set_download_size newpkg newpkg.size)

/-- The last loop of `_alpm_sync_prepare` (sync.c:619-626) over the packages of
`trans->add` from some package on: the return code, the handle and the packages. -/
def compute_download_sizes (env : SyncEnv) :
    List alpm_pkg_t → alpm_handle_t → Int × alpm_handle_t × List alpm_pkg_t
  | [], handle => (0, handle, [])
  | spkg :: rest, handle =>
    let r := compute_download_size env handle spkg
    if r.1 < 0 then (-1, r.2.1, r.2.2 :: rest)
    else
      let r2 := compute_download_sizes env rest r.2.1
      (r2.1, r2.2.1, r.2.2 :: r2.2.2)

/-- The check of the sync databases in `_alpm_sync_prepare` (sync.c:372-382): the error
of the first database that is invalid, or missing while there are sync targets. -/
def sync_db_status (from_sync : Nat) : List alpm_db_t → Option alpm_errno_t
  | [] => none
  | db :: rest =>
    if db.status_invalid then some alpm_errno_t.ALPM_ERR_DB_INVALID
    else if from_sync ≠ 0 && db.status_missing then some alpm_errno_t.ALPM_ERR_DB_NOT_FOUND
    else sync_db_status from_sync rest

/-- The state of the loop that resolves the targets (sync.c:407-415): the list
`resolved`, the list `unresolvable` and `pm_errno`. -/
structure ResolveState where
  resolved : List alpm_pkg_t
  unresolvable : List alpm_pkg_t
  pm_errno : alpm_errno_t

/-- One round of the loop that resolves the targets (sync.c:407-415). -/
def resolve_target (env : SyncEnv) (handle : alpm_handle_t) (localpkgs : List alpm_pkg_t)
    (remove : List String) (st : ResolveState) (pkg : alpm_pkg_t) : ResolveState :=
  let r := env.resolvedeps { handle with pm_errno := st.pm_errno } localpkgs pkg
    handle.trans.add st.resolved remove
  if r.1 = -1 then
    { resolved := r.2.1, unresolvable := st.unresolvable ++ [pkg], pm_errno := r.2.2 }
  else { resolved := r.2.1, unresolvable := st.unresolvable, pm_errno := r.2.2 }

/-- The assignment `pkg->reason = ALPM_PKG_REASON_DEPEND` for the packages pulled in
(sync.c:448-454). -/
def set_depend_reason (add : List alpm_pkg_t) (pkg : alpm_pkg_t) : alpm_pkg_t :=
  if (_alpm_pkg_find add pkg.name).isNone then
    { pkg with reason := alpm_pkgreason_t.ALPM_PKG_REASON_DEPEND }
  else pkg

/-- The end of the resolution (sync.c:447-467): the packages pulled in get the reason
DEPEND, the unresolvable targets are set aside and `trans->add` becomes the resolved
list, sorted by dependencies. -/
def resolve_finish (env : SyncEnv) (handle : alpm_handle_t) (st : ResolveState)
    (pm_errno : alpm_errno_t) : alpm_handle_t :=
  let resolved := st.resolved.map (set_depend_reason handle.trans.add)
  { handle with
    pm_errno := pm_errno,
    trans := { handle.trans with
      unresolvable := st.unresolvable,
      add := _alpm_sortbydeps env.toPlanEnv resolved false } }

/-- The resolution of the dependencies of the targets in `_alpm_sync_prepare`
(sync.c:384-468).  The fake local database `alpm_list_diff(local, trans->add)` is taken
in the order of the local database. -/
def sync_resolve (env : SyncEnv) (handle : alpm_handle_t) : Int × alpm_handle_t :=
  let remove := handle.trans.add.flatMap (fun spkg => spkg.removes)
  let localpkgs := handle.db_local.filter
    (fun lpkg => (_alpm_pkg_find handle.trans.add lpkg.name).isNone)
  let st := handle.trans.add.foldl (resolve_target env handle localpkgs remove)
    { resolved := [], unresolvable := [], pm_errno := handle.pm_errno }
  if st.unresolvable ≠ [] then
    if env.question_remove_pkgs st.unresolvable then
      (0, resolve_finish env handle st alpm_errno_t.OK)
    else (-1, { handle with pm_errno := st.pm_errno })
  else (0, resolve_finish env handle st st.pm_errno)

/-- The removal of the target `rsync` from the targets (sync.c:520-527). -/
def drop_target (handle : alpm_handle_t) (rsync : alpm_pkg_t) : alpm_handle_t :=
  { handle with
    trans := { handle.trans with
      add := alpm_list_remove handle.trans.add rsync,
      unresolvable := handle.trans.unresolvable ++ [rsync] } }

/-- The loop over the conflicts among the targets (sync.c:479-529), from some conflict
on. -/
def inner_conflicts (env : SyncEnv) : List alpm_conflict_t → alpm_handle_t → Int × alpm_handle_t
  | [], handle => (0, handle)
  | conflict :: rest, handle =>
    match _alpm_pkg_find handle.trans.add conflict.package1,
      _alpm_pkg_find handle.trans.add conflict.package2 with
    | some sync1, some sync2 =>
      let dep1 := env.splitdep conflict.package1
      let dep2 := env.splitdep conflict.package2
      if env.depcmp sync1 dep2 then inner_conflicts env rest (drop_target handle sync2)
      else if env.depcmp sync2 dep1 then inner_conflicts env rest (drop_target handle sync1)
      else (-1, { handle with pm_errno := alpm_errno_t.ALPM_ERR_CONFLICTING_DEPS })
    | _, _ => inner_conflicts env rest handle

/-- The assignment `sync->removes = alpm_list_add(sync->removes, local)` (sync.c:564); a
record of the conflict detector names a target and an installed package. -/
def elect_for_removal (handle : alpm_handle_t) (conflict : alpm_conflict_t) : alpm_handle_t :=
  match _alpm_db_get_pkgfromcache handle.db_local conflict.package2 with
  | some lpkg =>
    set_add handle (update_found handle.trans.add conflict.package1
      (fun sync => { sync with removes := sync.removes ++ [lpkg.name] }))
  | none => handle

/-- The loop over the conflicts between targets and installed packages
(sync.c:539-582), from some conflict on. -/
def outer_conflicts (env : SyncEnv) : List alpm_conflict_t → alpm_handle_t → Int × alpm_handle_t
  | [], handle => (0, handle)
  | conflict :: rest, handle =>
    let found := handle.trans.add.any (fun spkg => spkg.removes.contains conflict.package2)
    if found then outer_conflicts env rest handle
    else
      let doremove :=
        env.question_conflict_pkg conflict.package1 conflict.package2 conflict.reason.name
      if doremove then outer_conflicts env rest (elect_for_removal handle conflict)
      else (-1, { handle with pm_errno := alpm_errno_t.ALPM_ERR_CONFLICTING_DEPS })

/-- The conflict checks of `_alpm_sync_prepare` (sync.c:470-586). -/
def sync_conflicts (env : SyncEnv) (handle : alpm_handle_t) : Int × alpm_handle_t :=
  let r := inner_conflicts env (env.innerconflicts handle.trans.add) handle
  if r.1 ≠ 0 then r
  else outer_conflicts env (env.outerconflicts r.2.db_local r.2.trans.add) r.2

/-- One round of the inner loop that builds `trans->remove` (sync.c:591-601): `rpkg` is
the installed package that the entry of the removes list points to; a copy is appended
unless a package of that name is in the list. -/
def build_remove_pkg (handle : alpm_handle_t) (name : String) : alpm_handle_t :=
  match _alpm_db_get_pkgfromcache handle.db_local name with
  | some rpkg =>
    if (_alpm_pkg_find handle.trans.remove rpkg.name).isNone then
      set_remove handle (handle.trans.remove ++ [rpkg])
    else handle
  | none => handle

/-- The loops that build `trans->remove` (sync.c:588-602). -/
def build_remove (handle : alpm_handle_t) : alpm_handle_t :=
  handle.trans.add.foldl (fun h spkg => spkg.removes.foldl build_remove_pkg h) handle

/-- The function `_alpm_sync_prepare` (sync.c:354-631): the return code and the handle.
Allocation does not fail; the events, the log lines and what is handed out through
`data` are not part of the state. -/
def _alpm_sync_prepare (env : SyncEnv) (handle : alpm_handle_t) : Int × alpm_handle_t :=
  let from_sync := handle.trans.add.countP
    (fun spkg => spkg.origin == alpm_pkgfrom_t.ALPM_PKG_FROM_SYNCDB)
  match sync_db_status from_sync handle.dbs_sync with
  | some err => (-1, { handle with pm_errno := err })
  | none =>
    let r1 := if !handle.trans.flags.NODEPS then sync_resolve env handle else (0, handle)
    if r1.1 ≠ 0 then r1
    else
      let r2 := if !r1.2.trans.flags.NOCONFLICTS then sync_conflicts env r1.2 else (0, r1.2)
      if r2.1 ≠ 0 then r2
      else
        let handle3 := build_remove r2.2
        let deps :=
          if !handle3.trans.flags.NODEPS then
            alpm_checkdeps env.toPlanEnv handle3.db_local handle3.trans.remove
              handle3.trans.add true
          else []
        if deps ≠ [] then
          (-1, { handle3 with pm_errno := alpm_errno_t.ALPM_ERR_UNSATISFIED_DEPS })
        else
          let r := compute_download_sizes env handle3.trans.add handle3
          (r.1, set_add r.2.1 r.2.2)

/-- The function `alpm_remove_pkg` (remove.c:46-82): the return code and the handle.
The handle, the package and the transaction are not NULL, the package belongs to the
handle, and allocation does not fail, so that `_alpm_pkg_dup` yields a copy. -/
def alpm_remove_pkg (handle : alpm_handle_t) (pkg : alpm_pkg_t) : Int × alpm_handle_t :=
  let trans := handle.trans
  if trans.state ≠ alpm_transstate_t.STATE_INITIALIZED then
    (-1, { handle with pm_errno := alpm_errno_t.ALPM_ERR_TRANS_NOT_INITIALIZED })
  else
    let pkgname := pkg.name
    if (_alpm_pkg_find trans.remove pkgname).isSome then
      (-1, { handle with pm_errno := alpm_errno_t.ALPM_ERR_TRANS_DUP_TARGET })
    else
      (0, set_remove handle (trans.remove ++ [pkg]))

/-! ## Packages removed one after the other -/

/-- The packages of a list "each processed exactly once, in list order": the removal of
the first, then of the second with the next target number, and so on; the state is the
handle and the world. -/
def remove_in_order (env : Env) (pkg_count : Nat) :
    List alpm_pkg_t → Nat → alpm_handle_t × World → alpm_handle_t × World
  | [], _, st => st
  | pkg :: rest, targ_count, st =>
    let r := _alpm_remove_single_package env st.1 pkg none targ_count pkg_count st.2
    remove_in_order env pkg_count rest (targ_count + 1) (r.2.1, r.2.2)

/-- Whether the action changes an on-disk entry of a package: `unlink`, `rmdir` or
`rename`. -/
def Action.touches_file (a : Action) : Bool :=
  match a with
  | Action.unlink _ => true
  | Action.rmdir _ => true
  | Action.rename _ _ => true
  | _ => false

/-! ## Selections of a list -/

/-- The entries of a list at the positions where the mask is set, in the order of the
list. -/
def pick {α : Type} : List Bool → List α → List α
  | true :: mask, a :: l => a :: pick mask l
  | false :: mask, _ :: l => pick mask l
  | _, _ => []

/-! ## Reading the configuration in pactree (pactree.c:129-199) -/

/-- The C library `isspace` in the "C" locale: space, `\t`, `\n`, `\v`, `\f`, `\r`. -/
def isspace (c : Char) : Bool :=
  c == ' ' || c == '\t' || c == '\n' || c == '\x0b' || c == '\x0c' || c == '\r'

/-- The width of `size_t`. -/
def SIZE_BITS : Nat := 64

/-- The function `strtrim` (pactree.c:129-162) on a NUL-terminated buffer, given by the
characters before the NUL: the characters before the NUL afterwards, and the value
returned.  `pch` is `str` advanced past the leading whitespace, `lead` is `pch - str`;
the returned `end - pch` is a pointer difference converted to `size_t`. -/
def strtrim (str : List Char) : List Char × Nat :=
  if str = [] then (str, 0)
  else
    let pch := str.dropWhile isspace
    let lead := str.length - pch.length
    let str1 := if lead ≠ 0 then pch else str
    if str1 = [] then (str1, 0)
    else
      let trimmed := (str1.reverse.dropWhile isspace).reverse
      let end_offset : Int := trimmed.length
      let pch_offset : Int := lead
      (trimmed, ((end_offset - pch_offset) % (2 ^ SIZE_BITS : Int)).toNat)

/-- Modelled from the spec: the C library `strndup(s, n)` is not part of every
platform (pactree.c:107-126 has a fallback): the first `n` characters of `s`. -/
def strndup (s : List Char) (n : Nat) : List Char := s.take n

/-- One round of the loop of `register_syncs` (pactree.c:189-207) for a line read by
`fgets`: the section name that the line gives as a header, `none` when the line is
skipped.  The comment from `#` on is cut off, the line is trimmed, and the header test
indexes the buffer with the value that `strtrim` returned; an index at or behind the
NUL does not give `]`. -/
def section_header (line : List Char) : Option (List Char) :=
  let line1 := line.takeWhile (fun c => c != '#')
  let r := strtrim line1
  let line2 := r.1
  let linelen := r.2
  if linelen = 0 then none
  else if line2[0]? = some '[' && line2[linelen - 1]? = some ']' then
    some (strndup (line2.drop 1) (linelen - 2))
  else none

/-- The loop of `register_syncs` (pactree.c:189-207) over the lines of the configuration
file: the names passed to `alpm_register_syncdb`, in order. -/
def register_syncs (lines : List (List Char)) : List (List Char) :=
  lines.filterMap (fun line =>
    match section_header line with
    | some sect => if sect ≠ "options".data then some sect else none
    | none => none)

/-! ## The commit of a sync transaction (sync.c:758-768, 970-1223) -/

/-- Modelled from the spec: `alpm_fileconflicttype_t` is declared in alpm.h, which is not
part of the sources; a record has "type `TARGET` or `FILESYSTEM`". -/
inductive alpm_fileconflicttype_t where
  | ALPM_FILECONFLICT_TARGET
  | ALPM_FILECONFLICT_FILESYSTEM
deriving DecidableEq, Repr

/-- Modelled from the spec: `alpm_fileconflict_t` is declared in alpm.h, which is not
part of the sources; "one `fileconflict` record per offence": the target, the type, the
path and, for the type TARGET, the other target. -/
structure alpm_fileconflict_t where
  target : String
  type : alpm_fileconflicttype_t
  file : String
  ctarget : String := ""
deriving DecidableEq, Repr

/-- An item of the list behind the out-parameter `data` of `_alpm_sync_commit`: the
file name of a package that could not be loaded (`strdup(spkg->filename)`), or a record
of the scan for file conflicts. -/
inductive commit_item where
  | filename (name : Option String)
  | fileconflict (record : alpm_fileconflict_t)
deriving DecidableEq, Repr

/-- Modelled from the spec: `alpm_siglist_t` is declared in alpm.h, which is not part of
the sources; what "GPG signature checking" found, reduced to the keys of the
signatures. -/
abbrev alpm_siglist_t := List String

/-- The local `struct validity` of `check_validity` (sync.c:973-980); `level` is the
bit mask `alpm_siglevel_t`. -/
structure validity where
  pkg : alpm_pkg_t
  path : Option String
  siglist : alpm_siglist_t
  level : Nat
  validation : Nat
  error : alpm_errno_t
deriving DecidableEq, Repr

/-- The collaborators of `_alpm_sync_commit` that are not part of the sources, on top of
those of remove.c.  The keyring and the network are not part of the disk of the model:
what the validation and the key import find is a parameter of the number of the
validation pass (0 for the first call of `check_validity`), so that every sequence of
validation results and answers is covered.  The steps that run before the validation
(retrieval through dload.c, checksums and patching of deltas) are taken by their
outcome: the return code, `pm_errno` and the disk after the step. -/
structure CommitEnv extends Env where
  /-- The part of `download_files` between the change of state and the label `finish`
  (sync.c:880-949), which finds the files to download and fetches them from the servers
  of the repositories: the value of `errors`, `pm_errno` after it and the disk after
  it. -/
  retrieve : alpm_handle_t → Disk → Int × alpm_errno_t × Disk
  /-- The step `validate_deltas(handle, deltas)` (sync.c:770-803), the model's packages
  carrying no deltas: return code, `pm_errno` and disk after it. -/
  validate_deltas : alpm_handle_t → Disk → Int × alpm_errno_t × Disk
  /-- The step `apply_deltas(handle)` (sync.c:661-748), which runs `xdelta3` through
  `system`: return code, `pm_errno` and disk after it. -/
  apply_deltas : alpm_handle_t → Disk → Int × alpm_errno_t × Disk
  /-- The helper `_alpm_filecache_find(handle, filename)`: the path of the file in a
  cache directory, `none` is NULL. -/
  filecache_find : Disk → Option String → Option String
  /-- The helper `alpm_db_get_siglevel(alpm_pkg_get_db(pkg))`, by the tree name of the
  repository. -/
  db_get_siglevel : Option String → Nat
  /-- The helper `_alpm_pkg_validate_internal(handle, path, pkg, level, &siglist,
  &validation)` in the validation pass of the given number: the return code, the
  signature list, the validation and `pm_errno` after the call. -/
  pkg_validate_internal : Nat → alpm_handle_t → Disk → Option String → alpm_pkg_t → Nat →
    Int × alpm_siglist_t × Nat × alpm_errno_t
  /-- The helper `_alpm_process_siglist(handle, name, siglist, optional, marginal,
  unknown)` in the validation pass of the given number, which offers the import of
  keys; the three flags are bits of `level`: the return code (whether to try again),
  `pm_errno` and the disk after the call. -/
  process_siglist : Nat → alpm_handle_t → Disk → String → alpm_siglist_t → Nat →
    Int × alpm_errno_t × Disk
  /-- The answer to `QUESTION(handle, ALPM_QUESTION_CORRUPTED_PKG, filepath, &reason,
  NULL, &doremove)` in the validation pass of the given number. -/
  question_corrupted_pkg : Nat → Option String → alpm_errno_t → Bool
  /-- The helper `_alpm_pkg_load_internal(handle, filepath, 1)`: the package (`none` is
  NULL) and `pm_errno` after the call. -/
  pkg_load_internal : alpm_handle_t → Disk → Option String → Option alpm_pkg_t × alpm_errno_t
  /-- The helper `_alpm_db_find_fileconflicts(handle, add, remove)` of conflict.c: the
  records, and `pm_errno` after the call. -/
  find_fileconflicts : alpm_handle_t → Disk → List alpm_pkg_t → List alpm_pkg_t →
    List alpm_fileconflict_t × alpm_errno_t
  /-- The helper `_alpm_check_diskspace(handle)` of diskspace.c: the return code and
  `pm_errno` after the call. -/
  check_diskspace : alpm_handle_t → Disk → Int × alpm_errno_t
  /-- The installer `_alpm_upgrade_packages(handle)` of add.c: the return code, the
  handle and the disk after the call. -/
  upgrade_packages : alpm_handle_t → Disk → Int × alpm_handle_t × Disk

/-- The macro `EVENT(handle, e, NULL, NULL)`: the callback is recorded. -/
def EVENT (w : World) (e : alpm_event_t) : World :=
  { w with trace := w.trace ++ [Action.event e ""] }

/-- The handle with `trans->state` replaced. -/
def set_state (handle : alpm_handle_t) (state : alpm_transstate_t) : alpm_handle_t :=
  { handle with trans := { handle.trans with state := state } }

/-- The function `prompt_to_delete` (sync.c:758-768): 1 if the front end answered that
the file is to be removed, 0 otherwise; `unlink(NULL)` fails and changes nothing. -/
def prompt_to_delete (env : CommitEnv) (pass : Nat) (w : World) (filepath : Option String)
    (reason : alpm_errno_t) : Int × World :=
  let doremove := env.question_corrupted_pkg pass filepath reason
  if doremove then
    match filepath with
    | some path => (1, (sys_unlink env.toEnv w path).2)
    | none => (1, w)
  else (0, w)

/-- The function `download_files` (sync.c:880-968): the state becomes DOWNLOADING, the
files are retrieved, and at `finish` the download size of every target is cleared.  The
callback `totaldlcb` is not part of the model. -/
def download_files (env : CommitEnv) (handle : alpm_handle_t) (w : World) :
    Int × alpm_handle_t × World :=
  let handle := set_state handle alpm_transstate_t.STATE_DOWNLOADING
  let r := env.retrieve handle w.disk
  let errors := r.1
  let handle := { handle with pm_errno := r.2.1 }
  let handle := set_add handle
    (handle.trans.add.map (fun pkg => { pkg with infolevel_dsize := false, download_size := 0 }))
  (errors, handle, { w with disk := r.2.2 })

/-- One round of the first loop of `check_validity` (sync.c:986-1010) for the target at
index `ip.1`: a package loaded from a file is skipped; a package that fails the
validation is recorded with the error, the validation of the others is stored in the
target.  The state is the handle and the list `errors`.  The callbacks PROGRESS, whose
percentage is computed in floating point, are not part of the model. -/
def check_validity_pkg (env : CommitEnv) (pass : Nat) (w : World)
    (st : alpm_handle_t × List validity) (ip : Nat × alpm_pkg_t) :
    alpm_handle_t × List validity :=
  let handle := st.1
  let pkg := ip.2
  if pkg.origin = alpm_pkgfrom_t.ALPM_PKG_FROM_FILE then st
  else
    let path := env.filecache_find w.disk pkg.filename
    let level := env.db_get_siglevel pkg.db
    let r := env.pkg_validate_internal pass handle w.disk path pkg level
    let handle := { handle with pm_errno := r.2.2.2 }
    if r.1 = -1 then
      (handle, st.2 ++ [validity.mk pkg path r.2.1 level r.2.2.1 handle.pm_errno])
    else
      (set_add handle (handle.trans.add.set ip.1 { pkg with validation := r.2.2.1 }), st.2)

/-- One round of the loop over `errors` in `check_validity` (sync.c:1023-1038): a
signature failure offers the import of keys and adds the answer to `tryagain`, a
checksum failure offers to delete the file.  The state is the handle, the world and
`tryagain`. -/
def check_validity_error (env : CommitEnv) (pass : Nat)
    (st : alpm_handle_t × World × Int) (v : validity) : alpm_handle_t × World × Int :=
  let handle := st.1
  let w := st.2.1
  let tryagain := st.2.2
  if v.error = alpm_errno_t.ALPM_ERR_PKG_INVALID_SIG then
    let r := env.process_siglist pass handle w.disk v.pkg.name v.siglist v.level
    let retry := r.1
    ({ handle with pm_errno := r.2.1 }, { w with disk := r.2.2 }, tryagain + retry)
  else if v.error = alpm_errno_t.ALPM_ERR_PKG_INVALID_CHECKSUM then
    (handle, (prompt_to_delete env pass w v.path v.error).2, tryagain)
  else st

/-- The function `check_validity` (sync.c:970-1051) in the validation pass of the given
number: -1 is failure, 1 is retry, 0 is success. -/
def check_validity (env : CommitEnv) (pass : Nat) (handle : alpm_handle_t) (w : World) :
    Int × alpm_handle_t × World :=
  let w := EVENT w alpm_event_t.ALPM_EVENT_INTEGRITY_START
  let r := handle.trans.add.enum.foldl (check_validity_pkg env pass w) (handle, [])
  let handle := r.1
  let errors := r.2
  let w := EVENT w alpm_event_t.ALPM_EVENT_INTEGRITY_DONE
  if errors ≠ [] then
    let e := errors.foldl (check_validity_error env pass) (handle, w, 0)
    let handle := e.1
    let w := e.2.1
    let tryagain := e.2.2
    if tryagain = 0 then
      if handle.pm_errno = alpm_errno_t.OK then
        (-1, { handle with pm_errno := alpm_errno_t.ALPM_ERR_PKG_INVALID }, w)
      else (-1, handle, w)
    else (1, handle, w)
  else (0, handle, w)

/-- The loop `while(1)` of `_alpm_sync_commit` (sync.c:1149-1157), which calls
`check_validity` until it returns 0 (the loop is left) or a negative value (commit
returns -1), with the number of the next pass; `none` when the fuel does not suffice. -/
def validity_loop (env : CommitEnv) :
    Nat → Nat → alpm_handle_t → World → Option (Int × alpm_handle_t × World)
  | 0, _, _, _ => none
  | fuel + 1, pass, handle, w =>
    let r := check_validity env pass handle w
    let ret := r.1
    if ret = 0 then some (0, r.2.1, r.2.2)
    else if ret < 0 then some (-1, r.2.1, r.2.2)
    else validity_loop env fuel (pass + 1) r.2.1 r.2.2

/-- One round of the loop of `load_packages` (sync.c:1063-1096) for the target at index
`ip.1`: the target is replaced by the package loaded from its file, which takes over the
install reason and the validation; when the file cannot be loaded its name is added to
`data`.  The state is the handle, `errors` and `data`. -/
def load_packages_pkg (env : CommitEnv) (w : World)
    (st : alpm_handle_t × Int × List commit_item) (ip : Nat × alpm_pkg_t) :
    alpm_handle_t × Int × List commit_item :=
  let handle := st.1
  let errors := st.2.1
  let data := st.2.2
  let spkg := ip.2
  if spkg.origin = alpm_pkgfrom_t.ALPM_PKG_FROM_FILE then st
  else
    let filepath := env.filecache_find w.disk spkg.filename
    let r := env.pkg_load_internal handle w.disk filepath
    let handle := { handle with pm_errno := r.2 }
    match r.1 with
    | none => (handle, errors + 1, data ++ [commit_item.filename spkg.filename])
    | some pkgfile =>
      (set_add handle (handle.trans.add.set ip.1
        { pkgfile with reason := spkg.reason, validation := spkg.validation }), errors, data)

/-- The function `load_packages` (sync.c:1053-1111): 0, or -1 when a package file could
not be loaded. -/
def load_packages (env : CommitEnv) (handle : alpm_handle_t) (w : World)
    (data : List commit_item) : Int × alpm_handle_t × World × List commit_item :=
  let w := EVENT w alpm_event_t.ALPM_EVENT_LOAD_START
  let r := handle.trans.add.enum.foldl (load_packages_pkg env w) (handle, 0, data)
  let handle := r.1
  let errors := r.2.1
  let data := r.2.2
  let w := EVENT w alpm_event_t.ALPM_EVENT_LOAD_DONE
  if errors ≠ 0 then
    if handle.pm_errno = alpm_errno_t.OK then
      (-1, { handle with pm_errno := alpm_errno_t.ALPM_ERR_PKG_INVALID }, w, data)
    else (-1, handle, w, data)
  else (0, handle, w, data)

/-- The end of `_alpm_sync_commit` (sync.c:1205-1222): the packages of `trans->remove`
are removed, then the targets are installed. -/
def sync_commit_packages (env : CommitEnv) (handle : alpm_handle_t) (w : World)
    (data : List commit_item) : Int × alpm_handle_t × World × List commit_item :=
  let trans := handle.trans
  let r := if trans.remove ≠ [] then _alpm_remove_packages env.toEnv handle false w
    else (0, handle, w)
  if r.1 = -1 then (-1, r.2.1, r.2.2, data)
  else
    let handle := r.2.1
    let w := r.2.2
    let u := env.upgrade_packages handle w.disk
    let w : World := { disk := u.2.2, trace := w.trace ++ [Action.upgrade_packages] }
    if u.1 = -1 then (-1, u.2.1, w, data)
    else (0, u.2.1, w, data)

/-- The check of the disk space in `_alpm_sync_commit` (sync.c:1191-1203), followed by
what comes after it. -/
def sync_commit_diskspace (env : CommitEnv) (handle : alpm_handle_t) (w : World)
    (data : List commit_item) : Int × alpm_handle_t × World × List commit_item :=
  let trans := handle.trans
  if handle.checkspace && !trans.flags.DBONLY then
    let w := EVENT w alpm_event_t.ALPM_EVENT_DISKSPACE_START
    let r := env.check_diskspace handle w.disk
    let handle := { handle with pm_errno := r.2 }
    if r.1 = -1 then (-1, handle, w, data)
    else sync_commit_packages env handle (EVENT w alpm_event_t.ALPM_EVENT_DISKSPACE_DONE) data
  else sync_commit_packages env handle w data

/-- The check for file conflicts in `_alpm_sync_commit` (sync.c:1169-1188), followed by
what comes after it.  The caller passes a list for `data` (`data` is not NULL). -/
def sync_commit_fileconflicts (env : CommitEnv) (handle : alpm_handle_t) (w : World)
    (data : List commit_item) : Int × alpm_handle_t × World × List commit_item :=
  let trans := handle.trans
  if !(trans.flags.FORCE || trans.flags.DBONLY) then
    let w := EVENT w alpm_event_t.ALPM_EVENT_FILECONFLICTS_START
    let r := env.find_fileconflicts handle w.disk trans.add trans.remove
    let conflict := r.1
    let handle := { handle with pm_errno := r.2 }
    if conflict ≠ [] then
      (-1, { handle with pm_errno := alpm_errno_t.ALPM_ERR_FILE_CONFLICTS }, w,
        conflict.map commit_item.fileconflict)
    else
      sync_commit_diskspace env handle (EVENT w alpm_event_t.ALPM_EVENT_FILECONFLICTS_DONE)
        data
  else sync_commit_diskspace env handle w data

/-- How the part of `_alpm_sync_commit` before the state COMMITING ends: the function
returns, or it goes on. -/
inductive commit_step where
  | returns (ret : Int) (handle : alpm_handle_t) (w : World) (data : List commit_item)
  | goes_on (handle : alpm_handle_t) (w : World) (data : List commit_item)

/-- The beginning of `_alpm_sync_commit` (sync.c:1113-1165): download, deltas,
validation (repeated while `check_validity` returns 1), the return for DOWNLOADONLY and
the loading of the package files.  The totals `total` and `total_bytes` only serve the
callbacks PROGRESS. -/
def sync_commit_load (env : CommitEnv) (fuel : Nat) (handle : alpm_handle_t) (w : World)
    (data : List commit_item) : Option commit_step :=
  let d := download_files env handle w
  if d.1 ≠ 0 then some (commit_step.returns (-1) d.2.1 d.2.2 data)
  else
    let handle := d.2.1
    let w := d.2.2
    let v := env.validate_deltas handle w.disk
    let handle := { handle with pm_errno := v.2.1 }
    let w := { w with disk := v.2.2 }
    if v.1 ≠ 0 then some (commit_step.returns (-1) handle w data)
    else
      let a := env.apply_deltas handle w.disk
      let handle := { handle with pm_errno := a.2.1 }
      let w := { w with disk := a.2.2 }
      if a.1 ≠ 0 then some (commit_step.returns (-1) handle w data)
      else
        match validity_loop env fuel 0 handle w with
        | none => none
        | some (ret, handle, w) =>
          if ret < 0 then some (commit_step.returns (-1) handle w data)
          else if handle.trans.flags.DOWNLOADONLY then
            some (commit_step.returns 0 handle w data)
          else
            let l := load_packages env handle w data
            if l.1 ≠ 0 then some (commit_step.returns (-1) l.2.1 l.2.2.1 l.2.2.2)
            else some (commit_step.goes_on l.2.1 l.2.2.1 l.2.2.2)

/-- The function `_alpm_sync_commit` (sync.c:1113-1223): when the packages are loaded
the state becomes COMMITING, file conflicts and disk space are checked, and the
packages are removed and installed.  `none` when the fuel does not suffice for the
validation loop. -/
def _alpm_sync_commit (env : CommitEnv) (fuel : Nat) (handle : alpm_handle_t) (w : World)
    (data : List commit_item) : Option (Int × alpm_handle_t × World × List commit_item) :=
  match sync_commit_load env fuel handle w data with
  | none => none
  | some (commit_step.returns ret handle w data) => some (ret, handle, w, data)
  | some (commit_step.goes_on handle w data) =>
    some (sync_commit_fileconflicts env
      (set_state handle alpm_transstate_t.STATE_COMMITING) w data)

/-- What the beginning of a commit leaves alone in the handle: the flags, the local
database and `trans->remove`. -/
def commit_frame (h1 h2 : alpm_handle_t) : Prop :=
  h2.trans.flags = h1.trans.flags ∧ h2.db_local = h1.db_local ∧
    h2.trans.remove = h1.trans.remove

/-- An action of the checks that precede the removal and the installation: the deletion
of a corrupted file of the cache, or one of the events of the validation, of the
loading and of the start of the scan for file conflicts. -/
def Action.is_commit_check (a : Action) : Bool :=
  match a with
  | Action.unlink _ => true
  | Action.event e _ =>
    e = alpm_event_t.ALPM_EVENT_INTEGRITY_START || e = alpm_event_t.ALPM_EVENT_INTEGRITY_DONE ||
    e = alpm_event_t.ALPM_EVENT_LOAD_START || e = alpm_event_t.ALPM_EVENT_LOAD_DONE ||
    e = alpm_event_t.ALPM_EVENT_FILECONFLICTS_START
  | _ => false

/-- The record of `w2` is the record of `w1` followed by actions of the checks only. -/
def checks_only (w1 w2 : World) : Prop :=
  ∃ extra, w2.trace = w1.trace ++ extra ∧ ∀ a ∈ extra, a.is_commit_check = true

/-! ## Example data -/

/-- A sorted file list with a directory: `a`, `b/`, `b/c`, `d`. -/
def example_filesA : alpm_filelist_t :=
  [{ name := "a", size := 1, mode := 420 }, { name := "b/", size := 0, mode := 493 },
   { name := "b/c", size := 2, mode := 420 }, { name := "d", size := 3, mode := 420 }]

/-- A second sorted file list: `b/`, `b/c`, `e`. -/
def example_filesB : alpm_filelist_t :=
  [{ name := "b/", size := 0, mode := 493 }, { name := "b/c", size := 7, mode := 420 },
   { name := "e", size := 5, mode := 420 }]

/-- The paths that exist on the example disks at some time. -/
def example_paths : List String :=
  ["/etc/", "/etc/x.conf", "/etc/x.conf.pacsave", "/usr/", "/usr/bin/", "/usr/bin/x",
   "/usr/bin/y", "/x", "/x.pacsave"]

/-- An environment for the examples: globs without metacharacters (a pattern matches
only itself), a directory holds the paths below it, the hash of a file is its content, every access test
passes and no system call is refused, nothing interrupts. -/
def example_env : Env where
  fnmatch := fun pattern string => strcmp pattern string
  files_in_directory := fun d path =>
    ((example_paths.filter (fun q =>
      (d q).isSome && path.data.isPrefixOf q.data && !(q == path))).length : Int)
  compute_md5sum := fun d path =>
    match d path with
    | some (Node.file c) => some c
    | _ => none
  access_w := fun _ _ => none
  access_f := fun d path => (d path).isSome
  rmdir_ok := fun _ _ => true
  unlink_ok := fun _ _ => true
  rename_ok := fun _ _ _ => true
  runscriptlet := fun d _ _ => d
  local_db_remove := fun d _ => d
  ldconfig := fun d => d
  interrupted_at := fun _ => false

/-- A package that owns the backup file `x` and a file `x.pacsave`. -/
def pacsave_pkg : alpm_pkg_t :=
  { name := "pkg",
    files := [{ name := "x", size := 1, mode := 420 },
              { name := "x.pacsave", size := 1, mode := 420 }],
    backup := [{ name := "x", hash := "installed" }] }

/-- A handle whose transaction protects `x.pacsave`. -/
def pacsave_handle : alpm_handle_t :=
  { root := "/", db_local := [pacsave_pkg],
    trans := { skip_remove := ["x.pacsave"] } }

/-- A disk where `/x` has been modified since installation and `/x.pacsave` exists. -/
def pacsave_world : World :=
  { disk := fun path =>
      if path = "/x" then some (Node.file "modified")
      else if path = "/x.pacsave" then some (Node.file "precious")
      else none,
    trace := [] }

/-- A package with a directory tree, a backup file and a binary. -/
def example_pkg : alpm_pkg_t :=
  { name := "pkg", version := "1.0-1",
    files := [{ name := "etc/", size := 0, mode := 493 },
              { name := "etc/x.conf", size := 10, mode := 420 },
              { name := "usr/", size := 0, mode := 493 },
              { name := "usr/bin/", size := 0, mode := 493 },
              { name := "usr/bin/x", size := 100, mode := 493 }],
    backup := [{ name := "etc/x.conf", hash := "installed" }] }

/-- Another installed package, which also owns `usr/` and `usr/bin/`. -/
def example_other_pkg : alpm_pkg_t :=
  { name := "other", name_hash := 1, version := "2.0-1",
    files := [{ name := "usr/", size := 0, mode := 493 },
              { name := "usr/bin/", size := 0, mode := 493 },
              { name := "usr/bin/y", size := 100, mode := 493 }] }

/-- A handle with both packages installed and `example_pkg` to be removed. -/
def example_handle : alpm_handle_t :=
  { root := "/", db_local := [example_pkg, example_other_pkg],
    trans := { state := alpm_transstate_t.STATE_COMMITING, remove := [example_pkg] } }

/-- The same handle with `usr/bin/x` on the transaction's skip list. -/
def example_handle_skip : alpm_handle_t :=
  { example_handle with
    trans := { example_handle.trans with skip_remove := ["usr/bin/x"] } }

/-- The same handle with `NOSAVE` set. -/
def example_handle_nosave : alpm_handle_t :=
  { example_handle with
    trans := { example_handle.trans with flags := { NOSAVE := true } } }

/-- A disk with the files of both packages; `/etc/x.conf` has been modified. -/
def example_world : World :=
  { disk := fun path =>
      if path = "/etc/" then some Node.dir
      else if path = "/etc/x.conf" then some (Node.file "modified")
      else if path = "/usr/" then some Node.dir
      else if path = "/usr/bin/" then some Node.dir
      else if path = "/usr/bin/x" then some (Node.file "x-1.0")
      else if path = "/usr/bin/y" then some (Node.file "y-2.0")
      else none,
    trace := [] }

/-- The example environment on a file system where the write-access test fails with
the given `errno`. -/
def example_env_access (e : Errno) : Env :=
  { example_env with access_w := fun _ _ => some e }

/-- The example environment where every `unlink` is refused. -/
def example_env_unlink_fails : Env :=
  { example_env with unlink_ok := fun _ _ => false }

/-- The next version of `example_pkg`: same files; `etc/x.conf` is still a backup
file, and a backup entry `etc/gone.conf` names a file the package no longer ships. -/
def example_newpkg : alpm_pkg_t :=
  { name := "pkg", version := "2.0-1",
    files := [{ name := "etc/", size := 0, mode := 493 },
              { name := "etc/x.conf", size := 12, mode := 420 },
              { name := "usr/", size := 0, mode := 493 },
              { name := "usr/bin/", size := 0, mode := 493 },
              { name := "usr/bin/x", size := 120, mode := 493 }],
    backup := [{ name := "etc/x.conf", hash := "new" },
               { name := "etc/gone.conf", hash := "gone" }] }

/-- The example environment where every `rmdir` is refused. -/
def example_env_rmdir_fails : Env :=
  { example_env with rmdir_ok := fun _ _ => false }

/-- A disk where `/etc/` is an empty directory. -/
def example_world_empty_etc : World :=
  { disk := fun path =>
      if path = "/etc/" then some Node.dir
      else if path = "/usr/" then some Node.dir
      else if path = "/usr/bin/" then some Node.dir
      else if path = "/usr/bin/y" then some (Node.file "y-2.0")
      else none,
    trace := [] }

/-- A planning environment for the examples: versions are compared as strings, nothing
is ignored, a dependency expression is matched by the package of that name or by a
provides entry of that name, and the front-end answers yes to every question. -/
def example_plan_env : PlanEnv where
  pkg_compare_versions := fun spkg lpkg => strcmp spkg.version lpkg.version
  pkg_should_ignore := fun _ => false
  depcmp_literal := fun pkg dep => pkg.name == dep.name
  depcmp := fun pkg dep => pkg.name == dep.name || pkg.provides.any (fun p => p.name == dep.name)
  question_replace_pkg := fun _ _ _ _ => true

/-- The installed package `oldpkg-1.0`, installed explicitly. -/
def example_oldpkg : alpm_pkg_t :=
  { name := "oldpkg", version := "1.0" }

/-- The sync package `newpkg-2.0`, which replaces `oldpkg`. -/
def example_newpkg2 : alpm_pkg_t :=
  { name := "newpkg", version := "2.0", replaces := [{ name := "oldpkg" }],
    reason := alpm_pkgreason_t.ALPM_PKG_REASON_DEPEND,
    origin := alpm_pkgfrom_t.ALPM_PKG_FROM_SYNCDB, db := some "extra" }

/-- The scenario "upgrade with replacement": Local = {`oldpkg-1.0` explicit},
Sync = {`newpkg-2.0` replaces `oldpkg`}. -/
def example_replace_handle : alpm_handle_t :=
  { db_local := [example_oldpkg],
    dbs_sync := [{ treename := "extra", pkgcache := [example_newpkg2] }],
    trans := { state := alpm_transstate_t.STATE_INITIALIZED } }

/-- The installed package `foo-1.0`. -/
def example_foo1 : alpm_pkg_t := { name := "foo", version := "1.0" }

/-- The sync package `foo-2.0` of the repository `extra`. -/
def example_foo2 : alpm_pkg_t :=
  { name := "foo", version := "2.0", origin := alpm_pkgfrom_t.ALPM_PKG_FROM_SYNCDB,
    db := some "extra" }

/-- The sync package `foo-3.0` of the repository `community`. -/
def example_foo3 : alpm_pkg_t :=
  { name := "foo", version := "3.0", origin := alpm_pkgfrom_t.ALPM_PKG_FROM_SYNCDB,
    db := some "community" }

/-- The sync package `bar-1.0` of the repository `core`. -/
def example_bar1 : alpm_pkg_t :=
  { name := "bar", version := "1.0", origin := alpm_pkgfrom_t.ALPM_PKG_FROM_SYNCDB,
    db := some "core" }

/-- The repository `core`, which has no `foo`. -/
def example_db_core : alpm_db_t := { treename := "core", pkgcache := [example_bar1] }

/-- The repository `extra`, with `foo-2.0`. -/
def example_db_extra : alpm_db_t := { treename := "extra", pkgcache := [example_foo2] }

/-- The repository `community`, with `foo-3.0`. -/
def example_db_community : alpm_db_t :=
  { treename := "community", pkgcache := [example_foo3] }

/-- Local = {`foo-1.0`}, repositories `core`, `extra`, `community` in this order. -/
def example_upgrade_handle : alpm_handle_t :=
  { db_local := [example_foo1],
    dbs_sync := [example_db_core, example_db_extra, example_db_community],
    trans := { state := alpm_transstate_t.STATE_INITIALIZED } }

/-- The sync package `newfoo-1.0` of the repository `testing`, which replaces `foo`. -/
def example_newfoo : alpm_pkg_t :=
  { name := "newfoo", version := "1.0", replaces := [{ name := "foo" }],
    origin := alpm_pkgfrom_t.ALPM_PKG_FROM_SYNCDB, db := some "testing" }

/-- The sync package `foo-1.0` of the repository `core2`, the installed version. -/
def example_foo1_sync : alpm_pkg_t :=
  { name := "foo", version := "1.0", origin := alpm_pkgfrom_t.ALPM_PKG_FROM_SYNCDB,
    db := some "core2" }

/-- Local = {`foo-1.0`}; the first repository has `newfoo` (replaces `foo`) and no
`foo`, the second has `foo-1.0`. -/
def example_replacer_first_handle : alpm_handle_t :=
  { db_local := [example_foo1],
    dbs_sync := [{ treename := "testing", pkgcache := [example_newfoo] },
                 { treename := "core2", pkgcache := [example_foo1_sync] }],
    trans := { state := alpm_transstate_t.STATE_INITIALIZED } }

/-- The repository `extra` of the replacement scenario. -/
def example_db_replace : alpm_db_t := { treename := "extra", pkgcache := [example_newpkg2] }

/-- The replacement scenario with `newpkg-2.0` already among the targets. -/
def example_replace_handle_target : alpm_handle_t :=
  set_add example_replace_handle [example_newpkg2]

/-- The sync package `foo-ng-1.0` of the repository `testing`, which also replaces
`foo`. -/
def example_foo_ng : alpm_pkg_t :=
  { name := "foo-ng", version := "1.0", replaces := [{ name := "foo" }],
    origin := alpm_pkgfrom_t.ALPM_PKG_FROM_SYNCDB, db := some "testing" }

/-- Local = {`foo-1.0`}; one repository with two packages that replace `foo`. -/
def example_two_replacers_handle : alpm_handle_t :=
  { db_local := [example_foo1],
    dbs_sync := [{ treename := "testing", pkgcache := [example_newfoo, example_foo_ng] }],
    trans := { state := alpm_transstate_t.STATE_INITIALIZED } }

/-- The example planning environment with a front-end that says yes to the first
question only. -/
def example_plan_env_once : PlanEnv :=
  { example_plan_env with question_replace_pkg := fun n _ _ _ => n == 0 }

/-- The example planning environment with a `_alpm_recursedeps` that finds nothing to
add. -/
def example_prepare_env : PrepareEnv :=
  { example_plan_env with recursedeps := fun _ targs _ => (0, targs) }

/-- The installed package `a`, which depends on `b`. -/
def example_a : alpm_pkg_t := { name := "a", version := "1.0", depends := [{ name := "b" }] }

/-- The installed package `b`. -/
def example_b : alpm_pkg_t := { name := "b", version := "1.0" }

/-- Local = {`a` depends `b`, `b`}, target `b`, with CASCADE. -/
def example_cascade_handle : alpm_handle_t :=
  { db_local := [example_a, example_b],
    trans := { state := alpm_transstate_t.STATE_INITIALIZED, flags := { CASCADE := true },
               remove := [example_b] } }

/-- Local = {`a` depends `b`, `b`}, targets `a` and `b`, with UNNEEDED. -/
def example_unneeded_handle : alpm_handle_t :=
  { db_local := [example_a, example_b],
    trans := { state := alpm_transstate_t.STATE_INITIALIZED, flags := { UNNEEDED := true },
               remove := [example_a, example_b] } }

/-- Local = {`a` depends `b`, `b`}, target `b` alone, with UNNEEDED. -/
def example_unneeded_b_handle : alpm_handle_t :=
  { db_local := [example_a, example_b],
    trans := { state := alpm_transstate_t.STATE_INITIALIZED, flags := { UNNEEDED := true },
               remove := [example_b] } }

/-- The installed package `x`, which depends on `y`. -/
def example_x : alpm_pkg_t := { name := "x", version := "1.0", depends := [{ name := "y" }] }

/-- The installed package `y`, which depends on `x`. -/
def example_y : alpm_pkg_t := { name := "y", version := "1.0", depends := [{ name := "x" }] }

/-- Local = {`x` depends `y`, `y` depends `x`}, targets `x` and `y`. -/
def example_cycle_handle : alpm_handle_t :=
  { db_local := [example_x, example_y],
    trans := { state := alpm_transstate_t.STATE_INITIALIZED, remove := [example_x, example_y] } }

/-- The example planning environment with a resolver that adds the target alone, no
conflict and an empty file cache. -/
def example_sync_env : SyncEnv :=
  { example_plan_env with
    resolvedeps := fun handle _ pkg _ packages _ =>
      (0, if (_alpm_pkg_find packages pkg.name).isSome then packages else packages ++ [pkg],
        handle.pm_errno)
    question_remove_pkgs := fun _ => false
    innerconflicts := fun _ => []
    outerconflicts := fun _ _ => []
    splitdep := fun s => { name := s }
    question_conflict_pkg := fun _ _ _ => false
    filecache_find := fun _ => none
    stat_size := fun _ => none
    use_deltas := false
    shortest_delta_path := fun p => (p.size, false) }

/-- The sync package `newfoo-1.0` of the repository `testing`, which replaces `foo`,
with its archive. -/
def example_newfoo_file : alpm_pkg_t :=
  { example_newfoo with filename := some "newfoo-1.0-1-any.pkg.tar.xz", size := 10 }

/-- The sync package `foo-2.0` of the repository `extra`, with its archive. -/
def example_foo2_file : alpm_pkg_t :=
  { example_foo2 with filename := some "foo-2.0-1-any.pkg.tar.xz", size := 20 }

/-- Local = {`foo-1.0`}; the first repository has `newfoo` (replaces `foo`) and no
`foo`, the second has `foo-2.0`; no dependency resolution and no conflict check. -/
def example_both_handle : alpm_handle_t :=
  { db_local := [example_foo1],
    dbs_sync := [{ treename := "testing", pkgcache := [example_newfoo_file] },
                 { treename := "extra", pkgcache := [example_foo2_file] }],
    trans := { state := alpm_transstate_t.STATE_INITIALIZED,
               flags := { NODEPS := true, NOCONFLICTS := true } } }

/-- The sync package `newpkg-2.0`, which replaces `oldpkg`, with its archive. -/
def example_newpkg2_file : alpm_pkg_t :=
  { example_newpkg2 with filename := some "newpkg-2.0-1-any.pkg.tar.xz", size := 30 }

/-- The scenario "upgrade with replacement" with the archive of `newpkg-2.0`. -/
def example_replace_file_handle : alpm_handle_t :=
  { db_local := [example_oldpkg],
    dbs_sync := [{ treename := "extra", pkgcache := [example_newpkg2_file] }],
    trans := { state := alpm_transstate_t.STATE_INITIALIZED } }

/-- The example environment with the transaction interrupted when the commit loop
reaches the second target. -/
def example_env_interrupt : Env :=
  { example_env with interrupted_at := fun n => n == 2 }

/-- The example handle with both packages to be removed. -/
def example_two_remove_handle : alpm_handle_t :=
  { example_handle with
    trans := { example_handle.trans with remove := [example_pkg, example_other_pkg] } }

/-- A file list that is not sorted: `b`, `a`, `d/`, `c`, `a`. -/
def example_files_unsortedA : alpm_filelist_t :=
  [{ name := "b", size := 1, mode := 420 }, { name := "a", size := 2, mode := 420 },
   { name := "d/", size := 0, mode := 493 }, { name := "c", size := 3, mode := 420 },
   { name := "a", size := 4, mode := 420 }]

/-- A second file list that is not sorted: `c`, `b`, `a`. -/
def example_files_unsortedB : alpm_filelist_t :=
  [{ name := "c", size := 5, mode := 420 }, { name := "b", size := 6, mode := 420 },
   { name := "a", size := 7, mode := 420 }]

/-- A repository package `b` 1.0 that owns `u/bin/x`, as a target. -/
def example_b_sync : alpm_pkg_t :=
  { name := "b", version := "1.0", files := [{ name := "u/bin/x", size := 10, mode := 493 }],
    origin := alpm_pkgfrom_t.ALPM_PKG_FROM_SYNCDB, db := some "core",
    filename := some "b-1.0.pkg.tar.xz", size := 10 }

/-- The installed package `a` that owns `u/bin/x`. -/
def example_a_local : alpm_pkg_t :=
  { name := "a", version := "1.0", files := [{ name := "u/bin/x", size := 10, mode := 493 }] }

/-- Collaborators of a commit: everything is in the cache and valid, the disk has room,
the installer succeeds and the scan reports every file of a target that is on the disk
as a conflict with the file system. -/
def example_commit_env : CommitEnv :=
  { example_env with
    retrieve := fun handle d => (0, handle.pm_errno, d)
    validate_deltas := fun handle d => (0, handle.pm_errno, d)
    apply_deltas := fun handle d => (0, handle.pm_errno, d)
    filecache_find := fun _ filename => filename.map (fun f => "/var/cache/" ++ f)
    db_get_siglevel := fun _ => 0
    pkg_validate_internal := fun _ handle _ _ _ _ => (0, [], 1, handle.pm_errno)
    process_siglist := fun _ handle d _ _ _ => (0, handle.pm_errno, d)
    question_corrupted_pkg := fun _ _ _ => false
    pkg_load_internal := fun handle _ filepath =>
      (if filepath = some "/var/cache/b-1.0.pkg.tar.xz" then
        some { example_b_sync with origin := alpm_pkgfrom_t.ALPM_PKG_FROM_FILE, db := none }
      else none, handle.pm_errno)
    find_fileconflicts := fun handle d add _ =>
      (add.flatMap (fun pkg => (pkg.files.filter (fun f => (d (handle.root ++ f.name)).isSome)).map
        (fun f => { target := pkg.name,
                    type := alpm_fileconflicttype_t.ALPM_FILECONFLICT_FILESYSTEM,
                    file := handle.root ++ f.name })), handle.pm_errno)
    check_diskspace := fun handle _ => (0, handle.pm_errno)
    upgrade_packages := fun handle d => (0, handle, d) }

/-- The prepared transaction of the scenario "File conflict": `a` is installed and owns
`/u/bin/x`, the target is `b`. -/
def example_commit_handle : alpm_handle_t :=
  { db_local := [example_a_local],
    trans := { state := alpm_transstate_t.STATE_PREPARED, add := [example_b_sync] } }

/-- The disk of the scenario "File conflict". -/
def example_commit_world : World :=
  { disk := fun path => if path = "/u/bin/x" then some (Node.file "x of a") else none,
    trace := [] }

/-- The handle of the scenario "File conflict" when the package files are loaded: the
target is the package read from the archive, validated. -/
def example_loaded_handle : alpm_handle_t :=
  { db_local := [example_a_local],
    trans := { state := alpm_transstate_t.STATE_DOWNLOADING,
               add := [{ example_b_sync with origin := alpm_pkgfrom_t.ALPM_PKG_FROM_FILE,
                                             db := none, validation := 1 }] } }

/-- The world of the scenario "File conflict" when the package files are loaded. -/
def example_loaded_world : World :=
  { disk := example_commit_world.disk,
    trace := [Action.event alpm_event_t.ALPM_EVENT_INTEGRITY_START "",
              Action.event alpm_event_t.ALPM_EVENT_INTEGRITY_DONE "",
              Action.event alpm_event_t.ALPM_EVENT_LOAD_START "",
              Action.event alpm_event_t.ALPM_EVENT_LOAD_DONE ""] }

/-- The transaction of the scenario "File conflict" with the flag FORCE. -/
def example_force_handle : alpm_handle_t :=
  { example_commit_handle with
    trans := { example_commit_handle.trans with flags := { FORCE := true } } }

/-- The sync package `foo-1.0` of the repository `core`, the installed version, which
declares that it replaces `bar`. -/
def example_foo1_replaces_bar : alpm_pkg_t :=
  { name := "foo", version := "1.0", replaces := [{ name := "bar" }],
    origin := alpm_pkgfrom_t.ALPM_PKG_FROM_SYNCDB, db := some "core" }

/-- The installed package `bar-1.0`. -/
def example_bar_local : alpm_pkg_t := { name := "bar", version := "1.0" }

/-- Local = {`foo-1.0`, `bar-1.0`}; the one repository has `foo-1.0`, which replaces
`bar`, and no `bar`. -/
def example_equal_version_handle : alpm_handle_t :=
  { db_local := [example_foo1, example_bar_local],
    dbs_sync := [{ treename := "core", pkgcache := [example_foo1_replaces_bar] }],
    trans := { state := alpm_transstate_t.STATE_INITIALIZED } }

/-- A package `newpkg-2.0` of another repository, `testing`. -/
def example_newpkg2_testing : alpm_pkg_t :=
  { example_newpkg2 with db := some "testing", replaces := [] }

/-- The replacement scenario with the `newpkg-2.0` of the repository `testing` already
among the targets. -/
def example_replace_handle_other : alpm_handle_t :=
  set_add example_replace_handle [example_newpkg2_testing]

/-! ## Facts about `strcmp` -/

theorem char_eq_of_toNat_eq {a b : Char} (h : a.toNat = b.toNat) : a = b := by
  have h2 := congrArg Char.ofNat h
  simpa [Char.ofNat_toNat] using h2

theorem strcmpAux_eq_zero_iff : ∀ (a b : List Char), strcmpAux a b = 0 ↔ a = b
  | [], [] => by simp [strcmpAux]
  | [], _ :: _ => by simp [strcmpAux]
  | _ :: _, [] => by simp [strcmpAux]
  | a :: as, b :: bs => by
    simp only [strcmpAux]
    split_ifs with h1 h2
    · simp only [List.cons.injEq]
      constructor
      · intro h; exact absurd h (by decide)
      · rintro ⟨h, -⟩; subst h; omega
    · simp only [List.cons.injEq]
      constructor
      · intro h; exact absurd h (by decide)
      · rintro ⟨h, -⟩; subst h; omega
    · have hab : a = b := char_eq_of_toNat_eq (by omega)
      simp [hab, strcmpAux_eq_zero_iff as bs]

theorem strcmpAux_neg_iff_pos : ∀ (a b : List Char), strcmpAux a b < 0 ↔ 0 < strcmpAux b a
  | [], [] => by simp [strcmpAux]
  | [], _ :: _ => by simp [strcmpAux]
  | _ :: _, [] => by simp [strcmpAux]
  | a :: as, b :: bs => by
    simp only [strcmpAux]
    split_ifs <;> first | omega | simp | exact strcmpAux_neg_iff_pos as bs

theorem strcmpAux_lt_trans : ∀ (a b c : List Char),
    strcmpAux a b < 0 → strcmpAux b c < 0 → strcmpAux a c < 0
  | [], [], _ => by simp [strcmpAux]
  | [], _ :: _, [] => by simp [strcmpAux]
  | [], _ :: _, _ :: _ => by simp [strcmpAux]
  | _ :: _, [], _ => by simp [strcmpAux]
  | _ :: _, _ :: _, [] => by simp [strcmpAux]
  | a :: as, b :: bs, c :: cs => by
    simp only [strcmpAux]
    intro h1 h2
    split_ifs at h1 h2 ⊢ <;> first | omega | exact strcmpAux_lt_trans as bs cs h1 h2

theorem strcmp_eq_zero_iff (a b : String) : strcmp a b = 0 ↔ a = b := by
  unfold strcmp
  rw [strcmpAux_eq_zero_iff]
  exact ⟨fun h => String.ext h, fun h => by rw [h]⟩

theorem strcmp_self (a : String) : strcmp a a = 0 := (strcmp_eq_zero_iff a a).2 rfl

theorem strcmp_neg_iff_pos (a b : String) : strcmp a b < 0 ↔ 0 < strcmp b a :=
  strcmpAux_neg_iff_pos _ _

theorem strcmp_lt_trans {a b c : String} (h1 : strcmp a b < 0) (h2 : strcmp b c < 0) :
    strcmp a c < 0 := strcmpAux_lt_trans _ _ _ h1 h2

theorem strcmp_ne_of_neg {a b : String} (h : strcmp a b < 0) : a ≠ b := by
  intro hab
  have := (strcmp_eq_zero_iff a b).2 hab
  omega

theorem strcmp_ne_of_pos {a b : String} (h : 0 < strcmp a b) : a ≠ b := by
  intro hab
  have := (strcmp_eq_zero_iff a b).2 hab
  omega

theorem strcmp_le_trans {a b c : String} (h1 : strcmp a b ≤ 0) (h2 : strcmp b c ≤ 0) :
    strcmp a c ≤ 0 := by
  rcases (show strcmp a b < 0 ∨ strcmp a b = 0 by omega) with h1 | h1
  · rcases (show strcmp b c < 0 ∨ strcmp b c = 0 by omega) with h2 | h2
    · exact Int.le_of_lt (strcmp_lt_trans h1 h2)
    · rw [← (strcmp_eq_zero_iff b c).1 h2]; exact Int.le_of_lt h1
  · rw [(strcmp_eq_zero_iff a b).1 h1]; exact h2

/-! ## The merge loops of filelist.c -/

theorem sorted_drop_cons {A : alpm_filelist_t} (hA : strictly_sorted A) {i : Nat}
    (h : i < A.length) :
    (∀ x ∈ A.drop (i + 1), strcmp A[i].name x.name < 0) ∧
      (A.drop (i + 1)).Pairwise (fun a b => strcmp a.name b.name < 0) := by
  have h1 : (A.drop i).Pairwise (fun a b => strcmp a.name b.name < 0) :=
    List.Pairwise.sublist (List.drop_sublist i A) hA
  rw [List.drop_eq_getElem_cons h, List.pairwise_cons] at h1
  exact h1

theorem difference_rest_spec (A : alpm_filelist_t) :
    ∀ (fuel i : Nat) (ret : List alpm_file_t), A.length - i ≤ fuel →
      difference_rest A fuel i ret =
        ret ++ (A.drop i).filter (fun a => !last_is_slash a.name) := by
  intro fuel
  induction fuel with
  | zero =>
    intro i ret h
    have : A.drop i = [] := List.drop_eq_nil_of_le (by omega)
    simp [difference_rest, this]
  | succ n ih =>
    intro i ret h
    unfold difference_rest
    by_cases hi : i < A.length
    · rw [dif_pos hi, List.drop_eq_getElem_cons hi]
      by_cases hd : last_is_slash A[i].name = true
      · simp [-List.getElem_cons_drop, hd, ih (i + 1) ret (by omega)]
      · simp [-List.getElem_cons_drop, hd, ih (i + 1) (ret ++ [A[i]]) (by omega)]
    · rw [dif_neg hi]
      have : A.drop i = [] := List.drop_eq_nil_of_le (by omega)
      simp [this]

theorem last_is_slash_name_ne {a b : alpm_file_t} (ha : last_is_slash a.name = false)
    (hb : last_is_slash b.name = true) : b.name ≠ a.name := by
  intro h
  rw [h, ha] at hb
  exact absurd hb (by decide)

theorem difference_loop_spec (A B : alpm_filelist_t) (hA : strictly_sorted A)
    (hB : strictly_sorted B) :
    ∀ (fuel i j : Nat) (ret : List alpm_file_t), (A.length - i) + (B.length - j) ≤ fuel →
      difference_rest A (A.length - (difference_loop A B fuel i j ret).1)
          (difference_loop A B fuel i j ret).1 (difference_loop A B fuel i j ret).2 =
        ret ++ (A.drop i).filter (fun a =>
          !last_is_slash a.name && !(B.drop j).any (fun b => b.name == a.name)) := by
  intro fuel
  induction fuel with
  | zero =>
    intro i j ret h
    have h1 : A.drop i = [] := List.drop_eq_nil_of_le (by omega)
    have h2 : A.length - i = 0 := by omega
    simp [difference_loop, h1, h2, difference_rest]
  | succ n ih =>
    intro i j ret h
    unfold difference_loop
    by_cases hij : i < A.length ∧ j < B.length
    · obtain ⟨hi, hj⟩ := hij
      rw [dif_pos ⟨hi, hj⟩]
      obtain ⟨hAlt, -⟩ := sorted_drop_cons hA hi
      obtain ⟨hBlt, -⟩ := sorted_drop_cons hB hj
      simp only []
      by_cases hdA : last_is_slash A[i].name = true
      · rw [if_pos hdA, ih (i + 1) j ret (by omega), List.drop_eq_getElem_cons hi,
          List.filter_cons]
        simp [-List.getElem_cons_drop, hdA]
      · rw [if_neg hdA]
        have hdA' : last_is_slash A[i].name = false := by simpa using hdA
        by_cases hdB : last_is_slash B[j].name = true
        · rw [if_pos hdB, ih i (j + 1) ret (by omega), List.drop_eq_getElem_cons hj]
          congr 1
          apply List.filter_congr
          intro a _
          by_cases hda : last_is_slash a.name = true
          · simp [hda]
          · have hda' : last_is_slash a.name = false := by simpa using hda
            have := last_is_slash_name_ne hda' hdB
            simp [-List.getElem_cons_drop, hda', this]
        · rw [if_neg hdB]
          by_cases hlt : strcmp A[i].name B[j].name < 0
          · rw [if_pos hlt, ih (i + 1) j (ret ++ [A[i]]) (by omega),
              List.drop_eq_getElem_cons hi, List.filter_cons]
            have hnot : (B.drop j).any (fun b => b.name == A[i].name) = false := by
              rw [List.any_eq_false]
              intro b hb
              rw [List.drop_eq_getElem_cons hj, List.mem_cons] at hb
              have hlt' : strcmp A[i].name b.name < 0 := by
                rcases hb with rfl | hb
                · exact hlt
                · exact strcmp_lt_trans hlt (hBlt b hb)
              have := strcmp_ne_of_neg hlt'
              simpa using fun h => this h.symm
            simp [-List.getElem_cons_drop, hdA', hnot]
          · rw [if_neg hlt]
            by_cases hgt : strcmp A[i].name B[j].name > 0
            · rw [if_pos hgt, ih i (j + 1) ret (by omega), List.drop_eq_getElem_cons hj]
              congr 1
              apply List.filter_congr
              intro a ha
              have hBa : strcmp B[j].name a.name < 0 := by
                have h0 : strcmp B[j].name A[i].name < 0 :=
                  (strcmp_neg_iff_pos _ _).2 hgt
                rw [List.drop_eq_getElem_cons hi, List.mem_cons] at ha
                rcases ha with rfl | ha
                · exact h0
                · exact strcmp_lt_trans h0 (hAlt a ha)
              have hb : (B[j].name == a.name) = false := by
                simpa using strcmp_ne_of_neg hBa
              rw [List.any_cons, hb]
              simp
            · rw [if_neg hgt]
              have heq : A[i].name = B[j].name := (strcmp_eq_zero_iff _ _).1 (by omega)
              rw [ih (i + 1) (j + 1) ret (by omega), List.drop_eq_getElem_cons hi,
                List.filter_cons]
              have hin : (B.drop j).any (fun b => b.name == A[i].name) = true := by
                rw [List.drop_eq_getElem_cons hj]
                simp [-List.getElem_cons_drop, heq]
              simp only [hin, Bool.not_true, Bool.and_false, Bool.false_eq_true, if_false]
              congr 1
              rw [List.drop_eq_getElem_cons hj]
              apply List.filter_congr
              intro a ha
              have hBa : strcmp B[j].name a.name < 0 := by
                rw [← heq]; exact hAlt a ha
              have hb : (B[j].name == a.name) = false := by
                simpa using strcmp_ne_of_neg hBa
              rw [List.any_cons, hb]
              simp
    · rw [dif_neg hij]
      simp only []
      rw [difference_rest_spec A _ i ret (le_refl _)]
      congr 1
      by_cases hi : i < A.length
      · have hj : B.drop j = [] := List.drop_eq_nil_of_le (by
          by_contra hc
          exact hij ⟨hi, by omega⟩)
        simp [hj]
      · have : A.drop i = [] := List.drop_eq_nil_of_le (by omega)
        simp [this]

theorem intersection_loop_spec (A B : alpm_filelist_t) (hA : strictly_sorted A)
    (hB : strictly_sorted B) :
    ∀ (fuel i j : Nat) (ret : List alpm_file_t), (A.length - i) + (B.length - j) ≤ fuel →
      intersection_loop A B fuel i j ret =
        ret ++ (A.drop i).filter (fun a =>
          !last_is_slash a.name && (B.drop j).any (fun b => b.name == a.name)) := by
  intro fuel
  induction fuel with
  | zero =>
    intro i j ret h
    have h1 : A.drop i = [] := List.drop_eq_nil_of_le (by omega)
    simp [intersection_loop, h1]
  | succ n ih =>
    intro i j ret h
    unfold intersection_loop
    by_cases hij : i < A.length ∧ j < B.length
    · obtain ⟨hi, hj⟩ := hij
      rw [dif_pos ⟨hi, hj⟩]
      obtain ⟨hAlt, -⟩ := sorted_drop_cons hA hi
      obtain ⟨hBlt, -⟩ := sorted_drop_cons hB hj
      simp only []
      by_cases hdA : last_is_slash A[i].name = true
      · rw [if_pos hdA, ih (i + 1) j ret (by omega), List.drop_eq_getElem_cons hi,
          List.filter_cons]
        simp [-List.getElem_cons_drop, hdA]
      · rw [if_neg hdA]
        have hdA' : last_is_slash A[i].name = false := by simpa using hdA
        by_cases hdB : last_is_slash B[j].name = true
        · rw [if_pos hdB, ih i (j + 1) ret (by omega), List.drop_eq_getElem_cons hj]
          congr 1
          apply List.filter_congr
          intro a _
          by_cases hda : last_is_slash a.name = true
          · simp [hda]
          · have hda' : last_is_slash a.name = false := by simpa using hda
            have hb : (B[j].name == a.name) = false := by
              simpa using last_is_slash_name_ne hda' hdB
            rw [List.any_cons, hb]
            simp
        · rw [if_neg hdB]
          by_cases hlt : strcmp A[i].name B[j].name < 0
          · rw [if_pos hlt, ih (i + 1) j ret (by omega),
              List.drop_eq_getElem_cons hi, List.filter_cons]
            have hnot : (B.drop j).any (fun b => b.name == A[i].name) = false := by
              rw [List.any_eq_false]
              intro b hb
              rw [List.drop_eq_getElem_cons hj, List.mem_cons] at hb
              have hlt' : strcmp A[i].name b.name < 0 := by
                rcases hb with rfl | hb
                · exact hlt
                · exact strcmp_lt_trans hlt (hBlt b hb)
              have := strcmp_ne_of_neg hlt'
              simpa using fun h => this h.symm
            simp [-List.getElem_cons_drop, hnot]
          · rw [if_neg hlt]
            by_cases hgt : strcmp A[i].name B[j].name > 0
            · rw [if_pos hgt, ih i (j + 1) ret (by omega), List.drop_eq_getElem_cons hj]
              congr 1
              apply List.filter_congr
              intro a ha
              have hBa : strcmp B[j].name a.name < 0 := by
                have h0 : strcmp B[j].name A[i].name < 0 :=
                  (strcmp_neg_iff_pos _ _).2 hgt
                rw [List.drop_eq_getElem_cons hi, List.mem_cons] at ha
                rcases ha with rfl | ha
                · exact h0
                · exact strcmp_lt_trans h0 (hAlt a ha)
              have hb : (B[j].name == a.name) = false := by
                simpa using strcmp_ne_of_neg hBa
              rw [List.any_cons, hb]
              simp
            · rw [if_neg hgt]
              have heq : A[i].name = B[j].name := (strcmp_eq_zero_iff _ _).1 (by omega)
              rw [ih (i + 1) (j + 1) (ret ++ [A[i]]) (by omega), List.drop_eq_getElem_cons hi,
                List.filter_cons]
              have hin : (B.drop j).any (fun b => b.name == A[i].name) = true := by
                rw [List.drop_eq_getElem_cons hj]
                simp [-List.getElem_cons_drop, heq]
              simp only [hin, hdA', Bool.not_false, Bool.and_self, if_true, List.append_assoc,
                List.singleton_append]
              congr 2
              rw [List.drop_eq_getElem_cons hj]
              apply List.filter_congr
              intro a ha
              have hBa : strcmp B[j].name a.name < 0 := by
                rw [← heq]; exact hAlt a ha
              have hb : (B[j].name == a.name) = false := by
                simpa using strcmp_ne_of_neg hBa
              rw [List.any_cons, hb]
              simp
    · rw [dif_neg hij]
      by_cases hi : i < A.length
      · have hj : B.drop j = [] := List.drop_eq_nil_of_le (by
          by_contra hc
          exact hij ⟨hi, by omega⟩)
        simp [hj]
      · have : A.drop i = [] := List.drop_eq_nil_of_le (by omega)
        simp [this]

/-! ## Binary search -/

theorem bsearch_loop_sound {α : Type} (compar : α → α → Int) (key : α) (base : List α) :
    ∀ (fuel l u : Nat) (e : α), bsearch_loop compar key base fuel l u = some e →
      e ∈ base ∧ compar key e = 0 := by
  intro fuel
  induction fuel with
  | zero => intro l u e h; simp [bsearch_loop] at h
  | succ n ih =>
    intro l u e h
    unfold bsearch_loop at h
    split_ifs at h with hlu
    simp only [] at h
    split at h
    · exact absurd h (by simp)
    · rename_i p hp
      split_ifs at h with h1 h2
      · exact ih _ _ _ h
      · exact ih _ _ _ h
      · have hpe : p = e := by simpa using h
        subst hpe
        exact ⟨List.getElem?_mem hp, by omega⟩

theorem sorted_asc_getElem_le {fl : alpm_filelist_t} (hs : sorted_asc fl) {i j : Nat}
    (hi : i < fl.length) (hj : j < fl.length) (hij : i ≤ j) :
    strcmp fl[i].name fl[j].name ≤ 0 := by
  rcases Nat.lt_or_eq_of_le hij with h | h
  · exact (List.pairwise_iff_getElem.1 hs) i j hi hj h
  · subst h
    rw [strcmp_self]

theorem bsearch_loop_complete (fl : alpm_filelist_t) (hs : sorted_asc fl) (key : alpm_file_t) :
    ∀ (fuel l u : Nat), u - l ≤ fuel → u ≤ fl.length →
      (∃ k, ∃ h : k < fl.length, l ≤ k ∧ k < u ∧ fl[k].name = key.name) →
      ∃ e, bsearch_loop _alpm_files_cmp key fl fuel l u = some e := by
  intro fuel
  induction fuel with
  | zero =>
    intro l u h _ hk
    obtain ⟨k, _, h1, h2, _⟩ := hk
    omega
  | succ n ih =>
    intro l u h hu hk
    obtain ⟨k, hkl, h1, h2, hname⟩ := hk
    unfold bsearch_loop
    have hlu : l < u := by omega
    have hidx : (l + u) / 2 < fl.length := by omega
    rw [if_pos hlu]
    simp only [List.getElem?_eq_getElem hidx]
    by_cases hlt : _alpm_files_cmp key fl[(l + u) / 2] < 0
    · rw [if_pos hlt]
      apply ih _ _ (by omega) (by omega)
      refine ⟨k, hkl, h1, ?_, hname⟩
      by_contra hc
      have hle := sorted_asc_getElem_le hs hidx hkl (by omega)
      rw [hname] at hle
      have := (strcmp_neg_iff_pos _ _).1 hlt
      omega
    · rw [if_neg hlt]
      by_cases hgt : _alpm_files_cmp key fl[(l + u) / 2] > 0
      · rw [if_pos hgt]
        apply ih _ _ (by omega) hu
        refine ⟨k, hkl, ?_, h2, hname⟩
        by_contra hc
        have hle := sorted_asc_getElem_le hs hkl hidx (by omega)
        rw [hname] at hle
        unfold _alpm_files_cmp at hgt
        omega
      · rw [if_neg hgt]
        exact ⟨_, rfl⟩

theorem filelist_contains_some_iff (fl : alpm_filelist_t) (hs : sorted_asc fl) (path : String) :
    (∃ e, alpm_filelist_contains (some fl) path = some e) ↔ ∃ f ∈ fl, f.name = path := by
  constructor
  · rintro ⟨e, he⟩
    have := bsearch_loop_sound _ _ _ _ _ _ _ he
    refine ⟨e, this.1, ?_⟩
    have h2 := (strcmp_eq_zero_iff _ _).1 this.2
    exact h2.symm
  · rintro ⟨f, hf, hname⟩
    obtain ⟨k, hk, hfk⟩ := List.getElem_of_mem hf
    apply bsearch_loop_complete fl hs _ _ _ _ (by omega) (le_refl _)
    exact ⟨k, hk, Nat.zero_le _, hk, by rw [hfk, hname]⟩

/-! ## File-set algebra: the claims -/

/-- C1: for file lists A and B sorted strictly ascending by byte-wise path comparison,
with non-empty paths, `_alpm_filelist_difference A B` is, in A's order, exactly the
entries of A whose path does not end in `/` and is not the path of an entry of B. -/
theorem filelist_difference_sorted (A B : alpm_filelist_t)
    (hA : strictly_sorted A) (hB : strictly_sorted B)
    (_hneA : ∀ a ∈ A, a.name ≠ "") (_hneB : ∀ b ∈ B, b.name ≠ "") :
    _alpm_filelist_difference A B =
      A.filter (fun a => !last_is_slash a.name && !B.any (fun b => b.name == a.name)) := by
  unfold _alpm_filelist_difference
  have h := difference_loop_spec A B hA hB (A.length + B.length) 0 0 [] (by omega)
  simpa using h

theorem filelist_difference_sorted_witness :
    strictly_sorted example_filesA ∧ strictly_sorted example_filesB ∧
      _alpm_filelist_difference example_filesA example_filesB =
        example_filesA.filter (fun a =>
          !last_is_slash a.name && !example_filesB.any (fun b => b.name == a.name)) :=
  ⟨by decide, by decide,
    filelist_difference_sorted example_filesA example_filesB (by decide) (by decide)
      (by decide) (by decide)⟩

/-- C2: for file lists A and B sorted strictly ascending by byte-wise path comparison,
with non-empty paths, `_alpm_filelist_intersection A B` is, in A's order, exactly the
entries of A whose path does not end in `/` and equals the path of some entry of B. -/
theorem filelist_intersection_sorted (A B : alpm_filelist_t)
    (hA : strictly_sorted A) (hB : strictly_sorted B)
    (_hneA : ∀ a ∈ A, a.name ≠ "") (_hneB : ∀ b ∈ B, b.name ≠ "") :
    _alpm_filelist_intersection A B =
      A.filter (fun a => !last_is_slash a.name && B.any (fun b => b.name == a.name)) := by
  unfold _alpm_filelist_intersection
  have h := intersection_loop_spec A B hA hB (A.length + B.length) 0 0 [] (by omega)
  simpa using h

theorem filelist_intersection_sorted_witness :
    strictly_sorted example_filesA ∧ strictly_sorted example_filesB ∧
      _alpm_filelist_intersection example_filesA example_filesB =
        example_filesA.filter (fun a =>
          !last_is_slash a.name && example_filesB.any (fun b => b.name == a.name)) :=
  ⟨by decide, by decide,
    filelist_intersection_sorted example_filesA example_filesB (by decide) (by decide)
      (by decide) (by decide)⟩

/-- C3: on a file list sorted ascending by path, `alpm_filelist_contains` returns an
entry of the list whose path equals `path` when the list has such an entry (directory
entries, with their trailing `/`, are matched like any other path), and none otherwise;
on a NULL file list it returns none. -/
theorem filelist_contains_sorted (fl : alpm_filelist_t) (path : String)
    (hs : sorted_asc fl) :
    ((∃ f ∈ fl, f.name = path) →
        ∃ e, alpm_filelist_contains (some fl) path = some e ∧ e ∈ fl ∧ e.name = path) ∧
      ((¬ ∃ f ∈ fl, f.name = path) → alpm_filelist_contains (some fl) path = none) ∧
      alpm_filelist_contains none path = none := by
  refine ⟨?_, ?_, rfl⟩
  · intro h
    obtain ⟨e, he⟩ := (filelist_contains_some_iff fl hs path).2 h
    have hsound := bsearch_loop_sound _ _ _ _ _ _ _ he
    exact ⟨e, he, hsound.1, ((strcmp_eq_zero_iff _ _).1 hsound.2).symm⟩
  · intro h
    cases hc : alpm_filelist_contains (some fl) path with
    | none => rfl
    | some e => exact absurd ((filelist_contains_some_iff fl hs path).1 ⟨e, hc⟩) h

theorem filelist_contains_sorted_witness :
    sorted_asc example_filesA ∧
      ((∃ f ∈ example_filesA, f.name = "b/") →
        ∃ e, alpm_filelist_contains (some example_filesA) "b/" = some e ∧
          e ∈ example_filesA ∧ e.name = "b/") ∧
      ((¬ ∃ f ∈ example_filesA, f.name = "b/") →
        alpm_filelist_contains (some example_filesA) "b/" = none) ∧
      alpm_filelist_contains none "b/" = none :=
  ⟨by decide, filelist_contains_sorted example_filesA "b/" (by decide)⟩

/-! ## The remove executor: system calls and the skip list -/

theorem string_append_left_cancel {r a b : String} (h : r ++ a = r ++ b) : a = b := by
  have h1 := congrArg String.data h
  simp only [String.data_append] at h1
  exact String.ext (List.append_cancel_left h1)

theorem alpm_list_find_isSome_iff {α β : Type} (haystack : List α) (needle : β)
    (fn : α → β → Int) :
    (alpm_list_find haystack needle fn).isSome = true ↔ ∃ d ∈ haystack, fn d needle = 0 := by
  unfold alpm_list_find
  simp [List.find?_isSome]

theorem sys_unlink_disk_frame (env : Env) (w : World) (path p : String) (h : p ≠ path) :
    (sys_unlink env w path).2.disk p = w.disk p := by
  unfold sys_unlink
  cases hd : w.disk path with
  | none => rfl
  | some n =>
    cases n with
    | dir => rfl
    | file c =>
      simp only []
      split_ifs
      · simp [h]
      · rfl

theorem sys_rmdir_disk_frame (env : Env) (w : World) (path p : String) (h : p ≠ path) :
    (sys_rmdir env w path).2.disk p = w.disk p := by
  unfold sys_rmdir
  cases hd : w.disk path with
  | none => rfl
  | some n =>
    cases n with
    | file c => rfl
    | dir =>
      simp only []
      split_ifs
      · simp [h]
      · rfl

theorem sys_rename_disk_frame (env : Env) (w : World) (oldpath newpath p : String)
    (h1 : p ≠ oldpath) (h2 : p ≠ newpath) :
    (sys_rename env w oldpath newpath).2.disk p = w.disk p := by
  unfold sys_rename
  cases hd : w.disk oldpath with
  | none => rfl
  | some n =>
    simp only []
    split_ifs
    · simp [h1, h2]
    · rfl

theorem remove_skip_list_foldl (newfiles : Option alpm_filelist_t) :
    ∀ (backups : List alpm_backup_t) (init : List String),
      backups.foldl
          (fun skip_remove backup =>
            if !(alpm_filelist_contains newfiles backup.name).isSome then skip_remove
            else skip_remove ++ [backup.name]) init =
        init ++ (backups.filter
          (fun b => (alpm_filelist_contains newfiles b.name).isSome)).map (fun b => b.name) := by
  intro backups
  induction backups with
  | nil => intro init; simp
  | cons b rest ih =>
    intro init
    rw [List.foldl_cons, ih, List.filter_cons]
    by_cases hb : (alpm_filelist_contains newfiles b.name).isSome = true
    · simp [hb]
    · simp [hb]

theorem remove_skip_list_upgrade (handle : alpm_handle_t) (np : alpm_pkg_t) :
    remove_skip_list handle (some np) =
      handle.trans.skip_remove ++ handle.noupgrade ++
        (np.backup.filter
          (fun b => (alpm_filelist_contains (some np.files) b.name).isSome)).map
          (fun b => b.name) := by
  unfold remove_skip_list
  simp only [alpm_pkg_get_files, alpm_pkg_get_backup]
  exact remove_skip_list_foldl _ _ _

theorem skip_remove_subset (handle : alpm_handle_t) (newpkg : Option alpm_pkg_t)
    (g : String) (hg : g ∈ handle.trans.skip_remove) : g ∈ remove_skip_list handle newpkg := by
  cases newpkg with
  | none => exact hg
  | some np =>
    rw [remove_skip_list_upgrade]
    simp [hg]

theorem unlink_file_skipped (env : Env) (handle : alpm_handle_t) (oldpkg : alpm_pkg_t)
    (newpkg : Option alpm_pkg_t) (fileobj : alpm_file_t) (skip_remove : List String)
    (nosave : Bool) (w : World)
    (h : ∃ g ∈ skip_remove, env.fnmatch g fileobj.name = 0) :
    unlink_file env handle oldpkg newpkg fileobj skip_remove nosave w = (1, w) := by
  unfold unlink_file
  simp only []
  rw [if_pos ((alpm_list_find_isSome_iff _ _ _).2 h)]

theorem unlink_file_disk_frame (env : Env) (handle : alpm_handle_t) (oldpkg : alpm_pkg_t)
    (newpkg : Option alpm_pkg_t) (fileobj : alpm_file_t) (skip_remove : List String)
    (nosave : Bool) (w : World) (p : String)
    (h1 : p ≠ handle.root ++ fileobj.name)
    (h2 : p ≠ handle.root ++ fileobj.name ++ ".pacsave") :
    (unlink_file env handle oldpkg newpkg fileobj skip_remove nosave w).2.disk p = w.disk p := by
  have hu := sys_unlink_disk_frame env w (handle.root ++ fileobj.name) p h1
  have hr := sys_rmdir_disk_frame env w (handle.root ++ fileobj.name) p h1
  have hn := sys_rename_disk_frame env w (handle.root ++ fileobj.name)
    (handle.root ++ fileobj.name ++ ".pacsave") p h1 h2
  unfold unlink_file
  simp only []
  by_cases hs : (alpm_list_find skip_remove fileobj.name env.fnmatch).isSome = true
  · rw [if_pos hs]
  · rw [if_neg hs]
    cases hl : lstat w.disk (handle.root ++ fileobj.name) with
    | none => simp only []
    | some buf =>
      simp only []
      by_cases hdir : S_ISDIR buf = true
      · rw [if_pos hdir]
        split_ifs
        · simp only []
        · simp only []
        · simp only []
        · exact hr
        · exact hr
        · simp only []
      · rw [if_neg hdir]
        cases hb : _alpm_needbackup fileobj.name oldpkg with
        | none =>
          simp only []
          split_ifs
          · exact hu
          · exact hu
        | some backup =>
          simp only []
          split_ifs
          · exact hu
          · exact hu
          · exact hn
          · exact hn
          · exact hu
          · exact hu

theorem unlink_round_disk (env : Env) (handle : alpm_handle_t) (oldpkg : alpm_pkg_t)
    (newpkg : Option alpm_pkg_t) (skip_remove : List String) (nosave : Bool)
    (targ_count pkg_count count idx : Nat) (file : alpm_file_t) (st : World × Int) :
    (unlink_round env handle oldpkg newpkg skip_remove nosave targ_count pkg_count count idx
        file st).1.disk =
      (unlink_file env handle oldpkg newpkg file skip_remove nosave st.1).2.disk := by
  unfold unlink_round
  cases newpkg <;> rfl

theorem unlink_loop_disk_frame (env : Env) (handle : alpm_handle_t) (oldpkg : alpm_pkg_t)
    (newpkg : Option alpm_pkg_t) (skip_remove : List String) (nosave : Bool)
    (targ_count pkg_count : Nat) (filelist : alpm_filelist_t) (p : String)
    (hfiles : ∀ q ∈ filelist, (∃ g ∈ skip_remove, env.fnmatch g q.name = 0) ∨
      (p ≠ handle.root ++ q.name ∧ p ≠ handle.root ++ q.name ++ ".pacsave")) :
    ∀ (i : Nat) (h : i ≤ filelist.length) (st : World × Int),
      (unlink_loop env handle oldpkg newpkg skip_remove nosave targ_count pkg_count filelist
        i h st).1.disk p = st.1.disk p := by
  intro i
  induction i with
  | zero => intro h st; rfl
  | succ n ih =>
    intro h st
    unfold unlink_loop
    rw [ih, unlink_round_disk]
    rcases hfiles (filelist.get ⟨n, h⟩) (List.get_mem _ _ _) with hs | ⟨h1, h2⟩
    · rw [unlink_file_skipped _ _ _ _ _ _ _ _ hs]
    · exact unlink_file_disk_frame _ _ _ _ _ _ _ _ _ h1 h2

theorem sys_unlink_trace (env : Env) (w : World) (path : String) :
    (sys_unlink env w path).2.trace = w.trace ++ [Action.unlink path] := by
  unfold sys_unlink
  cases hd : w.disk path with
  | none => rfl
  | some n =>
    cases n with
    | dir => rfl
    | file c =>
      simp only []
      split_ifs <;> rfl

theorem sys_rmdir_trace (env : Env) (w : World) (path : String) :
    (sys_rmdir env w path).2.trace = w.trace ++ [Action.rmdir path] := by
  unfold sys_rmdir
  cases hd : w.disk path with
  | none => rfl
  | some n =>
    cases n with
    | file c => rfl
    | dir =>
      simp only []
      split_ifs <;> rfl

theorem sys_rename_trace (env : Env) (w : World) (oldpath newpath : String) :
    (sys_rename env w oldpath newpath).2.trace =
      w.trace ++ [Action.rename oldpath newpath] := by
  unfold sys_rename
  cases hd : w.disk oldpath with
  | none => rfl
  | some n =>
    simp only []
    split_ifs <;> rfl

theorem unlink_file_trace_cases (env : Env) (handle : alpm_handle_t) (oldpkg : alpm_pkg_t)
    (newpkg : Option alpm_pkg_t) (fileobj : alpm_file_t) (skip_remove : List String)
    (nosave : Bool) (w : World) :
    (unlink_file env handle oldpkg newpkg fileobj skip_remove nosave w).2.trace = w.trace ∨
      (unlink_file env handle oldpkg newpkg fileobj skip_remove nosave w).2.trace =
        w.trace ++ [Action.unlink (handle.root ++ fileobj.name)] ∨
      (unlink_file env handle oldpkg newpkg fileobj skip_remove nosave w).2.trace =
        w.trace ++ [Action.rmdir (handle.root ++ fileobj.name)] ∨
      (unlink_file env handle oldpkg newpkg fileobj skip_remove nosave w).2.trace =
        w.trace ++ [Action.rename (handle.root ++ fileobj.name)
          (handle.root ++ fileobj.name ++ ".pacsave")] := by
  have hu := sys_unlink_trace env w (handle.root ++ fileobj.name)
  have hr := sys_rmdir_trace env w (handle.root ++ fileobj.name)
  have hn := sys_rename_trace env w (handle.root ++ fileobj.name)
    (handle.root ++ fileobj.name ++ ".pacsave")
  unfold unlink_file
  simp only []
  by_cases hs : (alpm_list_find skip_remove fileobj.name env.fnmatch).isSome = true
  · rw [if_pos hs]; exact Or.inl rfl
  · rw [if_neg hs]
    cases hl : lstat w.disk (handle.root ++ fileobj.name) with
    | none => exact Or.inl rfl
    | some buf =>
      simp only []
      by_cases hdir : S_ISDIR buf = true
      · rw [if_pos hdir]
        split_ifs
        · exact Or.inl rfl
        · exact Or.inl rfl
        · exact Or.inl rfl
        · exact Or.inr (Or.inr (Or.inl hr))
        · exact Or.inr (Or.inr (Or.inl hr))
        · exact Or.inl rfl
      · rw [if_neg hdir]
        cases hb : _alpm_needbackup fileobj.name oldpkg with
        | none =>
          simp only []
          split_ifs
          · exact Or.inr (Or.inl hu)
          · exact Or.inr (Or.inl hu)
        | some backup =>
          simp only []
          split_ifs
          · exact Or.inr (Or.inl hu)
          · exact Or.inr (Or.inl hu)
          · exact Or.inr (Or.inr (Or.inr hn))
          · exact Or.inr (Or.inr (Or.inr hn))
          · exact Or.inr (Or.inl hu)
          · exact Or.inr (Or.inl hu)

theorem unlink_file_trace_frame (env : Env) (handle : alpm_handle_t) (oldpkg : alpm_pkg_t)
    (newpkg : Option alpm_pkg_t) (fileobj : alpm_file_t) (skip_remove : List String)
    (nosave : Bool) (w : World) (p : String) (hp : p ≠ handle.root ++ fileobj.name) :
    ∀ a ∈ (unlink_file env handle oldpkg newpkg fileobj skip_remove nosave w).2.trace,
      a ∈ w.trace ∨ a.removes p = false := by
  have hne : (handle.root ++ fileobj.name == p) = false := by
    simpa using fun h => hp h.symm
  intro a ha
  rcases unlink_file_trace_cases env handle oldpkg newpkg fileobj skip_remove nosave w with
    h | h | h | h <;> rw [h] at ha
  · exact Or.inl ha
  all_goals
    rcases List.mem_append.1 ha with h1 | h1
    · exact Or.inl h1
    · right
      rw [List.mem_singleton] at h1
      subst h1
      exact hne

theorem unlink_round_trace_frame (env : Env) (handle : alpm_handle_t) (oldpkg : alpm_pkg_t)
    (newpkg : Option alpm_pkg_t) (skip_remove : List String) (nosave : Bool)
    (targ_count pkg_count count idx : Nat) (file : alpm_file_t) (st : World × Int)
    (p : String)
    (hfile : (∃ g ∈ skip_remove, env.fnmatch g file.name = 0) ∨ p ≠ handle.root ++ file.name) :
    ∀ a ∈ (unlink_round env handle oldpkg newpkg skip_remove nosave targ_count pkg_count count
        idx file st).1.trace, a ∈ st.1.trace ∨ a.removes p = false := by
  have hf : ∀ a ∈ (unlink_file env handle oldpkg newpkg file skip_remove nosave st.1).2.trace,
      a ∈ st.1.trace ∨ a.removes p = false := by
    rcases hfile with hs | hp
    · rw [unlink_file_skipped _ _ _ _ _ _ _ _ hs]
      exact fun a ha => Or.inl ha
    · exact unlink_file_trace_frame _ _ _ _ _ _ _ _ _ hp
  intro a ha
  unfold unlink_round at ha
  cases newpkg with
  | some np => exact hf a ha
  | none =>
    simp only [] at ha
    rcases List.mem_append.1 ha with h1 | h1
    · exact hf a h1
    · right
      rw [List.mem_singleton] at h1
      subst h1
      rfl

theorem unlink_loop_trace_frame (env : Env) (handle : alpm_handle_t) (oldpkg : alpm_pkg_t)
    (newpkg : Option alpm_pkg_t) (skip_remove : List String) (nosave : Bool)
    (targ_count pkg_count : Nat) (filelist : alpm_filelist_t) (p : String)
    (hfiles : ∀ q ∈ filelist, (∃ g ∈ skip_remove, env.fnmatch g q.name = 0) ∨
      p ≠ handle.root ++ q.name) :
    ∀ (i : Nat) (h : i ≤ filelist.length) (st : World × Int),
      ∀ a ∈ (unlink_loop env handle oldpkg newpkg skip_remove nosave targ_count pkg_count
        filelist i h st).1.trace, a ∈ st.1.trace ∨ a.removes p = false := by
  intro i
  induction i with
  | zero => intro h st a ha; exact Or.inl ha
  | succ n ih =>
    intro h st a ha
    unfold unlink_loop at ha
    rcases ih _ _ a ha with h1 | h1
    · exact unlink_round_trace_frame _ _ _ _ _ _ _ _ _ _ _ _ p
        (hfiles _ (List.get_mem _ _ _)) a h1
    · exact Or.inr h1

/-! ## C4: the skip list -/

/-- C4, as the code has it: for a file of the removed package whose path matches a glob
of the transaction's `skip_remove` list, with or without a replacing package,
`unlink_file` changes nothing (no unlink, rename or rmdir) and returns 1; no action of
the whole `remove_package_files` is an unlink, an rmdir or a rename of that path; and
the on-disk entry at that path is the same after `remove_package_files`, provided the
path is not `q.pacsave` for a file `q` of the package. -/
theorem skip_remove_file_untouched (env : Env) (handle : alpm_handle_t)
    (oldpkg : alpm_pkg_t) (newpkg : Option alpm_pkg_t) (targ_count pkg_count : Nat)
    (w : World) (f : alpm_file_t) (_hf : f ∈ oldpkg.files)
    (hskip : ∃ g ∈ handle.trans.skip_remove, env.fnmatch g f.name = 0) :
    (∀ w1 : World, unlink_file env handle oldpkg newpkg f (remove_skip_list handle newpkg)
        handle.trans.flags.NOSAVE w1 = (1, w1)) ∧
      (∀ a ∈ (remove_package_files env handle oldpkg newpkg targ_count pkg_count w).2.2.trace,
        a ∈ w.trace ∨ a.removes (handle.root ++ f.name) = false) ∧
      ((∀ q ∈ oldpkg.files, q.name ++ ".pacsave" ≠ f.name) →
        (remove_package_files env handle oldpkg newpkg targ_count pkg_count w).2.2.disk
            (handle.root ++ f.name) = w.disk (handle.root ++ f.name)) := by
  obtain ⟨g, hg, hm⟩ := hskip
  have hskip1 : ∃ g ∈ remove_skip_list handle newpkg, env.fnmatch g f.name = 0 :=
    ⟨g, skip_remove_subset handle newpkg g hg, hm⟩
  refine ⟨fun w1 => unlink_file_skipped _ _ _ _ _ _ _ _ hskip1, ?_, ?_⟩
  · have hfiles : ∀ q ∈ oldpkg.files,
        (∃ g ∈ remove_skip_list handle newpkg, env.fnmatch g q.name = 0) ∨
        handle.root ++ f.name ≠ handle.root ++ q.name := by
      intro q _
      by_cases hqf : q.name = f.name
      · left
        rw [hqf]
        exact hskip1
      · right
        intro hc
        exact hqf (string_append_left_cancel hc).symm
    intro a ha
    unfold remove_package_files at ha
    simp only [] at ha
    split_ifs at ha with hpre
    · exact Or.inl ha
    · cases newpkg with
      | none =>
        simp only [] at ha
        rcases List.mem_append.1 ha with h1 | h1
        · rcases unlink_loop_trace_frame env handle oldpkg none
              (remove_skip_list handle none) handle.trans.flags.NOSAVE targ_count pkg_count
              oldpkg.files (handle.root ++ f.name) hfiles _ _ _ a h1 with h2 | h2
          · rcases List.mem_append.1 h2 with h3 | h3
            · exact Or.inl h3
            · right
              rw [List.mem_singleton] at h3
              subst h3
              rfl
          · exact Or.inr h2
        · right
          rw [List.mem_singleton] at h1
          subst h1
          rfl
      | some np =>
        simp only [] at ha
        exact unlink_loop_trace_frame env handle oldpkg (some np)
          (remove_skip_list handle (some np)) handle.trans.flags.NOSAVE targ_count pkg_count
          oldpkg.files (handle.root ++ f.name) hfiles _ _ _ a ha
  · intro hsave
    unfold remove_package_files
    simp only []
    split_ifs with hpre
    · rfl
    · have hfiles : ∀ q ∈ oldpkg.files,
          (∃ g ∈ remove_skip_list handle newpkg, env.fnmatch g q.name = 0) ∨
          (handle.root ++ f.name ≠ handle.root ++ q.name ∧
            handle.root ++ f.name ≠ handle.root ++ q.name ++ ".pacsave") := by
        intro q hq
        by_cases hqf : q.name = f.name
        · left
          rw [hqf]
          exact hskip1
        · right
          constructor
          · intro hc
            exact hqf (string_append_left_cancel hc).symm
          · intro hc
            rw [String.append_assoc] at hc
            exact hsave q hq (string_append_left_cancel hc).symm
      have hloop := unlink_loop_disk_frame env handle oldpkg newpkg
        (remove_skip_list handle newpkg) handle.trans.flags.NOSAVE targ_count pkg_count
        oldpkg.files (handle.root ++ f.name) hfiles oldpkg.files.length (Nat.le_refl _)
      cases newpkg with
      | none => simp only []; rw [hloop]
      | some np => simp only []; rw [hloop]

theorem skip_remove_file_untouched_witness :
    (∃ g ∈ example_handle_skip.trans.skip_remove, example_env.fnmatch g "usr/bin/x" = 0) ∧
      (∀ q ∈ example_pkg.files, q.name ++ ".pacsave" ≠ "usr/bin/x") ∧
      (∀ w1 : World, unlink_file example_env example_handle_skip example_pkg none
        { name := "usr/bin/x", size := 100, mode := 493 }
        (remove_skip_list example_handle_skip none)
        example_handle_skip.trans.flags.NOSAVE w1 = (1, w1)) ∧
      (∀ a ∈ (remove_package_files example_env example_handle_skip example_pkg none 1 1
          example_world).2.2.trace,
        a ∈ example_world.trace ∨ a.removes (example_handle_skip.root ++ "usr/bin/x") = false) ∧
      (remove_package_files example_env example_handle_skip example_pkg none 1 1
          example_world).2.2.disk (example_handle_skip.root ++ "usr/bin/x") =
        example_world.disk (example_handle_skip.root ++ "usr/bin/x") :=
  have h := skip_remove_file_untouched example_env example_handle_skip example_pkg none 1 1
    example_world { name := "usr/bin/x", size := 100, mode := 493 } (by decide) (by decide)
  ⟨by decide, by decide, h.1, h.2.1, h.2.2 (by decide)⟩

/-- C4 as stated fails: `x.pacsave` is a file of the package and matches a glob of
`skip_remove`, yet the removal renames the modified backup file `x` onto it, so the
on-disk entry at `/x.pacsave` is not what it was. -/
theorem skip_remove_entry_replaced_by_pacsave :
    ({ name := "x.pacsave", size := 1, mode := 420 } : alpm_file_t) ∈ pacsave_pkg.files ∧
      (∃ g ∈ pacsave_handle.trans.skip_remove, example_env.fnmatch g "x.pacsave" = 0) ∧
      pacsave_world.disk "/x.pacsave" = some (Node.file "precious") ∧
      (remove_package_files example_env pacsave_handle pacsave_pkg none 1 1
        pacsave_world).2.2.disk "/x.pacsave" = some (Node.file "modified") ∧
      (remove_package_files example_env pacsave_handle pacsave_pkg none 1 1
        pacsave_world).2.2.trace =
        [Action.progress "pkg" 0 1 1, Action.progress "pkg" 0 1 1,
         Action.rename "/x" "/x.pacsave", Action.progress "pkg" 50 1 1,
         Action.progress "pkg" 100 1 1] := by
  decide

/-! ## C5: backup files -/

/-- C5: for a file that exists on disk, is not a directory and matches no glob of the
skip list: if the removed package has a backup entry for the path, the computed MD5
differs from the stored hash and NOSAVE is unset, `unlink_file` calls
`rename(file, file.pacsave)` and nothing else (no unlink); if NOSAVE is set, or there is
no backup entry, or the hashes are equal, it calls `unlink(file)` and nothing else. -/
theorem unlink_file_backup (env : Env) (handle : alpm_handle_t) (oldpkg : alpm_pkg_t)
    (newpkg : Option alpm_pkg_t) (fileobj : alpm_file_t) (skip_remove : List String)
    (nosave : Bool) (w : World) (content : String)
    (hskip : ¬ ∃ g ∈ skip_remove, env.fnmatch g fileobj.name = 0)
    (hdisk : lstat w.disk (handle.root ++ fileobj.name) = some (Node.file content)) :
    (∀ (b : alpm_backup_t) (h : String), _alpm_needbackup fileobj.name oldpkg = some b →
        env.compute_md5sum w.disk (handle.root ++ fileobj.name) = some h → h ≠ b.hash →
        nosave = false →
        unlink_file env handle oldpkg newpkg fileobj skip_remove nosave w =
            (if env.rename_ok w.disk (handle.root ++ fileobj.name)
                (handle.root ++ fileobj.name ++ ".pacsave") = true then 0 else -1,
              (sys_rename env w (handle.root ++ fileobj.name)
                (handle.root ++ fileobj.name ++ ".pacsave")).2) ∧
          (unlink_file env handle oldpkg newpkg fileobj skip_remove nosave w).2.trace =
            w.trace ++ [Action.rename (handle.root ++ fileobj.name)
              (handle.root ++ fileobj.name ++ ".pacsave")] ∧
          (env.rename_ok w.disk (handle.root ++ fileobj.name)
              (handle.root ++ fileobj.name ++ ".pacsave") = true →
            (unlink_file env handle oldpkg newpkg fileobj skip_remove nosave w).2.disk
              (handle.root ++ fileobj.name ++ ".pacsave") = some (Node.file content))) ∧
      ((nosave = true ∨ _alpm_needbackup fileobj.name oldpkg = none ∨
          ∃ b, _alpm_needbackup fileobj.name oldpkg = some b ∧
            env.compute_md5sum w.disk (handle.root ++ fileobj.name) = some b.hash) →
        unlink_file env handle oldpkg newpkg fileobj skip_remove nosave w =
            (if env.unlink_ok w.disk (handle.root ++ fileobj.name) = true then 0 else -1,
              (sys_unlink env w (handle.root ++ fileobj.name)).2) ∧
          (unlink_file env handle oldpkg newpkg fileobj skip_remove nosave w).2.trace =
            w.trace ++ [Action.unlink (handle.root ++ fileobj.name)] ∧
          (env.unlink_ok w.disk (handle.root ++ fileobj.name) = true →
            (unlink_file env handle oldpkg newpkg fileobj skip_remove nosave w).2.disk
              (handle.root ++ fileobj.name) = none)) := by
  have hs : ¬ (alpm_list_find skip_remove fileobj.name env.fnmatch).isSome = true :=
    fun h => hskip ((alpm_list_find_isSome_iff _ _ _).1 h)
  have hd : w.disk (handle.root ++ fileobj.name) = some (Node.file content) := hdisk
  have hren : sys_rename env w (handle.root ++ fileobj.name)
      (handle.root ++ fileobj.name ++ ".pacsave") =
      (if env.rename_ok w.disk (handle.root ++ fileobj.name)
          (handle.root ++ fileobj.name ++ ".pacsave") = true then
        (0, { disk := fun q =>
                if q = handle.root ++ fileobj.name ++ ".pacsave" then some (Node.file content)
                else if q = handle.root ++ fileobj.name then none else w.disk q,
              trace := w.trace ++ [Action.rename (handle.root ++ fileobj.name)
                (handle.root ++ fileobj.name ++ ".pacsave")] })
      else (-1, { w with trace := w.trace ++ [Action.rename (handle.root ++ fileobj.name)
                (handle.root ++ fileobj.name ++ ".pacsave")] })) := by
    unfold sys_rename
    simp only [hd]
  have hunl : sys_unlink env w (handle.root ++ fileobj.name) =
      (if env.unlink_ok w.disk (handle.root ++ fileobj.name) = true then
        (0, { disk := fun q => if q = handle.root ++ fileobj.name then none else w.disk q,
              trace := w.trace ++ [Action.unlink (handle.root ++ fileobj.name)] })
      else (-1, { w with trace := w.trace ++ [Action.unlink (handle.root ++ fileobj.name)] })) := by
    unfold sys_unlink
    simp only [hd]
  have hdo : (if (sys_unlink env w (handle.root ++ fileobj.name)).1 = -1 then
        ((-1 : Int), (sys_unlink env w (handle.root ++ fileobj.name)).2)
      else (0, (sys_unlink env w (handle.root ++ fileobj.name)).2)) =
      (if env.unlink_ok w.disk (handle.root ++ fileobj.name) = true then 0 else -1,
        (sys_unlink env w (handle.root ++ fileobj.name)).2) := by
    rw [hunl]
    split_ifs <;> simp_all
  have hdo2 : (if (sys_rename env w (handle.root ++ fileobj.name)
          (handle.root ++ fileobj.name ++ ".pacsave")).1 ≠ 0 then
        ((-1 : Int), (sys_rename env w (handle.root ++ fileobj.name)
          (handle.root ++ fileobj.name ++ ".pacsave")).2)
      else (0, (sys_rename env w (handle.root ++ fileobj.name)
          (handle.root ++ fileobj.name ++ ".pacsave")).2)) =
      (if env.rename_ok w.disk (handle.root ++ fileobj.name)
          (handle.root ++ fileobj.name ++ ".pacsave") = true then 0 else -1,
        (sys_rename env w (handle.root ++ fileobj.name)
          (handle.root ++ fileobj.name ++ ".pacsave")).2) := by
    rw [hren]
    split_ifs <;> simp_all
  have hunl_trace : (sys_unlink env w (handle.root ++ fileobj.name)).2.trace =
      w.trace ++ [Action.unlink (handle.root ++ fileobj.name)] := by
    rw [hunl]; split_ifs <;> rfl
  have hunl_disk : env.unlink_ok w.disk (handle.root ++ fileobj.name) = true →
      (sys_unlink env w (handle.root ++ fileobj.name)).2.disk (handle.root ++ fileobj.name) =
        none := by
    intro hok
    rw [hunl, if_pos hok]
    simp
  have hfile : unlink_file env handle oldpkg newpkg fileobj skip_remove nosave w =
      (match _alpm_needbackup fileobj.name oldpkg with
        | some backup =>
          if nosave = true then
            (if env.unlink_ok w.disk (handle.root ++ fileobj.name) = true then 0 else -1,
              (sys_unlink env w (handle.root ++ fileobj.name)).2)
          else
            if (match env.compute_md5sum w.disk (handle.root ++ fileobj.name) with
                | some h => strcmp h backup.hash
                | none => 0) ≠ (0 : Int) then
              (if env.rename_ok w.disk (handle.root ++ fileobj.name)
                  (handle.root ++ fileobj.name ++ ".pacsave") = true then 0 else -1,
                (sys_rename env w (handle.root ++ fileobj.name)
                  (handle.root ++ fileobj.name ++ ".pacsave")).2)
            else
              (if env.unlink_ok w.disk (handle.root ++ fileobj.name) = true then 0 else -1,
                (sys_unlink env w (handle.root ++ fileobj.name)).2)
        | none =>
          (if env.unlink_ok w.disk (handle.root ++ fileobj.name) = true then 0 else -1,
            (sys_unlink env w (handle.root ++ fileobj.name)).2)) := by
    unfold unlink_file
    simp only []
    rw [if_neg hs, hdisk]
    simp only [S_ISDIR, Bool.false_eq_true, if_false, hdo, hdo2]
  constructor
  · intro b h hb hmd5 hne hns
    have hcmp : strcmp h b.hash ≠ 0 := fun hc => hne ((strcmp_eq_zero_iff _ _).1 hc)
    rw [hfile, hb]
    simp only [hns, hmd5, Bool.false_eq_true, if_false, ne_eq, hcmp, not_false_eq_true, if_true]
    refine ⟨trivial, ?_, ?_⟩
    · rw [hren]; split_ifs <;> rfl
    · intro hok
      rw [hren, if_pos hok]
      simp
  · intro hcase
    have hres : unlink_file env handle oldpkg newpkg fileobj skip_remove nosave w =
        (if env.unlink_ok w.disk (handle.root ++ fileobj.name) = true then 0 else -1,
          (sys_unlink env w (handle.root ++ fileobj.name)).2) := by
      rw [hfile]
      rcases hcase with hns | hnb | ⟨b, hb, hmd5⟩
      · cases _alpm_needbackup fileobj.name oldpkg with
        | none => rfl
        | some backup => simp only [hns, if_true]
      · rw [hnb]
      · rw [hb]
        simp only [hmd5, strcmp_self, ne_eq, not_true_eq_false, if_false, ite_self]
    rw [hres]
    exact ⟨rfl, hunl_trace, hunl_disk⟩

theorem unlink_file_backup_witness :
    (unlink_file example_env example_handle example_pkg none
        { name := "etc/x.conf", size := 10, mode := 420 } [] false example_world).2.trace =
      example_world.trace ++ [Action.rename (example_handle.root ++ "etc/x.conf")
        (example_handle.root ++ "etc/x.conf" ++ ".pacsave")] ∧
    (unlink_file example_env example_handle example_pkg none
        { name := "etc/x.conf", size := 10, mode := 420 } [] true example_world).2.trace =
      example_world.trace ++ [Action.unlink (example_handle.root ++ "etc/x.conf")] :=
  ⟨((unlink_file_backup example_env example_handle example_pkg none
      { name := "etc/x.conf", size := 10, mode := 420 } [] false example_world "modified"
      (by decide) (by decide)).1 { name := "etc/x.conf", hash := "installed" } "modified"
      (by decide) (by decide) (by decide) rfl).2.1,
   ((unlink_file_backup example_env example_handle example_pkg none
      { name := "etc/x.conf", size := 10, mode := 420 } [] true example_world "modified"
      (by decide) (by decide)).2 (Or.inl rfl)).2.1⟩

/-! ## C6: the removability precheck -/

theorem contains_isSome_eq_any (fl : alpm_filelist_t) (hs : sorted_asc fl) (path : String) :
    (alpm_filelist_contains (some fl) path).isSome = fl.any (fun f => f.name == path) := by
  have h := filelist_contains_some_iff fl hs path
  cases hc : alpm_filelist_contains (some fl) path with
  | some e =>
    have h1 := h.1 ⟨e, hc⟩
    simp only [Option.isSome_some]
    symm
    rw [List.any_eq_true]
    obtain ⟨f, hf, hname⟩ := h1
    exact ⟨f, hf, by simp [hname]⟩
  | none =>
    simp only [Option.isSome_none]
    symm
    rw [List.any_eq_false]
    intro f hf hname
    have hname' : f.name = path := by simpa using hname
    obtain ⟨e, he⟩ := h.2 ⟨f, hf, hname'⟩
    rw [hc] at he
    exact absurd he (by simp)

/-- C7, as the code has it: when a package is removed as the remove-half of an upgrade
(the new package's file list being sorted), the skip list used is the transaction's
`skip_remove`, then the handle's NoUpgrade globs, then those backup paths of the new
package that its file list contains, and nothing else; so a file of the old package whose
path is such a backup path (and matches itself as a glob) is neither unlinked nor
renamed: `unlink_file` returns 1 and changes nothing. -/
theorem upgrade_skip_list (env : Env) (handle : alpm_handle_t) (oldpkg np : alpm_pkg_t)
    (hsorted : sorted_asc np.files) :
    remove_skip_list handle (some np) =
        handle.trans.skip_remove ++ handle.noupgrade ++
          (np.backup.filter (fun b => np.files.any (fun f => f.name == b.name))).map
            (fun b => b.name) ∧
      ∀ (f : alpm_file_t) (nosave : Bool) (w : World),
        (∃ b ∈ np.backup, b.name = f.name) → (∃ g ∈ np.files, g.name = f.name) →
        env.fnmatch f.name f.name = 0 →
        unlink_file env handle oldpkg (some np) f (remove_skip_list handle (some np))
          nosave w = (1, w) := by
  have hlist : remove_skip_list handle (some np) =
      handle.trans.skip_remove ++ handle.noupgrade ++
        (np.backup.filter (fun b => np.files.any (fun f => f.name == b.name))).map
          (fun b => b.name) := by
    rw [remove_skip_list_upgrade]
    congr 2
    apply List.filter_congr
    intro b _
    exact contains_isSome_eq_any np.files hsorted b.name
  refine ⟨hlist, ?_⟩
  intro f nosave w hb hg hmatch
  apply unlink_file_skipped
  refine ⟨f.name, ?_, hmatch⟩
  rw [hlist]
  obtain ⟨b, hbm, hbn⟩ := hb
  obtain ⟨g, hgm, hgn⟩ := hg
  apply List.mem_append_right
  rw [List.mem_map]
  refine ⟨b, ?_, hbn⟩
  rw [List.mem_filter]
  refine ⟨hbm, ?_⟩
  rw [List.any_eq_true]
  exact ⟨g, hgm, by simp [hgn, hbn]⟩

theorem upgrade_skip_list_witness :
    sorted_asc example_newpkg.files ∧
      remove_skip_list example_handle (some example_newpkg) =
        example_handle.trans.skip_remove ++ example_handle.noupgrade ++
          (example_newpkg.backup.filter
            (fun b => example_newpkg.files.any (fun f => f.name == b.name))).map
            (fun b => b.name) ∧
      unlink_file example_env example_handle example_pkg (some example_newpkg)
          { name := "etc/x.conf", size := 10, mode := 420 }
          (remove_skip_list example_handle (some example_newpkg)) false example_world =
        (1, example_world) :=
  have h := upgrade_skip_list example_env example_handle example_pkg example_newpkg
    (by decide)
  ⟨by decide, h.1,
    h.2 { name := "etc/x.conf", size := 10, mode := 420 } false example_world (by decide)
      (by decide) (by decide)⟩

/-- C7 as stated fails: `etc/gone.conf` is a backup path of the new package and
`usr/bin/x` is a path that the new package's file list also contains, yet neither is in
the skip list of the upgrade, and the old package's file `/usr/bin/x`, not a directory,
is unlinked. -/
theorem upgrade_skip_list_misses_owned_paths :
    (∃ b ∈ example_newpkg.backup, b.name = "etc/gone.conf") ∧
      "etc/gone.conf" ∉ remove_skip_list example_handle (some example_newpkg) ∧
      (∃ f ∈ example_newpkg.files, f.name = "usr/bin/x") ∧
      (∃ f ∈ example_pkg.files, f.name = "usr/bin/x") ∧
      "usr/bin/x" ∉ remove_skip_list example_handle (some example_newpkg) ∧
      example_world.disk "/usr/bin/x" = some (Node.file "x-1.0") ∧
      (remove_package_files example_env example_handle example_pkg (some example_newpkg) 0 0
        example_world).2.2.trace = [Action.unlink "/usr/bin/x"] ∧
      (remove_package_files example_env example_handle example_pkg (some example_newpkg) 0 0
        example_world).2.2.disk "/usr/bin/x" = none := by
  decide

/-! ## C8: what `_alpm_remove_packages` returns -/

theorem remove_single_package_returns_zero (env : Env) (handle : alpm_handle_t)
    (oldpkg : alpm_pkg_t) (newpkg : Option alpm_pkg_t) (targ_count pkg_count : Nat)
    (w : World) :
    (_alpm_remove_single_package env handle oldpkg newpkg targ_count pkg_count w).1 = 0 := rfl

theorem remove_packages_loop_ret (env : Env) (pkg_count : Nat) :
    ∀ (targs : List alpm_pkg_t) (targ_count : Nat) (st : RemoveLoopState),
      (remove_packages_loop env pkg_count targs targ_count st).1.ret = st.ret ∧
        (remove_packages_loop env pkg_count targs targ_count st).1.run_ldconfig =
          st.run_ldconfig := by
  intro targs
  induction targs with
  | nil => intro targ_count st; exact ⟨rfl, rfl⟩
  | cons pkg rest ih =>
    intro targ_count st
    unfold remove_packages_loop
    simp only []
    by_cases hint : (poll_interrupt env targ_count st.handle).trans.state =
        alpm_transstate_t.STATE_INTERRUPTED
    · rw [if_pos hint]
      exact ⟨rfl, rfl⟩
    · rw [if_neg hint, if_neg (by rw [remove_single_package_returns_zero]; decide)]
      exact ih _ _

theorem remove_packages_returns_zero (env : Env) (handle : alpm_handle_t)
    (run_ldconfig : Bool) (w : World) :
    (_alpm_remove_packages env handle run_ldconfig w).1 = 0 := by
  unfold _alpm_remove_packages
  simp only []
  split_ifs <;> exact (remove_packages_loop_ret env _ _ _ _).1

/-- C8 fails on the code: with one package to remove whose file `/usr/bin/x` cannot be
unlinked (`unlink_file` returns -1, `remove_package_files` counts one error), and also
when the package is rejected with PKG_CANT_REMOVE, `_alpm_remove_packages` returns 0,
does not record TRANS_ABORT and runs ldconfig. -/
theorem remove_packages_hides_file_errors :
    (unlink_file example_env_unlink_fails example_handle example_pkg none
        { name := "usr/bin/x", size := 100, mode := 493 } [] false example_world).1 = -1 ∧
      (remove_package_files example_env_unlink_fails example_handle example_pkg none 1 1
        example_world).1 = 1 ∧
      (_alpm_remove_packages example_env_unlink_fails example_handle true example_world).1
        = 0 ∧
      (_alpm_remove_packages example_env_unlink_fails example_handle true
        example_world).2.1.pm_errno = alpm_errno_t.OK ∧
      Action.ldconfig ∈ (_alpm_remove_packages example_env_unlink_fails example_handle true
        example_world).2.2.trace ∧
      (_alpm_remove_packages example_env_unlink_fails example_handle true
        example_world).2.2.disk "/usr/bin/x" = some (Node.file "x-1.0") ∧
      (remove_package_files (example_env_access Errno.EROFS) example_handle example_pkg none
        1 1 example_world).1 = -1 ∧
      (_alpm_remove_packages (example_env_access Errno.EROFS) example_handle true
        example_world).1 = 0 ∧
      (_alpm_remove_packages (example_env_access Errno.EROFS) example_handle true
        example_world).2.1.pm_errno = alpm_errno_t.ALPM_ERR_PKG_CANT_REMOVE ∧
      Action.ldconfig ∈ (_alpm_remove_packages (example_env_access Errno.EROFS)
        example_handle true example_world).2.2.trace := by
  decide

/-! ## C9: the order of the unlink loop -/

theorem unlink_loop_eq_foldl (env : Env) (handle : alpm_handle_t) (oldpkg : alpm_pkg_t)
    (newpkg : Option alpm_pkg_t) (skip_remove : List String) (nosave : Bool)
    (targ_count pkg_count : Nat) (filelist : alpm_filelist_t) :
    ∀ (i : Nat) (h : i ≤ filelist.length) (st : World × Int),
      unlink_loop env handle oldpkg newpkg skip_remove nosave targ_count pkg_count filelist
          i h st =
        (filelist.take i).enum.reverse.foldl
          (fun st p => unlink_round env handle oldpkg newpkg skip_remove nosave targ_count
            pkg_count filelist.length p.1 p.2 st) st := by
  intro i
  induction i with
  | zero => intro h st; simp [unlink_loop]
  | succ n ih =>
    intro h st
    unfold unlink_loop
    rw [ih]
    have hn : n < filelist.length := h
    have htake : filelist.take (n + 1) = filelist.take n ++ [filelist.get ⟨n, hn⟩] := by
      rw [← List.take_concat_get filelist n hn, List.concat_eq_append]
      rfl
    have hlen : (filelist.take n).length = n := by
      rw [List.length_take]; omega
    rw [htake, List.enum_append, hlen, List.enumFrom_singleton, List.reverse_append,
      List.reverse_singleton, List.singleton_append, List.foldl_cons]

theorem unlink_loop_eq_reverse_order (env : Env) (handle : alpm_handle_t)
    (oldpkg : alpm_pkg_t) (newpkg : Option alpm_pkg_t) (skip_remove : List String)
    (nosave : Bool) (targ_count pkg_count : Nat) (filelist : alpm_filelist_t)
    (st : World × Int) :
    unlink_loop env handle oldpkg newpkg skip_remove nosave targ_count pkg_count filelist
        filelist.length (Nat.le_refl _) st =
      unlink_reverse_order env handle oldpkg newpkg skip_remove nosave targ_count pkg_count
        filelist st := by
  rw [unlink_loop_eq_foldl, List.take_length]
  rfl

theorem strcmpAux_prefix_lt : ∀ (a t : List Char), t ≠ [] → strcmpAux a (a ++ t) < 0
  | [], [], h => absurd rfl h
  | [], _ :: _, _ => by simp [strcmpAux]
  | c :: cs, t, h => by
    simp only [List.cons_append, strcmpAux, Nat.lt_irrefl, if_false]
    exact strcmpAux_prefix_lt cs t h

theorem strcmp_proper_prefix_lt {d e : String} (hpre : d.data <+: e.data) (hne : d ≠ e) :
    strcmp d e < 0 := by
  obtain ⟨t, ht⟩ := hpre
  unfold strcmp
  rw [← ht]
  apply strcmpAux_prefix_lt
  intro h0
  rw [h0, List.append_nil] at ht
  exact hne (String.ext ht)

theorem enum_reverse_getElem? (l : List alpm_file_t) (i : Nat) (hi : i < l.length) :
    l.enum.reverse[l.length - 1 - i]? = some (i, l.get ⟨i, hi⟩) := by
  have h1 : l.length - 1 - i < l.enum.length := by rw [List.enum_length]; omega
  rw [List.getElem?_reverse h1, List.enum_length, List.getElem?_enum]
  have h2 : l.length - 1 - (l.length - 1 - i) = i := by omega
  rw [h2, List.getElem?_eq_getElem hi]
  rfl

/-- C9, as the code has it: when the removability precheck accepts the package,
`remove_package_files` applies `unlink_file` (one round of its loop) to the entries of
the package's file list exactly once each, from the last entry to the first, between
the progress callbacks at 0 and 100 of a true removal; and for a file list sorted
ascending by path, an entry whose path has a directory entry `d` of the list as a proper
prefix stands before `d` in that order. -/
theorem remove_package_files_reverse_order (env : Env) (handle : alpm_handle_t)
    (oldpkg : alpm_pkg_t) (newpkg : Option alpm_pkg_t) (targ_count pkg_count : Nat)
    (w : World)
    (hpre : remove_precheck env handle w (remove_skip_list handle newpkg) oldpkg.files = true)
    (hsorted : sorted_asc oldpkg.files) :
    ((remove_package_files env handle oldpkg newpkg targ_count pkg_count w).1 =
        (unlink_reverse_order env handle oldpkg newpkg (remove_skip_list handle newpkg)
          handle.trans.flags.NOSAVE targ_count pkg_count oldpkg.files
          ({ disk := w.disk,
             trace := w.trace ++ (match newpkg with
               | none => [Action.progress oldpkg.name 0 pkg_count targ_count]
               | some _ => []) }, 0)).2 ∧
      (remove_package_files env handle oldpkg newpkg targ_count pkg_count w).2.2.disk =
        (unlink_reverse_order env handle oldpkg newpkg (remove_skip_list handle newpkg)
          handle.trans.flags.NOSAVE targ_count pkg_count oldpkg.files
          ({ disk := w.disk,
             trace := w.trace ++ (match newpkg with
               | none => [Action.progress oldpkg.name 0 pkg_count targ_count]
               | some _ => []) }, 0)).1.disk ∧
      (remove_package_files env handle oldpkg newpkg targ_count pkg_count w).2.2.trace =
        (unlink_reverse_order env handle oldpkg newpkg (remove_skip_list handle newpkg)
          handle.trans.flags.NOSAVE targ_count pkg_count oldpkg.files
          ({ disk := w.disk,
             trace := w.trace ++ (match newpkg with
               | none => [Action.progress oldpkg.name 0 pkg_count targ_count]
               | some _ => []) }, 0)).1.trace ++ (match newpkg with
               | none => [Action.progress oldpkg.name 100 pkg_count targ_count]
               | some _ => [])) ∧
      ∀ (i j : Nat) (hi : i < oldpkg.files.length) (hj : j < oldpkg.files.length),
        last_is_slash (oldpkg.files.get ⟨i, hi⟩).name = true →
        (oldpkg.files.get ⟨i, hi⟩).name.data <+: (oldpkg.files.get ⟨j, hj⟩).name.data →
        (oldpkg.files.get ⟨i, hi⟩).name ≠ (oldpkg.files.get ⟨j, hj⟩).name →
        oldpkg.files.enum.reverse[oldpkg.files.length - 1 - j]? =
            some (j, oldpkg.files.get ⟨j, hj⟩) ∧
          oldpkg.files.enum.reverse[oldpkg.files.length - 1 - i]? =
            some (i, oldpkg.files.get ⟨i, hi⟩) ∧
          oldpkg.files.length - 1 - j < oldpkg.files.length - 1 - i := by
  constructor
  · unfold remove_package_files
    simp only [hpre, Bool.not_true, Bool.false_eq_true, if_false]
    rw [unlink_loop_eq_reverse_order]
    cases newpkg with
    | none => exact ⟨rfl, rfl, rfl⟩
    | some np => simp
  · intro i j hi hj _ hprefix hne
    refine ⟨enum_reverse_getElem? _ j hj, enum_reverse_getElem? _ i hi, ?_⟩
    have hlt := strcmp_proper_prefix_lt hprefix hne
    have hij : i < j := by
      by_contra hc
      have hle := sorted_asc_getElem_le hsorted hj hi (by omega)
      have hpos := (strcmp_neg_iff_pos _ _).1 hlt
      simp only [List.get_eq_getElem] at hpos
      omega
    omega

theorem remove_package_files_reverse_order_witness :
    remove_precheck example_env example_handle example_world
        (remove_skip_list example_handle none) example_pkg.files = true ∧
      sorted_asc example_pkg.files ∧
      (remove_package_files example_env example_handle example_pkg none 1 1
          example_world).2.2.disk =
        (unlink_reverse_order example_env example_handle example_pkg none
          (remove_skip_list example_handle none) example_handle.trans.flags.NOSAVE 1 1
          example_pkg.files
          ({ disk := example_world.disk,
             trace := example_world.trace ++
               [Action.progress example_pkg.name 0 1 1] }, 0)).1.disk ∧
      example_pkg.files.enum.reverse[example_pkg.files.length - 1 - 1]? =
          some (1, example_pkg.files.get ⟨1, by decide⟩) ∧
        example_pkg.files.enum.reverse[example_pkg.files.length - 1 - 0]? =
          some (0, example_pkg.files.get ⟨0, by decide⟩) ∧
        example_pkg.files.length - 1 - 1 < example_pkg.files.length - 1 - 0 :=
  have h := remove_package_files_reverse_order example_env example_handle example_pkg none
    1 1 example_world (by decide) (by decide)
  ⟨by decide, by decide, h.1.2.1,
    h.2 0 1 (by decide) (by decide) (by decide) (by decide) (by decide)⟩

/-- C9 as stated fails: the file list of the package is not empty and the precheck
rejects the package, so `remove_package_files` applies `unlink_file` to none of its
entries (nothing is recorded), whereas applying it once to each entry, last to first,
unlinks `/usr/bin/x` and renames `/etc/x.conf`. -/
theorem remove_package_files_rejected_applies_nothing :
    example_pkg.files.length = 5 ∧
      (remove_package_files (example_env_access Errno.EROFS) example_handle example_pkg none
        1 1 example_world).1 = -1 ∧
      (remove_package_files (example_env_access Errno.EROFS) example_handle example_pkg none
        1 1 example_world).2.2.trace = [] ∧
      (unlink_reverse_order (example_env_access Errno.EROFS) example_handle example_pkg none
        (remove_skip_list example_handle none) example_handle.trans.flags.NOSAVE 1 1
        example_pkg.files (example_world, 0)).1.trace =
        [Action.unlink "/usr/bin/x", Action.progress "pkg" 0 1 1,
         Action.progress "pkg" 20 1 1, Action.progress "pkg" 40 1 1,
         Action.rename "/etc/x.conf" "/etc/x.conf.pacsave", Action.progress "pkg" 60 1 1,
         Action.progress "pkg" 80 1 1] := by
  decide

/-! ## C10: directories -/

theorem unlink_file_found_iff (oldpkg : alpm_pkg_t) (fileobj : alpm_file_t) :
    ∀ (db : List alpm_pkg_t), (∀ l ∈ db, sorted_asc l.files) →
      (∀ l ∈ db, l.name = oldpkg.name → l.name_hash = oldpkg.name_hash) →
      (unlink_file_found oldpkg fileobj db = true ↔
        ∃ l ∈ db, l.name ≠ oldpkg.name ∧ ∃ f ∈ l.files, f.name = fileobj.name) := by
  intro db
  induction db with
  | nil => intro _ _; simp [unlink_file_found]
  | cons a rest ih =>
    intro hsorted hhash
    have ih' := ih (fun l hl => hsorted l (List.mem_cons_of_mem _ hl))
      (fun l hl => hhash l (List.mem_cons_of_mem _ hl))
    have hsa := hsorted a (List.mem_cons_self _ _)
    unfold unlink_file_found
    by_cases hname : a.name = oldpkg.name
    · have hh := hhash a (List.mem_cons_self _ _) hname
      have hcmp : strcmp oldpkg.name a.name = 0 := (strcmp_eq_zero_iff _ _).2 hname.symm
      rw [if_pos ⟨hh.symm, hcmp⟩, ih']
      constructor
      · rintro ⟨l, hl, h1, h2⟩
        exact ⟨l, List.mem_cons_of_mem _ hl, h1, h2⟩
      · rintro ⟨l, hl, h1, h2⟩
        rcases List.mem_cons.1 hl with rfl | hl'
        · exact absurd hname h1
        · exact ⟨l, hl', h1, h2⟩
    · have hcmp : ¬ strcmp oldpkg.name a.name = 0 :=
        fun h => hname ((strcmp_eq_zero_iff _ _).1 h).symm
      rw [if_neg (fun h => hcmp h.2)]
      simp only [alpm_pkg_get_files]
      by_cases hc : (alpm_filelist_contains (some a.files) fileobj.name).isSome = true
      · rw [if_pos hc]
        simp only [true_iff]
        rw [Option.isSome_iff_exists] at hc
        exact ⟨a, List.mem_cons_self _ _, hname,
          (filelist_contains_some_iff a.files hsa fileobj.name).1 hc⟩
      · rw [if_neg hc, ih']
        constructor
        · rintro ⟨l, hl, h1, h2⟩
          exact ⟨l, List.mem_cons_of_mem _ hl, h1, h2⟩
        · rintro ⟨l, hl, h1, h2⟩
          rcases List.mem_cons.1 hl with rfl | hl'
          · exfalso
            apply hc
            rw [Option.isSome_iff_exists]
            exact (filelist_contains_some_iff l.files hsa fileobj.name).2 h2
          · exact ⟨l, hl', h1, h2⟩

/-- C10: for a file-list entry that is a directory on disk (by lstat) and matches no
glob of the skip list, file lists being sorted and `name_hash` agreeing for equal
names: `unlink_file` calls `rmdir` (and nothing else) if and only if the directory has
zero entries, the replacing package (if any) does not list the path, and no installed
package with a name different from the removed package's lists the path; in every other
case it changes nothing and returns 0.  A failing `rmdir` makes it return -1, and then
the loop of `remove_package_files` counts one error and goes on with the entries
before this one. -/
theorem unlink_file_directory (env : Env) (handle : alpm_handle_t) (oldpkg : alpm_pkg_t)
    (newpkg : Option alpm_pkg_t) (fileobj : alpm_file_t) (skip_remove : List String)
    (nosave : Bool) (w : World)
    (hskip : ¬ ∃ g ∈ skip_remove, env.fnmatch g fileobj.name = 0)
    (hdir : lstat w.disk (handle.root ++ fileobj.name) = some Node.dir)
    (hnew : ∀ np, newpkg = some np → sorted_asc np.files)
    (hlocal : ∀ l ∈ handle.db_local, sorted_asc l.files)
    (hhash : ∀ l ∈ handle.db_local, l.name = oldpkg.name → l.name_hash = oldpkg.name_hash) :
    ((env.files_in_directory w.disk (handle.root ++ fileobj.name) = 0 ∧
        (∀ np, newpkg = some np → ∀ f ∈ np.files, f.name ≠ fileobj.name) ∧
        (∀ l ∈ handle.db_local, l.name ≠ oldpkg.name → ∀ f ∈ l.files, f.name ≠ fileobj.name)) →
      unlink_file env handle oldpkg newpkg fileobj skip_remove nosave w =
          (if env.rmdir_ok w.disk (handle.root ++ fileobj.name) = true then 0 else -1,
            (sys_rmdir env w (handle.root ++ fileobj.name)).2) ∧
        (unlink_file env handle oldpkg newpkg fileobj skip_remove nosave w).2.trace =
          w.trace ++ [Action.rmdir (handle.root ++ fileobj.name)]) ∧
    (¬ (env.files_in_directory w.disk (handle.root ++ fileobj.name) = 0 ∧
        (∀ np, newpkg = some np → ∀ f ∈ np.files, f.name ≠ fileobj.name) ∧
        (∀ l ∈ handle.db_local, l.name ≠ oldpkg.name → ∀ f ∈ l.files, f.name ≠ fileobj.name)) →
      unlink_file env handle oldpkg newpkg fileobj skip_remove nosave w = (0, w)) ∧
    (∀ (filelist : alpm_filelist_t) (targ_count pkg_count i : Nat)
        (h : i + 1 ≤ filelist.length) (err : Int),
      filelist.get ⟨i, h⟩ = fileobj →
      (unlink_file env handle oldpkg newpkg fileobj skip_remove nosave w).1 = -1 →
      unlink_loop env handle oldpkg newpkg skip_remove nosave targ_count pkg_count filelist
          (i + 1) h (w, err) =
        unlink_loop env handle oldpkg newpkg skip_remove nosave targ_count pkg_count filelist
          i (Nat.le_of_succ_le h)
          ((unlink_round env handle oldpkg newpkg skip_remove nosave targ_count pkg_count
            filelist.length i fileobj (w, err)).1, err + 1)) := by
  have hs : ¬ (alpm_list_find skip_remove fileobj.name env.fnmatch).isSome = true :=
    fun h => hskip ((alpm_list_find_isSome_iff _ _ _).1 h)
  have hd : w.disk (handle.root ++ fileobj.name) = some Node.dir := hdir
  have hrm : sys_rmdir env w (handle.root ++ fileobj.name) =
      (if env.rmdir_ok w.disk (handle.root ++ fileobj.name) = true then
        (0, { disk := fun q => if q = handle.root ++ fileobj.name then none else w.disk q,
              trace := w.trace ++ [Action.rmdir (handle.root ++ fileobj.name)] })
      else (-1, { w with trace := w.trace ++ [Action.rmdir (handle.root ++ fileobj.name)] })) := by
    unfold sys_rmdir
    simp only [hd]
  have hdo : (if (sys_rmdir env w (handle.root ++ fileobj.name)).1 ≠ 0 then
        ((-1 : Int), (sys_rmdir env w (handle.root ++ fileobj.name)).2)
      else (0, (sys_rmdir env w (handle.root ++ fileobj.name)).2)) =
      (if env.rmdir_ok w.disk (handle.root ++ fileobj.name) = true then 0 else -1,
        (sys_rmdir env w (handle.root ++ fileobj.name)).2) := by
    rw [hrm]
    split_ifs <;> simp_all
  have hrm_trace : (sys_rmdir env w (handle.root ++ fileobj.name)).2.trace =
      w.trace ++ [Action.rmdir (handle.root ++ fileobj.name)] := by
    rw [hrm]; split_ifs <;> rfl
  have hfound := unlink_file_found_iff oldpkg fileobj handle.db_local hlocal hhash
  have hnewc : newpkg_contains newpkg fileobj.name = true ↔ ∃ np, newpkg = some np ∧ ∃ f ∈ np.files, f.name = fileobj.name := by
    unfold newpkg_contains
    cases newpkg with
    | none => simp
    | some np =>
      simp only [alpm_pkg_get_files, Option.some.injEq, exists_eq_left']
      rw [Option.isSome_iff_exists]
      exact filelist_contains_some_iff np.files (hnew np rfl) fileobj.name
  have hfile : unlink_file env handle oldpkg newpkg fileobj skip_remove nosave w =
      (if env.files_in_directory w.disk (handle.root ++ fileobj.name) > 0 then (0, w)
        else if env.files_in_directory w.disk (handle.root ++ fileobj.name) < 0 then (0, w)
        else if newpkg_contains newpkg fileobj.name = true then (0, w)
        else if (!unlink_file_found oldpkg fileobj handle.db_local) = true then
          (if env.rmdir_ok w.disk (handle.root ++ fileobj.name) = true then 0 else -1,
            (sys_rmdir env w (handle.root ++ fileobj.name)).2)
        else (0, w)) := by
    unfold unlink_file
    simp only []
    rw [if_neg hs, hdir]
    simp only [S_ISDIR, if_true, hdo]
  refine ⟨?_, ?_, ?_⟩
  · rintro ⟨h0, hA, hB⟩
    have h1 : ¬ env.files_in_directory w.disk (handle.root ++ fileobj.name) > 0 := by omega
    have h2 : ¬ env.files_in_directory w.disk (handle.root ++ fileobj.name) < 0 := by omega
    have h3 : ¬ newpkg_contains newpkg fileobj.name = true := by
      rw [hnewc]
      rintro ⟨np, hnp, f, hf, hname⟩
      exact hA np hnp f hf hname
    have h4 : (!unlink_file_found oldpkg fileobj handle.db_local) = true := by
      rw [Bool.not_eq_true', ← Bool.not_eq_true, hfound]
      rintro ⟨l, hl, hne, f, hf, hname⟩
      exact hB l hl hne f hf hname
    rw [hfile, if_neg h1, if_neg h2, if_neg h3, if_pos h4]
    exact ⟨rfl, hrm_trace⟩
  · intro hcond
    rw [hfile]
    by_cases h1 : env.files_in_directory w.disk (handle.root ++ fileobj.name) > 0
    · rw [if_pos h1]
    · rw [if_neg h1]
      by_cases h2 : env.files_in_directory w.disk (handle.root ++ fileobj.name) < 0
      · rw [if_pos h2]
      · rw [if_neg h2]
        by_cases h3 : newpkg_contains newpkg fileobj.name = true
        · rw [if_pos h3]
        · rw [if_neg h3]
          by_cases h4 : (!unlink_file_found oldpkg fileobj handle.db_local) = true
          · exfalso
            apply hcond
            refine ⟨by omega, ?_, ?_⟩
            · intro np hnp f hf hname
              exact h3 (hnewc.2 ⟨np, hnp, f, hf, hname⟩)
            · intro l hl hne f hf hname
              rw [Bool.not_eq_true', ← Bool.not_eq_true, hfound] at h4
              exact h4 ⟨l, hl, hne, f, hf, hname⟩
          · rw [if_neg h4]
  · intro filelist targ_count pkg_count i h err hget hret
    have hround : unlink_round env handle oldpkg newpkg skip_remove nosave targ_count
        pkg_count filelist.length i fileobj (w, err) =
        ((unlink_round env handle oldpkg newpkg skip_remove nosave targ_count pkg_count
          filelist.length i fileobj (w, err)).1, err + 1) := by
      unfold unlink_round
      simp only [hret]
      cases newpkg <;> rfl
    rw [← hround, ← hget]
    rfl

theorem unlink_file_directory_witness :
    (unlink_file example_env example_handle example_pkg none
        { name := "etc/", size := 0, mode := 493 } [] false example_world_empty_etc).2.trace =
      example_world_empty_etc.trace ++ [Action.rmdir (example_handle.root ++ "etc/")] ∧
    unlink_file example_env example_handle example_pkg none
        { name := "usr/bin/", size := 0, mode := 493 } [] false example_world =
      (0, example_world) ∧
    (unlink_file example_env_rmdir_fails example_handle example_pkg none
        { name := "etc/", size := 0, mode := 493 } [] false example_world_empty_etc).1 = -1 ∧
    unlink_loop example_env_rmdir_fails example_handle example_pkg none [] false 1 1
        example_pkg.files (0 + 1) (by decide) (example_world_empty_etc, 0) =
      unlink_loop example_env_rmdir_fails example_handle example_pkg none [] false 1 1
        example_pkg.files 0 (Nat.le_of_succ_le (by decide))
        ((unlink_round example_env_rmdir_fails example_handle example_pkg none [] false 1 1
          example_pkg.files.length 0 { name := "etc/", size := 0, mode := 493 }
          (example_world_empty_etc, 0)).1, 0 + 1) :=
  ⟨((unlink_file_directory example_env example_handle example_pkg none
      { name := "etc/", size := 0, mode := 493 } [] false example_world_empty_etc
      (by decide) (by decide) (fun _ h => Option.noConfusion h) (by decide) (by decide)).1
      ⟨by decide, fun _ h => Option.noConfusion h, by decide⟩).2,
   (unlink_file_directory example_env example_handle example_pkg none
      { name := "usr/bin/", size := 0, mode := 493 } [] false example_world
      (by decide) (by decide) (fun _ h => Option.noConfusion h) (by decide) (by decide)).2.1
      (fun h => absurd h.1 (by decide)),
   by decide,
   (unlink_file_directory example_env_rmdir_fails example_handle example_pkg none
      { name := "etc/", size := 0, mode := 493 } [] false example_world_empty_etc
      (by decide) (by decide) (fun _ h => Option.noConfusion h) (by decide) (by decide)).2.2
      example_pkg.files 1 1 0 (by decide) 0 (by decide) (by decide)⟩

/-! ## The sync planner: basic facts -/

theorem set_add_add (handle : alpm_handle_t) (add : List alpm_pkg_t) :
    (set_add handle add).trans.add = add := rfl

theorem set_add_dbs_sync (handle : alpm_handle_t) (add : List alpm_pkg_t) :
    (set_add handle add).dbs_sync = handle.dbs_sync := rfl

theorem set_add_db_local (handle : alpm_handle_t) (add : List alpm_pkg_t) :
    (set_add handle add).db_local = handle.db_local := rfl

theorem pkg_find_eq_none_iff (l : List alpm_pkg_t) (n : String) :
    _alpm_pkg_find l n = none ↔ n ∉ l.map (fun p => p.name) := by
  unfold _alpm_pkg_find
  rw [List.find?_eq_none]
  constructor
  · intro h hmem
    obtain ⟨p, hp, hn⟩ := List.mem_map.1 hmem
    exact h p hp (by simpa using hn)
  · intro h p hp hn
    exact h (List.mem_map.2 ⟨p, hp, by simpa using hn⟩)

theorem pkg_find_some_name {l : List alpm_pkg_t} {n : String} {p : alpm_pkg_t}
    (h : _alpm_pkg_find l n = some p) : p.name = n ∧ p ∈ l := by
  unfold _alpm_pkg_find at h
  have h1 := List.find?_some h
  exact ⟨by simpa using h1, List.mem_of_find?_eq_some h⟩

theorem pkgfromcache_eq_none_iff (l : List alpm_pkg_t) (n : String) :
    _alpm_db_get_pkgfromcache l n = none ↔ n ∉ l.map (fun p => p.name) :=
  pkg_find_eq_none_iff l n

theorem pkgfromcache_some_name {l : List alpm_pkg_t} {n : String} {p : alpm_pkg_t}
    (h : _alpm_db_get_pkgfromcache l n = some p) : p.name = n ∧ p ∈ l :=
  pkg_find_some_name h

theorem update_found_names (l : List alpm_pkg_t) (n : String) (f : alpm_pkg_t → alpm_pkg_t)
    (hf : ∀ p, (f p).name = p.name) :
    (update_found l n f).map (fun p => p.name) = l.map (fun p => p.name) := by
  induction l with
  | nil => rfl
  | cons a rest ih =>
    unfold update_found
    by_cases h : (a.name == n) = true
    · rw [if_pos h]
      simp [hf]
    · rw [if_neg h]
      simp [ih]

theorem update_found_find (l : List alpm_pkg_t) (n : String) (f : alpm_pkg_t → alpm_pkg_t)
    (hf : ∀ p, (f p).name = p.name) (t : alpm_pkg_t) (ht : _alpm_pkg_find l n = some t) :
    _alpm_pkg_find (update_found l n f) n = some (f t) := by
  induction l with
  | nil => simp [_alpm_pkg_find] at ht
  | cons a rest ih =>
    unfold update_found
    unfold _alpm_pkg_find at ht ih ⊢
    by_cases h : (a.name == n) = true
    · rw [if_pos h]
      have hfa : ((f a).name == n) = true := by rw [hf]; exact h
      simp only [List.find?_cons, h, Option.some.injEq] at ht
      subst ht
      simp only [List.find?_cons, hfa]
    · rw [if_neg h]
      have h' : (a.name == n) = false := by simpa using h
      simp only [List.find?_cons, h'] at ht
      simp only [List.find?_cons, h']
      exact ih ht

theorem sysupgrade_dbs_literal (env : PlanEnv) (lpkg spkg : alpm_pkg_t)
    (enable_downgrade : Bool) (sdb : alpm_db_t) (rest : List alpm_db_t)
    (st : alpm_handle_t × Nat)
    (h : _alpm_db_get_pkgfromcache sdb.pkgcache lpkg.name = some spkg) :
    sysupgrade_dbs env lpkg enable_downgrade (sdb :: rest) st =
      if check_literal env lpkg spkg enable_downgrade ≠ 0 then
        (set_add st.1 (st.1.trans.add ++ [spkg]), st.2)
      else st := by
  conv_lhs => unfold sysupgrade_dbs
  simp only [h]

theorem sysupgrade_dbs_cons_none (env : PlanEnv) (lpkg : alpm_pkg_t)
    (enable_downgrade : Bool) (sdb : alpm_db_t) (rest : List alpm_db_t)
    (st : alpm_handle_t × Nat)
    (h : _alpm_db_get_pkgfromcache sdb.pkgcache lpkg.name = none) :
    sysupgrade_dbs env lpkg enable_downgrade (sdb :: rest) st =
      sysupgrade_dbs env lpkg enable_downgrade rest
        (if (check_replacers env st.1 lpkg sdb st.2).replacers ≠ [] then
            set_add (check_replacers env st.1 lpkg sdb st.2).handle
              ((check_replacers env st.1 lpkg sdb st.2).handle.trans.add ++
                (check_replacers env st.1 lpkg sdb st.2).replacers)
          else (check_replacers env st.1 lpkg sdb st.2).handle,
          (check_replacers env st.1 lpkg sdb st.2).nq) := by
  conv_lhs => unfold sysupgrade_dbs
  simp only [h]

theorem sysupgrade_dbs_nil (env : PlanEnv) (lpkg : alpm_pkg_t) (enable_downgrade : Bool)
    (st : alpm_handle_t × Nat) : sysupgrade_dbs env lpkg enable_downgrade [] st = st := by
  unfold sysupgrade_dbs
  rfl

theorem sysupgrade_dbs_append (env : PlanEnv) (lpkg : alpm_pkg_t) (enable_downgrade : Bool) :
    ∀ (pre rest : List alpm_db_t) (st : alpm_handle_t × Nat),
      (∀ d ∈ pre, _alpm_db_get_pkgfromcache d.pkgcache lpkg.name = none) →
      sysupgrade_dbs env lpkg enable_downgrade (pre ++ rest) st =
        sysupgrade_dbs env lpkg enable_downgrade rest
          (sysupgrade_dbs env lpkg enable_downgrade pre st) := by
  intro pre
  induction pre with
  | nil => intro rest st _; rw [sysupgrade_dbs_nil]; rfl
  | cons d pre ih =>
    intro rest st h
    have hd := h d (List.mem_cons_self _ _)
    have hpre : ∀ d ∈ pre, _alpm_db_get_pkgfromcache d.pkgcache lpkg.name = none :=
      fun x hx => h x (List.mem_cons_of_mem _ hx)
    rw [List.cons_append, sysupgrade_dbs_cons_none _ _ _ _ _ _ hd,
      sysupgrade_dbs_cons_none _ _ _ _ _ _ hd]
    exact ih rest _ hpre

theorem check_literal_ne_zero_iff (env : PlanEnv) (lpkg spkg : alpm_pkg_t)
    (enable_downgrade : Bool) :
    check_literal env lpkg spkg enable_downgrade ≠ 0 ↔
      (env.pkg_should_ignore lpkg = false ∧ env.pkg_should_ignore spkg = false) ∧
        (env.pkg_compare_versions spkg lpkg > 0 ∨
          (env.pkg_compare_versions spkg lpkg < 0 ∧ enable_downgrade = true)) := by
  unfold check_literal
  simp only []
  by_cases h1 : env.pkg_compare_versions spkg lpkg > 0
  · have h2 : ¬ env.pkg_compare_versions spkg lpkg < 0 := by omega
    rw [if_pos h1]
    cases hs : env.pkg_should_ignore spkg <;> cases hl : env.pkg_should_ignore lpkg <;>
      simp [h1]
  · rw [if_neg h1]
    by_cases h2 : env.pkg_compare_versions spkg lpkg < 0
    · rw [if_pos h2]
      cases enable_downgrade <;> cases hs : env.pkg_should_ignore spkg <;>
        cases hl : env.pkg_should_ignore lpkg <;> simp [h1, h2]
    · rw [if_neg h2]
      simp [h1, h2]

theorem check_replacers_pkg_cases (env : PlanEnv) (lpkg : alpm_pkg_t) (sdb : alpm_db_t)
    (st : ReplacersState) (spkg : alpm_pkg_t) :
    check_replacers_pkg env lpkg sdb st spkg = st ∨
      check_replacers_pkg env lpkg sdb st spkg = { st with nq := st.nq + 1 } ∨
      (env.question_replace_pkg st.nq lpkg spkg sdb.treename = true ∧
        spkg.replaces.any (fun replace => env.depcmp_literal lpkg replace) = true ∧
        (∃ tpkg, _alpm_pkg_find st.handle.trans.add spkg.name = some tpkg ∧
          tpkg.db = some sdb.treename) ∧
        check_replacers_pkg env lpkg sdb st spkg =
          { handle := set_add st.handle
              (update_found st.handle.trans.add spkg.name (append_removes lpkg)),
            replacers := st.replacers, nq := st.nq + 1 }) ∨
      (env.question_replace_pkg st.nq lpkg spkg sdb.treename = true ∧
        spkg.replaces.any (fun replace => env.depcmp_literal lpkg replace) = true ∧
        _alpm_pkg_find st.handle.trans.add spkg.name = none ∧
        check_replacers_pkg env lpkg sdb st spkg =
          { handle := st.handle, replacers := st.replacers ++ [new_replacer lpkg spkg],
            nq := st.nq + 1 }) := by
  unfold check_replacers_pkg
  simp only []
  by_cases hfound : spkg.replaces.any (fun replace => env.depcmp_literal lpkg replace) = true
  · rw [if_pos hfound]
    by_cases hign : (env.pkg_should_ignore spkg || env.pkg_should_ignore lpkg) = true
    · rw [if_pos hign]; exact Or.inl rfl
    · rw [if_neg hign]
      by_cases hq : env.question_replace_pkg st.nq lpkg spkg sdb.treename = true
      · have hq' : (!env.question_replace_pkg st.nq lpkg spkg sdb.treename) = false := by
          simp [hq]
        rw [hq']
        simp only [Bool.false_eq_true, if_false]
        cases hfind : _alpm_pkg_find st.handle.trans.add spkg.name with
        | none => exact Or.inr (Or.inr (Or.inr ⟨hq, hfound, rfl, rfl⟩))
        | some tpkg =>
          simp only []
          by_cases hdb : tpkg.db ≠ some sdb.treename
          · rw [if_pos hdb]; exact Or.inr (Or.inl rfl)
          · rw [if_neg hdb]
            exact Or.inr (Or.inr (Or.inl ⟨hq, hfound, ⟨tpkg, rfl, not_not.1 hdb⟩, rfl⟩))
      · have hq' : (!env.question_replace_pkg st.nq lpkg spkg sdb.treename) = true := by
          simp [hq]
        rw [hq', if_pos rfl]
        exact Or.inr (Or.inl rfl)
  · rw [if_neg hfound]; exact Or.inl rfl

theorem append_removes_name (lpkg tpkg : alpm_pkg_t) :
    (append_removes lpkg tpkg).name = tpkg.name := rfl

theorem new_replacer_name (lpkg spkg : alpm_pkg_t) :
    (new_replacer lpkg spkg).name = spkg.name := rfl

theorem check_replacers_pkg_frame (env : PlanEnv) (lpkg : alpm_pkg_t) (sdb : alpm_db_t)
    (st : ReplacersState) (spkg : alpm_pkg_t) :
    (check_replacers_pkg env lpkg sdb st spkg).handle.dbs_sync = st.handle.dbs_sync ∧
      (check_replacers_pkg env lpkg sdb st spkg).handle.db_local = st.handle.db_local ∧
      (check_replacers_pkg env lpkg sdb st spkg).handle.trans.add.map (fun p => p.name) =
        st.handle.trans.add.map (fun p => p.name) := by
  rcases check_replacers_pkg_cases env lpkg sdb st spkg with h | h | ⟨-, -, -, h⟩ | ⟨-, -, -, h⟩
    <;> rw [h]
  · exact ⟨rfl, rfl, rfl⟩
  · exact ⟨rfl, rfl, rfl⟩
  · exact ⟨rfl, rfl, update_found_names _ _ _ (append_removes_name lpkg)⟩
  · exact ⟨rfl, rfl, rfl⟩

theorem check_replacers_frame (env : PlanEnv) (lpkg : alpm_pkg_t) (sdb : alpm_db_t) :
    ∀ (pkgs : List alpm_pkg_t) (st : ReplacersState),
      (pkgs.foldl (check_replacers_pkg env lpkg sdb) st).handle.dbs_sync =
          st.handle.dbs_sync ∧
        (pkgs.foldl (check_replacers_pkg env lpkg sdb) st).handle.db_local =
          st.handle.db_local ∧
        (pkgs.foldl (check_replacers_pkg env lpkg sdb) st).handle.trans.add.map
            (fun p => p.name) = st.handle.trans.add.map (fun p => p.name) := by
  intro pkgs
  induction pkgs with
  | nil => intro st; exact ⟨rfl, rfl, rfl⟩
  | cons a rest ih =>
    intro st
    rw [List.foldl_cons]
    obtain ⟨h1, h2, h3⟩ := ih (check_replacers_pkg env lpkg sdb st a)
    obtain ⟨g1, g2, g3⟩ := check_replacers_pkg_frame env lpkg sdb st a
    exact ⟨h1.trans g1, h2.trans g2, h3.trans g3⟩

theorem sysupgrade_dbs_frame (env : PlanEnv) (lpkg : alpm_pkg_t) (enable_downgrade : Bool) :
    ∀ (dbs : List alpm_db_t) (st : alpm_handle_t × Nat),
      (sysupgrade_dbs env lpkg enable_downgrade dbs st).1.dbs_sync = st.1.dbs_sync ∧
        (sysupgrade_dbs env lpkg enable_downgrade dbs st).1.db_local = st.1.db_local := by
  intro dbs
  induction dbs with
  | nil => intro st; rw [sysupgrade_dbs_nil]; exact ⟨rfl, rfl⟩
  | cons d rest ih =>
    intro st
    cases hl : _alpm_db_get_pkgfromcache d.pkgcache lpkg.name with
    | some spkg =>
      rw [sysupgrade_dbs_literal _ _ _ _ _ _ _ hl]
      split_ifs
      · exact ⟨rfl, rfl⟩
      · exact ⟨rfl, rfl⟩
    | none =>
      rw [sysupgrade_dbs_cons_none _ _ _ _ _ _ hl]
      obtain ⟨h1, h2⟩ := ih (if (check_replacers env st.1 lpkg d st.2).replacers ≠ [] then
            set_add (check_replacers env st.1 lpkg d st.2).handle
              ((check_replacers env st.1 lpkg d st.2).handle.trans.add ++
                (check_replacers env st.1 lpkg d st.2).replacers)
          else (check_replacers env st.1 lpkg d st.2).handle,
          (check_replacers env st.1 lpkg d st.2).nq)
      obtain ⟨g1, g2, -⟩ := check_replacers_frame env lpkg d d.pkgcache
        { handle := st.1, replacers := [], nq := st.2 }
      rw [h1, h2]
      unfold check_replacers
      split_ifs
      · exact ⟨g1, g2⟩
      · exact ⟨g1, g2⟩

theorem sysupgrade_local_frame (env : PlanEnv) (enable_downgrade : Bool)
    (st : alpm_handle_t × Nat) (lpkg : alpm_pkg_t) :
    (sysupgrade_local env enable_downgrade st lpkg).1.dbs_sync = st.1.dbs_sync ∧
      (sysupgrade_local env enable_downgrade st lpkg).1.db_local = st.1.db_local := by
  unfold sysupgrade_local
  split_ifs
  · exact ⟨rfl, rfl⟩
  · exact sysupgrade_dbs_frame _ _ _ _ _

theorem sysupgrade_locals_frame (env : PlanEnv) (enable_downgrade : Bool) :
    ∀ (ls : List alpm_pkg_t) (st : alpm_handle_t × Nat),
      (ls.foldl (sysupgrade_local env enable_downgrade) st).1.dbs_sync = st.1.dbs_sync ∧
        (ls.foldl (sysupgrade_local env enable_downgrade) st).1.db_local = st.1.db_local := by
  intro ls
  induction ls with
  | nil => intro st; exact ⟨rfl, rfl⟩
  | cons a rest ih =>
    intro st
    rw [List.foldl_cons]
    obtain ⟨h1, h2⟩ := ih (sysupgrade_local env enable_downgrade st a)
    obtain ⟨g1, g2⟩ := sysupgrade_local_frame env enable_downgrade st a
    exact ⟨h1.trans g1, h2.trans g2⟩

/-! ## C11: the literal lookup -/

theorem sysupgrade_dbs_no_literal (env : PlanEnv) (lpkg : alpm_pkg_t)
    (enable_downgrade : Bool) :
    ∀ (dbs : List alpm_db_t) (st : alpm_handle_t × Nat),
      (∀ d ∈ dbs, _alpm_db_get_pkgfromcache d.pkgcache lpkg.name = none) →
      sysupgrade_dbs env lpkg enable_downgrade dbs st = replacers_of_repos env lpkg dbs st := by
  intro dbs
  induction dbs with
  | nil => intro st _; rw [sysupgrade_dbs_nil]; rfl
  | cons d rest ih =>
    intro st h
    rw [sysupgrade_dbs_cons_none _ _ _ _ _ _ (h d (List.mem_cons_self _ _)),
      ih _ (fun x hx => h x (List.mem_cons_of_mem _ hx))]
    rfl

theorem check_replacers_pkg_no_name (env : PlanEnv) (lpkg : alpm_pkg_t) (sdb : alpm_db_t)
    (n : String) (st : ReplacersState) (spkg : alpm_pkg_t) (hs : spkg.name ≠ n)
    (h : n ∉ st.replacers.map (fun p => p.name)) :
    n ∉ (check_replacers_pkg env lpkg sdb st spkg).replacers.map (fun p => p.name) := by
  rcases check_replacers_pkg_cases env lpkg sdb st spkg with e | e | ⟨-, -, -, e⟩ | ⟨-, -, -, e⟩
  · rw [e]; exact h
  · rw [e]; exact h
  · rw [e]; exact h
  · rw [e]
    dsimp only
    rw [List.map_append, List.mem_append]
    rintro (k | k)
    · exact h k
    · rw [List.map_singleton, List.mem_singleton, new_replacer_name] at k
      exact hs k.symm

theorem check_replacers_fold_no_name (env : PlanEnv) (lpkg : alpm_pkg_t) (sdb : alpm_db_t)
    (n : String) :
    ∀ (pkgs : List alpm_pkg_t) (st : ReplacersState),
      n ∉ pkgs.map (fun p => p.name) →
      n ∉ st.replacers.map (fun p => p.name) →
      n ∉ (pkgs.foldl (check_replacers_pkg env lpkg sdb) st).replacers.map
        (fun p => p.name) := by
  intro pkgs
  induction pkgs with
  | nil => intro st _ h; exact h
  | cons a rest ih =>
    intro st hp h
    rw [List.foldl_cons]
    rw [List.map_cons, List.mem_cons, not_or] at hp
    exact ih _ hp.2 (check_replacers_pkg_no_name env lpkg sdb n st a (fun e => hp.1 e.symm) h)

theorem sysupgrade_dbs_no_name (env : PlanEnv) (lpkg : alpm_pkg_t) (enable_downgrade : Bool) :
    ∀ (dbs : List alpm_db_t) (st : alpm_handle_t × Nat),
      (∀ d ∈ dbs, _alpm_db_get_pkgfromcache d.pkgcache lpkg.name = none) →
      _alpm_pkg_find st.1.trans.add lpkg.name = none →
      _alpm_pkg_find (sysupgrade_dbs env lpkg enable_downgrade dbs st).1.trans.add lpkg.name =
        none := by
  intro dbs
  induction dbs with
  | nil => intro st _ h; rw [sysupgrade_dbs_nil]; exact h
  | cons d rest ih =>
    intro st hd h
    have hnone := hd d (List.mem_cons_self _ _)
    rw [sysupgrade_dbs_cons_none _ _ _ _ _ _ hnone]
    apply ih _ (fun x hx => hd x (List.mem_cons_of_mem _ hx))
    have hnames := (check_replacers_frame env lpkg d d.pkgcache
      { handle := st.1, replacers := [], nq := st.2 }).2.2
    have hrep := check_replacers_fold_no_name env lpkg d lpkg.name d.pkgcache
      { handle := st.1, replacers := [], nq := st.2 }
      ((pkgfromcache_eq_none_iff _ _).1 hnone) (by simp)
    have hadd : lpkg.name ∉ (check_replacers env st.1 lpkg d st.2).handle.trans.add.map
        (fun p => p.name) := by
      unfold check_replacers
      rw [hnames]
      exact (pkg_find_eq_none_iff _ _).1 h
    rw [pkg_find_eq_none_iff]
    dsimp only
    split_ifs
    · rw [set_add_add, List.map_append, List.mem_append, not_or]
      exact ⟨hadd, hrep⟩
    · exact hadd

/-- C11, as the code has it: let the loop of `alpm_sync_sysupgrade` reach the installed
package L in state `st`, L not being in `trans.add`, and let S be the package named like
L in the first repository in configured order that has one.  The repositories before
that one are scanned for replacers of L, which leaves the state `st1` with no package
named like L in `trans.add`.  The round for L ends in `st1` with S appended to
`trans.add` if neither L nor S is ignored and either S is newer than L, or S is older
and downgrade is enabled; otherwise, so with equal versions, it ends in `st1`: S is in
`trans.add` at the end of the round for L if and only if that condition holds.  The
repositories after that one play no part, and `alpm_sync_sysupgrade` goes on from there
with the installed packages after L. -/
theorem sysupgrade_literal (env : PlanEnv) (handle : alpm_handle_t) (enable_downgrade : Bool)
    (nq : Nat) (before after : List alpm_pkg_t) (lpkg spkg : alpm_pkg_t)
    (pre post : List alpm_db_t) (sdb : alpm_db_t) (st st1 : alpm_handle_t × Nat)
    (hstate : handle.trans.state = alpm_transstate_t.STATE_INITIALIZED)
    (hlocal : handle.db_local = before ++ lpkg :: after)
    (hst : st = before.foldl (sysupgrade_local env enable_downgrade) (handle, nq))
    (hnot : _alpm_pkg_find st.1.trans.add lpkg.name = none)
    (hdbs : handle.dbs_sync = pre ++ sdb :: post)
    (hpre : ∀ d ∈ pre, _alpm_db_get_pkgfromcache d.pkgcache lpkg.name = none)
    (hS : _alpm_db_get_pkgfromcache sdb.pkgcache lpkg.name = some spkg)
    (hst1 : st1 = sysupgrade_dbs env lpkg enable_downgrade pre st) :
    (((env.pkg_should_ignore lpkg = false ∧ env.pkg_should_ignore spkg = false) ∧
        (env.pkg_compare_versions spkg lpkg > 0 ∨
          (env.pkg_compare_versions spkg lpkg < 0 ∧ enable_downgrade = true))) →
      sysupgrade_local env enable_downgrade st lpkg =
        (set_add st1.1 (st1.1.trans.add ++ [spkg]), st1.2)) ∧
    (¬ ((env.pkg_should_ignore lpkg = false ∧ env.pkg_should_ignore spkg = false) ∧
        (env.pkg_compare_versions spkg lpkg > 0 ∨
          (env.pkg_compare_versions spkg lpkg < 0 ∧ enable_downgrade = true))) →
      sysupgrade_local env enable_downgrade st lpkg = st1) ∧
    (env.pkg_compare_versions spkg lpkg = 0 →
      sysupgrade_local env enable_downgrade st lpkg = st1) ∧
    alpm_sync_sysupgrade env handle enable_downgrade nq =
      (0, (after.foldl (sysupgrade_local env enable_downgrade)
            (sysupgrade_local env enable_downgrade st lpkg)).1,
          (after.foldl (sysupgrade_local env enable_downgrade)
            (sysupgrade_local env enable_downgrade st lpkg)).2) ∧
    st1 = replacers_of_repos env lpkg pre st ∧
    _alpm_pkg_find st1.1.trans.add lpkg.name = none ∧
    (spkg ∈ (sysupgrade_local env enable_downgrade st lpkg).1.trans.add ↔
      ((env.pkg_should_ignore lpkg = false ∧ env.pkg_should_ignore spkg = false) ∧
        (env.pkg_compare_versions spkg lpkg > 0 ∨
          (env.pkg_compare_versions spkg lpkg < 0 ∧ enable_downgrade = true)))) := by
  have hsync : st.1.dbs_sync = pre ++ sdb :: post := by
    rw [hst, (sysupgrade_locals_frame env enable_downgrade before (handle, nq)).1]
    exact hdbs
  have hbody : sysupgrade_local env enable_downgrade st lpkg =
      if check_literal env lpkg spkg enable_downgrade ≠ 0 then
        (set_add st1.1 (st1.1.trans.add ++ [spkg]), st1.2)
      else st1 := by
    unfold sysupgrade_local
    rw [hnot]
    simp only [Option.isSome_none, Bool.false_eq_true, if_false]
    rw [hsync, sysupgrade_dbs_append env lpkg enable_downgrade pre (sdb :: post) st hpre,
      ← hst1, sysupgrade_dbs_literal _ _ _ _ _ _ _ hS]
  have hiff := check_literal_ne_zero_iff env lpkg spkg enable_downgrade
  have hnone1 : _alpm_pkg_find st1.1.trans.add lpkg.name = none := by
    rw [hst1]
    exact sysupgrade_dbs_no_name env lpkg enable_downgrade pre st hpre hnot
  refine ⟨?_, ?_, ?_, ?_, ?_, hnone1, ?_⟩
  · intro hc
    rw [hbody, if_pos (hiff.2 hc)]
  · intro hc
    rw [hbody, if_neg (fun h => hc (hiff.1 h))]
  · intro h0
    rw [hbody, if_neg]
    intro h
    have := (hiff.1 h).2
    omega
  · unfold alpm_sync_sysupgrade
    rw [if_neg (by rw [hstate]; exact fun h => h rfl), hlocal, List.foldl_append,
      List.foldl_cons, ← hst]
  · rw [hst1]
    exact sysupgrade_dbs_no_literal env lpkg enable_downgrade pre st hpre
  · rw [hbody]
    constructor
    · intro hmem
      by_contra hc
      rw [if_neg (fun h => hc (hiff.1 h))] at hmem
      have hname := (pkgfromcache_some_name hS).1
      have := (pkg_find_eq_none_iff _ _).1 hnone1
      exact this (List.mem_map.2 ⟨spkg, hmem, hname⟩)
    · intro hc
      rw [if_pos (hiff.2 hc), set_add_add]
      exact List.mem_append_right _ (List.mem_singleton_self _)

theorem sysupgrade_literal_witness :
    sysupgrade_local example_plan_env false (example_upgrade_handle, 0) example_foo1 =
        (set_add example_upgrade_handle
          (example_upgrade_handle.trans.add ++ [example_foo2]), 0) ∧
      example_foo2 ∈
        (sysupgrade_local example_plan_env false (example_upgrade_handle, 0)
          example_foo1).1.trans.add ∧
      (alpm_sync_sysupgrade example_plan_env example_upgrade_handle false 0).2.1.trans.add =
        [example_foo2] :=
  have h := sysupgrade_literal example_plan_env example_upgrade_handle false 0 []
    [] example_foo1 example_foo2 [example_db_core] [example_db_community] example_db_extra
    (example_upgrade_handle, 0) (example_upgrade_handle, 0) (by decide) (by decide) rfl
    (by decide) (by decide) (by decide) (by decide) (by decide)
  ⟨h.1 (by decide), h.2.2.2.2.2.2.2 (by decide), by decide⟩

/-- C11 as stated fails.  Local = {`foo-1.0`, `bar-1.0`} and the one repository has
`foo-1.0`, which replaces `bar`: the versions of `foo` are equal and the round for `foo`
schedules nothing, but the round for `bar` finds no `bar` in the repository, scans it for
replacers and appends the repository's `foo-1.0` to `trans.add`.  Local = {`foo-1.0`}
with the repositories `testing` (`newfoo`, which replaces `foo`) and `core2`
(`foo-1.0`): the first repository with a `foo` has the installed version, yet `newfoo`
of the repository before it is scheduled. -/
theorem sysupgrade_equal_versions_scheduled :
    example_plan_env.pkg_compare_versions example_foo1_replaces_bar example_foo1 = 0 ∧
      sysupgrade_local example_plan_env false (example_equal_version_handle, 0)
        example_foo1 = (example_equal_version_handle, 0) ∧
      (alpm_sync_sysupgrade example_plan_env example_equal_version_handle false
        0).2.1.trans.add = [{ example_foo1_replaces_bar with removes := ["bar"] }] ∧
      example_plan_env.pkg_compare_versions example_foo1_sync example_foo1 = 0 ∧
      (alpm_sync_sysupgrade example_plan_env example_replacer_first_handle false
        0).2.1.trans.add.map (fun p => (p.name, p.version)) = [("newfoo", "1.0")] := by
  decide

/-! ## C12: where replacers are searched -/

/-- C14, as the code has it: when the front-end accepts replacing the installed package L
by the sync package R of the repository D (R replaces L literally, neither is ignored):
if a package named like R is already in `trans.add` and comes from D, L is appended to
its removes list and its reason becomes EXPLICIT if L was explicit and is otherwise left
unchanged, the other targets staying as they are; if a package named like R is already
in `trans.add` and comes from another repository, the replacement is dropped, `trans.add`
and the list of replacers staying as they are; if no package of that name is in
`trans.add`, R is put on the list of replacers with removes = [L] and the reason of L,
and the replacers of the repository are appended to `trans.add`.  With
Local = {`oldpkg-1.0` explicit} and Sync = {`newpkg-2.0` replaces `oldpkg`}, sysupgrade
gives add = [`newpkg-2.0`] with removes = [`oldpkg`] and reason EXPLICIT. -/
theorem replacement_accepted (env : PlanEnv) (lpkg spkg : alpm_pkg_t) (sdb : alpm_db_t)
    (st : ReplacersState)
    (hfound : spkg.replaces.any (fun replace => env.depcmp_literal lpkg replace) = true)
    (hign : env.pkg_should_ignore spkg = false) (hignl : env.pkg_should_ignore lpkg = false)
    (hyes : env.question_replace_pkg st.nq lpkg spkg sdb.treename = true) :
    (∀ tpkg, _alpm_pkg_find st.handle.trans.add spkg.name = some tpkg →
        tpkg.db = some sdb.treename →
        (check_replacers_pkg env lpkg sdb st spkg).replacers = st.replacers ∧
        (check_replacers_pkg env lpkg sdb st spkg).handle.trans.add =
          update_found st.handle.trans.add spkg.name (append_removes lpkg) ∧
        _alpm_pkg_find (check_replacers_pkg env lpkg sdb st spkg).handle.trans.add spkg.name =
          some { tpkg with
            removes := tpkg.removes ++ [lpkg.name],
            reason :=
              if lpkg.reason = alpm_pkgreason_t.ALPM_PKG_REASON_EXPLICIT then
                alpm_pkgreason_t.ALPM_PKG_REASON_EXPLICIT
              else tpkg.reason }) ∧
    (∀ tpkg, _alpm_pkg_find st.handle.trans.add spkg.name = some tpkg →
        tpkg.db ≠ some sdb.treename →
        (check_replacers_pkg env lpkg sdb st spkg).handle = st.handle ∧
        (check_replacers_pkg env lpkg sdb st spkg).replacers = st.replacers ∧
        (check_replacers_pkg env lpkg sdb st spkg).nq = st.nq + 1) ∧
    (_alpm_pkg_find st.handle.trans.add spkg.name = none →
        (check_replacers_pkg env lpkg sdb st spkg).handle = st.handle ∧
        (check_replacers_pkg env lpkg sdb st spkg).replacers =
          st.replacers ++ [{ spkg with reason := lpkg.reason, removes := [lpkg.name] }]) ∧
    (∀ (enable_downgrade : Bool) (rest : List alpm_db_t) (hst : alpm_handle_t × Nat),
        _alpm_db_get_pkgfromcache sdb.pkgcache lpkg.name = none →
        (check_replacers env hst.1 lpkg sdb hst.2).replacers ≠ [] →
        sysupgrade_dbs env lpkg enable_downgrade (sdb :: rest) hst =
          sysupgrade_dbs env lpkg enable_downgrade rest
            (set_add (check_replacers env hst.1 lpkg sdb hst.2).handle
              ((check_replacers env hst.1 lpkg sdb hst.2).handle.trans.add ++
                (check_replacers env hst.1 lpkg sdb hst.2).replacers),
             (check_replacers env hst.1 lpkg sdb hst.2).nq)) ∧
    (alpm_sync_sysupgrade example_plan_env example_replace_handle false 0).2.1.trans.add =
      [{ example_newpkg2 with
          removes := ["oldpkg"],
          reason := alpm_pkgreason_t.ALPM_PKG_REASON_EXPLICIT }] := by
  have hnotign : ¬ (env.pkg_should_ignore spkg || env.pkg_should_ignore lpkg) = true := by
    simp [hign, hignl]
  have hq' : (!env.question_replace_pkg st.nq lpkg spkg sdb.treename) = false := by
    simp [hyes]
  refine ⟨?_, ?_, ?_, ?_, by decide⟩
  · intro tpkg hfind hdb
    have hres : check_replacers_pkg env lpkg sdb st spkg =
        { handle := set_add st.handle
            (update_found st.handle.trans.add spkg.name (append_removes lpkg)),
          replacers := st.replacers, nq := st.nq + 1 } := by
      unfold check_replacers_pkg
      simp only []
      rw [if_pos hfound, if_neg hnotign, hq']
      simp only [Bool.false_eq_true, if_false, hfind]
      rw [if_neg (not_not.2 hdb)]
    rw [hres]
    refine ⟨rfl, rfl, ?_⟩
    exact update_found_find _ _ _ (append_removes_name lpkg) tpkg hfind
  · intro tpkg hfind hdb
    have hres : check_replacers_pkg env lpkg sdb st spkg = { st with nq := st.nq + 1 } := by
      unfold check_replacers_pkg
      simp only []
      rw [if_pos hfound, if_neg hnotign, hq']
      simp only [Bool.false_eq_true, if_false, hfind]
      rw [if_pos hdb]
    rw [hres]
    exact ⟨rfl, rfl, rfl⟩
  · intro hfind
    have hres : check_replacers_pkg env lpkg sdb st spkg =
        { handle := st.handle, replacers := st.replacers ++ [new_replacer lpkg spkg],
          nq := st.nq + 1 } := by
      unfold check_replacers_pkg
      simp only []
      rw [if_pos hfound, if_neg hnotign, hq']
      simp only [Bool.false_eq_true, if_false, hfind]
    rw [hres]
    exact ⟨rfl, rfl⟩
  · intro enable_downgrade rest hst hnone hne
    rw [sysupgrade_dbs_cons_none _ _ _ _ _ _ hnone, if_pos hne]

theorem replacement_accepted_witness :
    (check_replacers_pkg example_plan_env example_oldpkg example_db_replace
        { handle := example_replace_handle, replacers := [], nq := 0 }
        example_newpkg2).replacers =
      [] ++ [{ example_newpkg2 with
                reason := example_oldpkg.reason,
                removes := [example_oldpkg.name] }] ∧
    _alpm_pkg_find (check_replacers_pkg example_plan_env example_oldpkg example_db_replace
        { handle := example_replace_handle_target, replacers := [], nq := 0 }
        example_newpkg2).handle.trans.add example_newpkg2.name =
      some { example_newpkg2 with
        removes := example_newpkg2.removes ++ [example_oldpkg.name],
        reason :=
          if example_oldpkg.reason = alpm_pkgreason_t.ALPM_PKG_REASON_EXPLICIT then
            alpm_pkgreason_t.ALPM_PKG_REASON_EXPLICIT
          else example_newpkg2.reason } ∧
    ((check_replacers_pkg example_plan_env example_oldpkg example_db_replace
        { handle := example_replace_handle_other, replacers := [], nq := 0 }
        example_newpkg2).handle = example_replace_handle_other ∧
      (check_replacers_pkg example_plan_env example_oldpkg example_db_replace
        { handle := example_replace_handle_other, replacers := [], nq := 0 }
        example_newpkg2).replacers = [] ∧
      (check_replacers_pkg example_plan_env example_oldpkg example_db_replace
        { handle := example_replace_handle_other, replacers := [], nq := 0 }
        example_newpkg2).nq = 0 + 1) :=
  ⟨((replacement_accepted example_plan_env example_oldpkg example_newpkg2 example_db_replace
      { handle := example_replace_handle, replacers := [], nq := 0 }
      (by decide) (by decide) (by decide) (by decide)).2.2.1 (by decide)).2,
   ((replacement_accepted example_plan_env example_oldpkg example_newpkg2 example_db_replace
      { handle := example_replace_handle_target, replacers := [], nq := 0 }
      (by decide) (by decide) (by decide) (by decide)).1 example_newpkg2 (by decide)
      (by decide)).2.2,
   (replacement_accepted example_plan_env example_oldpkg example_newpkg2 example_db_replace
      { handle := example_replace_handle_other, replacers := [], nq := 0 }
      (by decide) (by decide) (by decide) (by decide)).2.1 example_newpkg2_testing (by decide)
      (by decide)⟩

/-- C14 as stated fails.  Local = {`oldpkg-1.0`}, the repository `extra` has
`newpkg-2.0`, which replaces `oldpkg`, and `trans.add` holds a `newpkg-2.0` that comes
from another repository, `testing`: no package named `newpkg` from the same repository is
in `trans.add`, the front-end accepts the replacement (one question, answered yes), and
yet `newpkg-2.0` of `extra` is not appended to `trans.add` and `oldpkg` is in no removes
list: `trans.add` is what it was. -/
theorem replacement_dropped_other_repo :
    _alpm_pkg_find example_replace_handle_other.trans.add "newpkg" =
        some example_newpkg2_testing ∧
      example_newpkg2_testing.db = some "testing" ∧
      example_db_replace.treename = "extra" ∧
      example_plan_env.question_replace_pkg 0 example_oldpkg example_newpkg2 "extra" = true ∧
      (check_replacers example_plan_env example_replace_handle_other example_oldpkg
        example_db_replace 0).replacers = [] ∧
      (check_replacers example_plan_env example_replace_handle_other example_oldpkg
        example_db_replace 0).handle.trans.add = [example_newpkg2_testing] ∧
      alpm_sync_sysupgrade example_plan_env example_replace_handle_other false 0 =
        (0, example_replace_handle_other, 1) ∧
      example_newpkg2_testing.removes = [] := by
  decide

/-! ## C15: no two targets of the same name -/

theorem check_replacers_fold_nodup (env : PlanEnv) (lpkg : alpm_pkg_t) (sdb : alpm_db_t) :
    ∀ (pkgs : List alpm_pkg_t) (st : ReplacersState),
      (pkgs.map (fun p => p.name)).Nodup →
      (st.replacers.map (fun p => p.name)).Nodup →
      (∀ n ∈ st.replacers.map (fun p => p.name),
        n ∉ st.handle.trans.add.map (fun p => p.name)) →
      (∀ n ∈ st.replacers.map (fun p => p.name), n ∉ pkgs.map (fun p => p.name)) →
      ((pkgs.foldl (check_replacers_pkg env lpkg sdb) st).replacers.map
          (fun p => p.name)).Nodup ∧
        (∀ n ∈ (pkgs.foldl (check_replacers_pkg env lpkg sdb) st).replacers.map
            (fun p => p.name), n ∉ st.handle.trans.add.map (fun p => p.name)) ∧
        (∀ n ∈ (pkgs.foldl (check_replacers_pkg env lpkg sdb) st).replacers.map
            (fun p => p.name),
          n ∈ st.replacers.map (fun p => p.name) ∨ n ∈ pkgs.map (fun p => p.name)) := by
  intro pkgs
  induction pkgs with
  | nil =>
    intro st _ h2 h3 _
    exact ⟨h2, h3, fun n hn => Or.inl hn⟩
  | cons a rest ih =>
    intro st h1 h2 h3 h4
    rw [List.foldl_cons]
    rw [List.map_cons, List.nodup_cons] at h1
    obtain ⟨ha, hrest⟩ := h1
    have hframe := (check_replacers_pkg_frame env lpkg sdb st a).2.2
    have key : ((check_replacers_pkg env lpkg sdb st a).replacers.map (fun p => p.name)).Nodup ∧
        (∀ n ∈ (check_replacers_pkg env lpkg sdb st a).replacers.map (fun p => p.name),
          n ∉ st.handle.trans.add.map (fun p => p.name)) ∧
        (∀ n ∈ (check_replacers_pkg env lpkg sdb st a).replacers.map (fun p => p.name),
          n ∉ rest.map (fun p => p.name)) ∧
        (∀ n ∈ (check_replacers_pkg env lpkg sdb st a).replacers.map (fun p => p.name),
          n ∈ st.replacers.map (fun p => p.name) ∨ n = a.name) := by
      have hold : ∀ n ∈ st.replacers.map (fun p => p.name), n ∉ rest.map (fun p => p.name) :=
        fun n hn hr => h4 n hn (by rw [List.map_cons]; exact List.mem_cons_of_mem _ hr)
      rcases check_replacers_pkg_cases env lpkg sdb st a with
        h | h | ⟨-, -, -, h⟩ | ⟨-, -, hfind, h⟩ <;> rw [h]
      · exact ⟨h2, h3, hold, fun n hn => Or.inl hn⟩
      · exact ⟨h2, h3, hold, fun n hn => Or.inl hn⟩
      · exact ⟨h2, h3, hold, fun n hn => Or.inl hn⟩
      · simp only [List.map_append, List.map_cons, List.map_nil, new_replacer_name]
        have hna : a.name ∉ st.replacers.map (fun p => p.name) :=
          fun hc => h4 _ hc (by rw [List.map_cons]; exact List.mem_cons_self _ _)
        refine ⟨?_, ?_, ?_, ?_⟩
        · rw [List.nodup_append]
          refine ⟨h2, List.nodup_singleton _, ?_⟩
          intro x hx hy
          rw [List.mem_singleton] at hy
          subst hy
          exact hna hx
        · intro n hn
          rcases List.mem_append.1 hn with hn | hn
          · exact h3 n hn
          · rw [List.mem_singleton] at hn
            subst hn
            exact (pkg_find_eq_none_iff _ _).1 hfind
        · intro n hn
          rcases List.mem_append.1 hn with hn | hn
          · exact hold n hn
          · rw [List.mem_singleton] at hn
            subst hn
            exact ha
        · intro n hn
          rcases List.mem_append.1 hn with hn | hn
          · exact Or.inl hn
          · rw [List.mem_singleton] at hn
            exact Or.inr hn
    obtain ⟨k1, k2, k3, k4⟩ := key
    have k2' : ∀ n ∈ (check_replacers_pkg env lpkg sdb st a).replacers.map (fun p => p.name),
        n ∉ (check_replacers_pkg env lpkg sdb st a).handle.trans.add.map (fun p => p.name) := by
      rw [hframe]; exact k2
    obtain ⟨r1, r2, r3⟩ := ih (check_replacers_pkg env lpkg sdb st a) hrest k1 k2' k3
    refine ⟨r1, ?_, ?_⟩
    · intro n hn
      have := r2 n hn
      rw [hframe] at this
      exact this
    · intro n hn
      rcases r3 n hn with h | h
      · rcases k4 n h with h' | h'
        · exact Or.inl h'
        · right
          rw [List.map_cons, h']
          exact List.mem_cons_self _ _
      · right
        rw [List.map_cons]
        exact List.mem_cons_of_mem _ h

theorem sysupgrade_dbs_nodup (env : PlanEnv) (lpkg : alpm_pkg_t) (enable_downgrade : Bool) :
    ∀ (dbs : List alpm_db_t) (st : alpm_handle_t × Nat),
      (∀ d ∈ dbs, (d.pkgcache.map (fun p => p.name)).Nodup) →
      (st.1.trans.add.map (fun p => p.name)).Nodup →
      lpkg.name ∉ st.1.trans.add.map (fun p => p.name) →
      ((sysupgrade_dbs env lpkg enable_downgrade dbs st).1.trans.add.map
        (fun p => p.name)).Nodup := by
  intro dbs
  induction dbs with
  | nil => intro st _ h _; rw [sysupgrade_dbs_nil]; exact h
  | cons d rest ih =>
    intro st hdbs hnd hnot
    cases hl : _alpm_db_get_pkgfromcache d.pkgcache lpkg.name with
    | some spkg =>
      rw [sysupgrade_dbs_literal _ _ _ _ _ _ _ hl]
      split_ifs
      · rw [set_add_add, List.map_append, List.nodup_append]
        refine ⟨hnd, List.nodup_singleton _, ?_⟩
        intro x hx hy
        simp only [List.map_cons, List.map_nil, List.mem_singleton] at hy
        rw [hy, (pkgfromcache_some_name hl).1] at hx
        exact hnot hx
      · exact hnd
    | none =>
      rw [sysupgrade_dbs_cons_none _ _ _ _ _ _ hl]
      have hd := hdbs d (List.mem_cons_self _ _)
      have hnone := (pkgfromcache_eq_none_iff _ _).1 hl
      obtain ⟨r1, r2, r3⟩ := check_replacers_fold_nodup env lpkg d d.pkgcache
        { handle := st.1, replacers := [], nq := st.2 } hd List.nodup_nil
        (fun n hn => absurd hn (List.not_mem_nil n)) (fun n hn => absurd hn (List.not_mem_nil n))
      have hframe := (check_replacers_frame env lpkg d d.pkgcache
        { handle := st.1, replacers := [], nq := st.2 }).2.2
      have hadd : ((check_replacers env st.1 lpkg d st.2).handle.trans.add.map
          (fun p => p.name)) = st.1.trans.add.map (fun p => p.name) := hframe
      have hrep_nd : ((check_replacers env st.1 lpkg d st.2).replacers.map
          (fun p => p.name)).Nodup := r1
      have hrep_dis : ∀ n ∈ (check_replacers env st.1 lpkg d st.2).replacers.map
          (fun p => p.name), n ∉ st.1.trans.add.map (fun p => p.name) := r2
      have hrep_sub : ∀ n ∈ (check_replacers env st.1 lpkg d st.2).replacers.map
          (fun p => p.name), n ∈ d.pkgcache.map (fun p => p.name) := by
        intro n hn
        rcases r3 n hn with h | h
        · exact absurd h (List.not_mem_nil n)
        · exact h
      apply ih _ (fun x hx => hdbs x (List.mem_cons_of_mem _ hx))
      · split_ifs
        · rw [set_add_add, List.map_append, hadd, List.nodup_append]
          exact ⟨hnd, hrep_nd, fun x hx hy => hrep_dis x hy hx⟩
        · rw [hadd]; exact hnd
      · split_ifs
        · rw [set_add_add, List.map_append, hadd, List.mem_append]
          rintro (h | h)
          · exact hnot h
          · exact hnone (hrep_sub _ h)
        · rw [hadd]; exact hnot

theorem sysupgrade_locals_nodup (env : PlanEnv) (enable_downgrade : Bool)
    (dbs : List alpm_db_t) (hdbs : ∀ d ∈ dbs, (d.pkgcache.map (fun p => p.name)).Nodup) :
    ∀ (ls : List alpm_pkg_t) (st : alpm_handle_t × Nat),
      st.1.dbs_sync = dbs →
      (st.1.trans.add.map (fun p => p.name)).Nodup →
      ((ls.foldl (sysupgrade_local env enable_downgrade) st).1.trans.add.map
        (fun p => p.name)).Nodup := by
  intro ls
  induction ls with
  | nil => intro st _ h; exact h
  | cons a rest ih =>
    intro st hsync hnd
    rw [List.foldl_cons]
    apply ih
    · rw [(sysupgrade_local_frame env enable_downgrade st a).1]; exact hsync
    · unfold sysupgrade_local
      cases hfind : _alpm_pkg_find st.1.trans.add a.name with
      | some t => simp only [Option.isSome_some, if_true]; exact hnd
      | none =>
        simp only [Option.isSome_none, Bool.false_eq_true, if_false]
        apply sysupgrade_dbs_nodup
        · rw [hsync]; exact hdbs
        · exact hnd
        · exact (pkg_find_eq_none_iff _ _).1 hfind

/-- C15: if `trans.add` holds no two packages of the same name before the call and
package names are unique within the local database and within each sync repository, then
after `alpm_sync_sysupgrade` `trans.add` still holds no two packages of the same name,
for every repository order, every ignore set and every sequence of answers to the
replacement question. -/
theorem sysupgrade_no_duplicate (env : PlanEnv) (handle : alpm_handle_t)
    (enable_downgrade : Bool) (nq : Nat)
    (hadd : (handle.trans.add.map (fun p => p.name)).Nodup)
    (_hlocal : (handle.db_local.map (fun p => p.name)).Nodup)
    (hsync : ∀ d ∈ handle.dbs_sync, (d.pkgcache.map (fun p => p.name)).Nodup) :
    ((alpm_sync_sysupgrade env handle enable_downgrade nq).2.1.trans.add.map
      (fun p => p.name)).Nodup := by
  unfold alpm_sync_sysupgrade
  split_ifs
  · exact hadd
  · exact sysupgrade_locals_nodup env enable_downgrade handle.dbs_sync hsync _ _ rfl hadd

theorem sysupgrade_no_duplicate_witness :
    ((alpm_sync_sysupgrade example_plan_env example_replacer_first_handle false
      0).2.1.trans.add.map (fun p => p.name)).Nodup :=
  sysupgrade_no_duplicate example_plan_env example_replacer_first_handle false 0
    (by decide) (by decide) (by decide)

/-! ## C13: how many replacers -/

theorem update_found_countP_le (q : alpm_pkg_t → Bool) (n : String)
    (f : alpm_pkg_t → alpm_pkg_t) :
    ∀ (l : List alpm_pkg_t), (update_found l n f).countP q ≤ l.countP q + 1 := by
  intro l
  induction l with
  | nil => simp [update_found]
  | cons a rest ih =>
    unfold update_found
    by_cases h : (a.name == n) = true
    · rw [if_pos h, List.countP_cons, List.countP_cons]
      split_ifs <;> omega
    · rw [if_neg h, List.countP_cons, List.countP_cons]
      omega

theorem update_found_countP_eq (q : alpm_pkg_t → Bool) (n : String)
    (f : alpm_pkg_t → alpm_pkg_t) (hf : ∀ p, q (f p) = q p) :
    ∀ (l : List alpm_pkg_t), (update_found l n f).countP q = l.countP q := by
  intro l
  induction l with
  | nil => simp [update_found]
  | cons a rest ih =>
    unfold update_found
    by_cases h : (a.name == n) = true
    · rw [if_pos h, List.countP_cons, List.countP_cons, hf]
    · rw [if_neg h, List.countP_cons, List.countP_cons, ih]

theorem check_replacers_pkg_removers (env : PlanEnv) (lpkg L : alpm_pkg_t) (sdb : alpm_db_t)
    (st : ReplacersState) (spkg : alpm_pkg_t) (n0 : Nat)
    (hl : lpkg = L ∨ lpkg.name ≠ L.name)
    (hone : ∀ n s t, env.question_replace_pkg n L s t = true → n = n0)
    (h1 : removers L.name st.handle.trans.add + removers L.name st.replacers ≤ 1)
    (h2 : st.nq ≤ n0 →
      removers L.name st.handle.trans.add + removers L.name st.replacers = 0) :
    (removers L.name (check_replacers_pkg env lpkg sdb st spkg).handle.trans.add +
        removers L.name (check_replacers_pkg env lpkg sdb st spkg).replacers ≤ 1) ∧
      ((check_replacers_pkg env lpkg sdb st spkg).nq ≤ n0 →
        removers L.name (check_replacers_pkg env lpkg sdb st spkg).handle.trans.add +
          removers L.name (check_replacers_pkg env lpkg sdb st spkg).replacers = 0) := by
  rcases check_replacers_pkg_cases env lpkg sdb st spkg with
    h | h | ⟨hq, -, -, h⟩ | ⟨hq, -, -, h⟩ <;> rw [h]
  · exact ⟨h1, h2⟩
  · exact ⟨h1, fun hn => h2 (by simp only [] at hn; omega)⟩
  · simp only [set_add_add]
    rcases hl with hl | hl
    · subst hl
      have hn0 := hone _ _ _ hq
      have h0 := h2 (by omega)
      have hle := update_found_countP_le (fun p => decide (lpkg.name ∈ p.removes)) spkg.name
        (append_removes lpkg) st.handle.trans.add
      unfold removers at h0 ⊢
      exact ⟨by omega, fun hn => by omega⟩
    · have heq := update_found_countP_eq (fun p => decide (L.name ∈ p.removes)) spkg.name
        (append_removes lpkg) (by
          intro p
          simp only [append_removes, List.mem_append, List.mem_singleton, decide_eq_decide]
          constructor
          · rintro (h | h)
            · exact h
            · exact absurd h.symm hl
          · exact Or.inl) st.handle.trans.add
      unfold removers at h1 h2 ⊢
      rw [heq]
      exact ⟨h1, fun hn => h2 (by omega)⟩
  · rcases hl with hl | hl
    · subst hl
      have hn0 := hone _ _ _ hq
      have h0 := h2 (by omega)
      unfold removers at h0 ⊢
      dsimp only
      rw [List.countP_append, List.countP_singleton]
      exact ⟨by split_ifs <;> omega, fun hn => by omega⟩
    · have hnew : decide (L.name ∈ (new_replacer lpkg spkg).removes) = false := by
        simp only [new_replacer, List.mem_singleton, decide_eq_false_iff_not]
        exact fun h => hl h.symm
      unfold removers at h1 h2 ⊢
      rw [List.countP_append, List.countP_singleton, hnew]
      simp only [Bool.false_eq_true, if_false, Nat.add_zero]
      exact ⟨h1, fun hn => h2 (by omega)⟩

theorem check_replacers_fold_removers (env : PlanEnv) (lpkg L : alpm_pkg_t) (sdb : alpm_db_t)
    (n0 : Nat) (hl : lpkg = L ∨ lpkg.name ≠ L.name)
    (hone : ∀ n s t, env.question_replace_pkg n L s t = true → n = n0) :
    ∀ (pkgs : List alpm_pkg_t) (st : ReplacersState),
      removers L.name st.handle.trans.add + removers L.name st.replacers ≤ 1 →
      (st.nq ≤ n0 →
        removers L.name st.handle.trans.add + removers L.name st.replacers = 0) →
      (removers L.name (pkgs.foldl (check_replacers_pkg env lpkg sdb) st).handle.trans.add +
          removers L.name (pkgs.foldl (check_replacers_pkg env lpkg sdb) st).replacers ≤ 1) ∧
        ((pkgs.foldl (check_replacers_pkg env lpkg sdb) st).nq ≤ n0 →
          removers L.name (pkgs.foldl (check_replacers_pkg env lpkg sdb) st).handle.trans.add +
            removers L.name (pkgs.foldl (check_replacers_pkg env lpkg sdb) st).replacers
              = 0) := by
  intro pkgs
  induction pkgs with
  | nil => intro st h1 h2; exact ⟨h1, h2⟩
  | cons a rest ih =>
    intro st h1 h2
    rw [List.foldl_cons]
    obtain ⟨k1, k2⟩ := check_replacers_pkg_removers env lpkg L sdb st a n0 hl hone h1 h2
    exact ih _ k1 k2

theorem sysupgrade_dbs_removers (env : PlanEnv) (lpkg L : alpm_pkg_t)
    (enable_downgrade : Bool) (n0 : Nat) (hl : lpkg = L ∨ lpkg.name ≠ L.name)
    (hone : ∀ n s t, env.question_replace_pkg n L s t = true → n = n0) :
    ∀ (dbs : List alpm_db_t) (st : alpm_handle_t × Nat),
      (∀ d ∈ dbs, ∀ p ∈ d.pkgcache, L.name ∉ p.removes) →
      removers L.name st.1.trans.add ≤ 1 →
      (st.2 ≤ n0 → removers L.name st.1.trans.add = 0) →
      removers L.name (sysupgrade_dbs env lpkg enable_downgrade dbs st).1.trans.add ≤ 1 ∧
        ((sysupgrade_dbs env lpkg enable_downgrade dbs st).2 ≤ n0 →
          removers L.name (sysupgrade_dbs env lpkg enable_downgrade dbs st).1.trans.add
            = 0) := by
  intro dbs
  induction dbs with
  | nil => intro st _ h1 h2; rw [sysupgrade_dbs_nil]; exact ⟨h1, h2⟩
  | cons d rest ih =>
    intro st hdbs h1 h2
    cases hlit : _alpm_db_get_pkgfromcache d.pkgcache lpkg.name with
    | some spkg =>
      rw [sysupgrade_dbs_literal _ _ _ _ _ _ _ hlit]
      have hS : decide (L.name ∈ spkg.removes) = false := by
        simp only [decide_eq_false_iff_not]
        exact hdbs d (List.mem_cons_self _ _) spkg (pkgfromcache_some_name hlit).2
      have hcount : removers L.name (st.1.trans.add ++ [spkg]) =
          removers L.name st.1.trans.add := by
        unfold removers
        rw [List.countP_append, List.countP_singleton, hS]
        simp
      split_ifs
      · rw [set_add_add, hcount]; exact ⟨h1, h2⟩
      · exact ⟨h1, h2⟩
    | none =>
      rw [sysupgrade_dbs_cons_none _ _ _ _ _ _ hlit]
      have k := check_replacers_fold_removers env lpkg L d n0 hl hone d.pkgcache
        { handle := st.1, replacers := [], nq := st.2 }
        (by simpa [removers] using h1) (by simpa [removers] using h2)
      have k1 := k.1
      have k2 := k.2
      clear k
      have k1' : removers L.name (check_replacers env st.1 lpkg d st.2).handle.trans.add +
          removers L.name (check_replacers env st.1 lpkg d st.2).replacers ≤ 1 := k1
      have k2' : (check_replacers env st.1 lpkg d st.2).nq ≤ n0 →
          removers L.name (check_replacers env st.1 lpkg d st.2).handle.trans.add +
            removers L.name (check_replacers env st.1 lpkg d st.2).replacers = 0 := k2
      apply ih _ (fun x hx => hdbs x (List.mem_cons_of_mem _ hx))
      · split_ifs
        · rw [set_add_add]
          unfold removers at k1' ⊢
          rw [List.countP_append]
          exact k1'
        · exact le_trans (Nat.le_add_right _ _) k1'
      · intro hn
        have hz := k2' hn
        split_ifs
        · rw [set_add_add]
          unfold removers at hz ⊢
          rw [List.countP_append]
          exact hz
        · dsimp only
          clear k1 k2
          omega

theorem sysupgrade_locals_removers (env : PlanEnv) (L : alpm_pkg_t)
    (enable_downgrade : Bool) (n0 : Nat) (dbs : List alpm_db_t)
    (hone : ∀ n s t, env.question_replace_pkg n L s t = true → n = n0)
    (hdbs : ∀ d ∈ dbs, ∀ p ∈ d.pkgcache, L.name ∉ p.removes) :
    ∀ (ls : List alpm_pkg_t) (st : alpm_handle_t × Nat),
      (∀ l ∈ ls, l = L ∨ l.name ≠ L.name) →
      st.1.dbs_sync = dbs →
      removers L.name st.1.trans.add ≤ 1 →
      (st.2 ≤ n0 → removers L.name st.1.trans.add = 0) →
      removers L.name (ls.foldl (sysupgrade_local env enable_downgrade) st).1.trans.add
        ≤ 1 := by
  intro ls
  induction ls with
  | nil => intro st _ _ h1 _; exact h1
  | cons a rest ih =>
    intro st hls hsync h1 h2
    rw [List.foldl_cons]
    have hstep : removers L.name (sysupgrade_local env enable_downgrade st a).1.trans.add ≤ 1 ∧
        ((sysupgrade_local env enable_downgrade st a).2 ≤ n0 →
          removers L.name (sysupgrade_local env enable_downgrade st a).1.trans.add = 0) := by
      unfold sysupgrade_local
      split_ifs
      · exact ⟨h1, h2⟩
      · apply sysupgrade_dbs_removers env a L enable_downgrade n0
          (hls a (List.mem_cons_self _ _)) hone
        · rw [hsync]; exact hdbs
        · exact h1
        · exact h2
    apply ih _ (fun l hl => hls l (List.mem_cons_of_mem _ hl))
    · rw [(sysupgrade_local_frame env enable_downgrade st a).1]; exact hsync
    · exact hstep.1
    · exact hstep.2

/-- C13, as the code has it: for every installed package L (the only one of its name),
when no target and no sync package has L in its removes list beforehand and the
front-end accepts at most one replacement of L (it says yes to at most one question
about L), after `alpm_sync_sysupgrade` at most one package of `trans.add` has L in its
removes list. -/
theorem sysupgrade_single_acceptance (env : PlanEnv) (handle : alpm_handle_t)
    (enable_downgrade : Bool) (nq : Nat) (L : alpm_pkg_t) (n0 : Nat)
    (hL : ∀ l ∈ handle.db_local, l.name = L.name → l = L)
    (hone : ∀ n s t, env.question_replace_pkg n L s t = true → n = n0)
    (hadd : ∀ p ∈ handle.trans.add, L.name ∉ p.removes)
    (hsync : ∀ d ∈ handle.dbs_sync, ∀ p ∈ d.pkgcache, L.name ∉ p.removes) :
    removers L.name (alpm_sync_sysupgrade env handle enable_downgrade nq).2.1.trans.add
      ≤ 1 := by
  have h0 : removers L.name handle.trans.add = 0 := by
    unfold removers
    rw [List.countP_eq_zero]
    intro p hp
    simpa using hadd p hp
  unfold alpm_sync_sysupgrade
  split_ifs
  · simp only []
    omega
  · apply sysupgrade_locals_removers env L enable_downgrade n0 handle.dbs_sync hone hsync
    · intro l hl
      by_cases hn : l.name = L.name
      · exact Or.inl (hL l hl hn)
      · exact Or.inr hn
    · rfl
    · simp only []; omega
    · intro _; exact h0

theorem sysupgrade_single_acceptance_witness :
    removers example_foo1.name
        (alpm_sync_sysupgrade example_plan_env_once example_two_replacers_handle false
          0).2.1.trans.add ≤ 1 ∧
      (alpm_sync_sysupgrade example_plan_env_once example_two_replacers_handle false
          0).2.1.trans.add = [{ example_newfoo with removes := ["foo"] }] :=
  ⟨sysupgrade_single_acceptance example_plan_env_once example_two_replacers_handle false 0
      example_foo1 0 (by decide) (fun n _ _ h => by simpa [example_plan_env_once] using h)
      (by decide) (by decide),
   by decide⟩

/-- C13 as stated fails: two packages of one repository declare that they replace
`foo`, the front-end accepts both replacements, and after `alpm_sync_sysupgrade` two
packages of `trans.add` have `foo` in their removes lists. -/
theorem sysupgrade_two_replacers :
    (alpm_sync_sysupgrade example_plan_env example_two_replacers_handle false
        0).2.1.trans.add =
      [{ example_newfoo with removes := ["foo"] }, { example_foo_ng with removes := ["foo"] }] ∧
    removers "foo"
      (alpm_sync_sysupgrade example_plan_env example_two_replacers_handle false
        0).2.1.trans.add = 2 := by
  decide

/-! ## The depth-first visit of `_alpm_sortbydeps` -/

theorem DfsStep.refl_step (st : List Nat × List Nat) : DfsStep st st :=
  ⟨fun _ h => h, fun _ h => h, fun _ h1 h2 => ⟨h1, h2⟩, fun _ h => Or.inl h, le_refl _⟩

theorem DfsStep.trans_step {a b c : List Nat × List Nat} (h1 : DfsStep a b) (h2 : DfsStep b c) :
    DfsStep a c where
  seen_mono := fun x hx => h2.seen_mono x (h1.seen_mono x hx)
  out_mono := fun x hx => h2.out_mono x (h1.out_mono x hx)
  grey := fun u hu hn =>
    let k := h2.grey u hu hn
    h1.grey u k.1 k.2
  fresh := fun u hu => by
    rcases h2.fresh u hu with h | h
    · exact h1.fresh u h
    · exact Or.inr (fun hx => h (h1.seen_mono u hx))
  len := le_trans h1.len h2.len

theorem mem_of_nodup_length_ge (n : Nat) (l : List Nat) (hl : ∀ x ∈ l, x < n) (hnd : l.Nodup)
    (hlen : n ≤ l.length) (v : Nat) (hv : v < n) : v ∈ l := by
  by_contra hvl
  have hsub : l.toFinset ⊆ (Finset.range n).erase v := by
    intro x hx
    rw [List.mem_toFinset] at hx
    rw [Finset.mem_erase, Finset.mem_range]
    exact ⟨fun h => hvl (h ▸ hx), hl x hx⟩
  have hcard := Finset.card_le_card hsub
  rw [List.toFinset_card_of_nodup hnd, Finset.card_erase_of_mem (Finset.mem_range.2 hv),
    Finset.card_range] at hcard
  omega

theorem sort_visit_seen (g : Nat → Nat → Bool) (n fuel v : Nat) (st : List Nat × List Nat)
    (h : v ∈ st.1) : sort_visit g n fuel v st = st := by
  cases fuel with
  | zero => rfl
  | succ k =>
    unfold sort_visit
    rw [if_pos (by simpa using h)]

theorem sort_children_spec (A : Prop) (g : Nat → Nat → Bool) (n : Nat) (rank : Nat → Nat)
    (fuel v : Nat)
    (ih : ∀ (c : Nat) (st : List Nat × List Nat), c < n → DfsInv A g n st →
      n ≤ fuel + st.1.length → (A → ∀ u ∈ st.1, u ∉ st.2 → rank c < rank u) →
      DfsInv A g n (sort_visit g n fuel c st) ∧ DfsStep st (sort_visit g n fuel c st) ∧
        c ∈ (sort_visit g n fuel c st).1 ∧ (A → c ∈ (sort_visit g n fuel c st).2))
    (hrank : A → ∀ c, c < n → g v c = true → rank c < rank v) :
    ∀ (cs : List Nat) (st : List Nat × List Nat), (∀ c ∈ cs, c < n) → DfsInv A g n st →
      n ≤ fuel + st.1.length → v ∈ st.1 → v ∉ st.2 →
      (A → ∀ u ∈ st.1, u ∉ st.2 → rank v ≤ rank u) →
      DfsInv A g n (cs.foldl (fun st c => if g v c then sort_visit g n fuel c st else st) st) ∧
        DfsStep st (cs.foldl (fun st c => if g v c then sort_visit g n fuel c st else st) st) ∧
        (A → ∀ c ∈ cs, g v c = true →
          c ∈ (cs.foldl (fun st c => if g v c then sort_visit g n fuel c st else st) st).2) := by
  intro cs
  induction cs with
  | nil =>
    intro st _ hinv _ _ _ _
    exact ⟨hinv, DfsStep.refl_step st, fun _ c hc => absurd hc (List.not_mem_nil c)⟩
  | cons c rest ihr =>
    intro st hcs hinv hfuel hv1 hv2 hgrey
    rw [List.foldl_cons]
    by_cases hg : g v c = true
    · rw [if_pos hg]
      have hc : c < n := hcs c (List.mem_cons_self _ _)
      obtain ⟨i1, s1, -, m1⟩ := ih c st hc hinv hfuel
        (fun hA u hu hn => lt_of_lt_of_le (hrank hA c hc hg) (hgrey hA u hu hn))
      have hv2' : v ∉ (sort_visit g n fuel c st).2 := by
        intro hmem
        rcases s1.fresh v hmem with h | h
        · exact hv2 h
        · exact h hv1
      obtain ⟨i2, s2, m2⟩ := ihr (sort_visit g n fuel c st)
        (fun x hx => hcs x (List.mem_cons_of_mem _ hx)) i1
        (le_trans hfuel (Nat.add_le_add_left s1.len _)) (s1.seen_mono v hv1) hv2'
        (fun hA u hu hn => hgrey hA u (s1.grey u hu hn).1 (s1.grey u hu hn).2)
      refine ⟨i2, s1.trans_step s2, ?_⟩
      intro hA x hx hgx
      rcases List.mem_cons.1 hx with h | h
      · subst h
        exact s2.out_mono x (m1 hA)
      · exact m2 hA x h hgx
    · rw [if_neg hg]
      obtain ⟨i2, s2, m2⟩ := ihr st (fun x hx => hcs x (List.mem_cons_of_mem _ hx)) hinv hfuel
        hv1 hv2 hgrey
      refine ⟨i2, s2, ?_⟩
      intro hA x hx hgx
      rcases List.mem_cons.1 hx with h | h
      · subst h
        exact absurd hgx hg
      · exact m2 hA x h hgx

theorem sort_visit_spec (A : Prop) (g : Nat → Nat → Bool) (n : Nat) (rank : Nat → Nat)
    (hrank : A → ∀ x y, x < n → y < n → g x y = true → rank y < rank x) :
    ∀ (fuel v : Nat) (st : List Nat × List Nat), v < n → DfsInv A g n st →
      n ≤ fuel + st.1.length → (A → ∀ u ∈ st.1, u ∉ st.2 → rank v < rank u) →
      DfsInv A g n (sort_visit g n fuel v st) ∧ DfsStep st (sort_visit g n fuel v st) ∧
        v ∈ (sort_visit g n fuel v st).1 ∧ (A → v ∈ (sort_visit g n fuel v st).2) := by
  intro fuel
  induction fuel with
  | zero =>
    intro v st hv hinv hfuel hgrey
    have hmem : v ∈ st.1 :=
      mem_of_nodup_length_ge n st.1 hinv.seen_lt hinv.seen_nodup (by omega) v hv
    have hout : A → v ∈ st.2 := by
      intro hA
      by_contra hn
      exact lt_irrefl _ (hgrey hA v hmem hn)
    exact ⟨hinv, DfsStep.refl_step st, hmem, hout⟩
  | succ fuel ih =>
    intro v st hv hinv hfuel hgrey
    by_cases hmem : v ∈ st.1
    · rw [sort_visit_seen g n _ v st hmem]
      have hout : A → v ∈ st.2 := by
        intro hA
        by_contra hn
        exact lt_irrefl _ (hgrey hA v hmem hn)
      exact ⟨hinv, DfsStep.refl_step st, hmem, hout⟩
    · have hinv0 : DfsInv A g n (v :: st.1, st.2) :=
        { seen_lt := fun x hx => by
            rcases List.mem_cons.1 hx with h | h
            · exact h ▸ hv
            · exact hinv.seen_lt x h
          seen_nodup := List.nodup_cons.2 ⟨hmem, hinv.seen_nodup⟩
          out_sub := fun x hx => List.mem_cons_of_mem _ (hinv.out_sub x hx)
          out_nodup := hinv.out_nodup
          closed := hinv.closed
          ordered := hinv.ordered }
      have hvout : v ∉ st.2 := fun h => hmem (hinv.out_sub v h)
      obtain ⟨i2, s2, m2⟩ := sort_children_spec A g n rank fuel v ih
        (fun hA c hc hg => hrank hA v c hv hc hg) (List.range n) (v :: st.1, st.2)
        (fun c hc => List.mem_range.1 hc) hinv0
        (by simp only [List.length_cons]; omega) (List.mem_cons_self _ _) hvout
        (fun hA u hu hn => by
          rcases List.mem_cons.1 hu with h | h
          · exact h ▸ le_refl _
          · exact le_of_lt (hgrey hA u h hn))
      have hres : sort_visit g n (fuel + 1) v st =
          (((List.range n).foldl
              (fun st c => if g v c then sort_visit g n fuel c st else st) (v :: st.1, st.2)).1,
            ((List.range n).foldl
              (fun st c => if g v c then sort_visit g n fuel c st else st) (v :: st.1, st.2)).2
              ++ [v]) := by
        conv_lhs => unfold sort_visit
        rw [if_neg (by simpa using hmem)]
      rw [hres]
      generalize (List.range n).foldl
        (fun st c => if g v c then sort_visit g n fuel c st else st) (v :: st.1, st.2) = st2
        at i2 s2 m2
      have hv2 : v ∉ st2.2 := by
        intro h
        rcases s2.fresh v h with h | h
        · exact hvout h
        · exact h (List.mem_cons_self _ _)
      refine ⟨?_, ?_, s2.seen_mono v (List.mem_cons_self _ _), ?_⟩
      · exact
          { seen_lt := i2.seen_lt
            seen_nodup := i2.seen_nodup
            out_sub := fun x hx => by
              rcases List.mem_append.1 hx with h | h
              · exact i2.out_sub x h
              · rw [List.mem_singleton] at h
                exact h ▸ s2.seen_mono v (List.mem_cons_self _ _)
            out_nodup := by
              rw [List.nodup_append]
              refine ⟨i2.out_nodup, List.nodup_singleton v, ?_⟩
              intro a ha hb
              rw [List.mem_singleton] at hb
              exact hv2 (hb ▸ ha)
            closed := fun hA a ha c hc hg => by
              rcases List.mem_append.1 ha with h | h
              · exact List.mem_append_left _ (i2.closed hA a h c hc hg)
              · rw [List.mem_singleton] at h
                subst h
                exact List.mem_append_left _ (m2 hA c (List.mem_range.2 hc) hg)
            ordered := fun hA => by
              rw [List.pairwise_append]
              refine ⟨i2.ordered hA, List.pairwise_singleton _ _, ?_⟩
              intro a ha b hb
              rw [List.mem_singleton] at hb
              subst hb
              by_contra hg
              exact hv2 (i2.closed hA a ha b hv (by simpa using hg)) }
      · exact
          { seen_mono := fun x hx => s2.seen_mono x (List.mem_cons_of_mem _ hx)
            out_mono := fun x hx => List.mem_append_left _ (s2.out_mono x hx)
            grey := fun u hu hn => by
              have hn1 : u ∉ st2.2 := fun h => hn (List.mem_append_left _ h)
              have hne : u ≠ v := fun h => hn (List.mem_append_right _ (by simp [h]))
              obtain ⟨k1, k2⟩ := s2.grey u hu hn1
              rcases List.mem_cons.1 k1 with h | h
              · exact absurd h hne
              · exact ⟨h, k2⟩
            fresh := fun u hu => by
              rcases List.mem_append.1 hu with h | h
              · rcases s2.fresh u h with h | h
                · exact Or.inl h
                · exact Or.inr (fun hx => h (List.mem_cons_of_mem _ hx))
              · rw [List.mem_singleton] at h
                exact Or.inr (h ▸ hmem)
            len := le_trans (by simp) s2.len }
      · exact fun _ => List.mem_append_right _ (List.mem_singleton_self v)

theorem sort_order_spec (A : Prop) (g : Nat → Nat → Bool) (n : Nat) (rank : Nat → Nat)
    (hrank : A → ∀ x y, x < n → y < n → g x y = true → rank y < rank x) :
    (sort_order g n).Perm (List.range n) ∧
      (A → (sort_order g n).Pairwise (fun a b => g a b = false)) := by
  have key : ∀ (vs : List Nat) (st : List Nat × List Nat), (∀ v ∈ vs, v < n) →
      DfsInv A g n st → (∀ u ∈ st.1, u ∈ st.2) →
      DfsInv A g n (vs.foldl (fun st v => sort_visit g n n v st) st) ∧
        (∀ u ∈ (vs.foldl (fun st v => sort_visit g n n v st) st).1,
          u ∈ (vs.foldl (fun st v => sort_visit g n n v st) st).2) ∧
        DfsStep st (vs.foldl (fun st v => sort_visit g n n v st) st) ∧
        ∀ v ∈ vs, v ∈ (vs.foldl (fun st v => sort_visit g n n v st) st).2 := by
    intro vs
    induction vs with
    | nil =>
      intro st _ hinv hg
      exact ⟨hinv, hg, DfsStep.refl_step st, fun v hv => absurd hv (List.not_mem_nil v)⟩
    | cons v rest ih =>
      intro st hvs hinv hg
      rw [List.foldl_cons]
      obtain ⟨i1, s1, m1, -⟩ := sort_visit_spec A g n rank hrank n v st
        (hvs v (List.mem_cons_self _ _)) hinv (Nat.le_add_right _ _)
        (fun _ u hu hn => absurd (hg u hu) hn)
      have hg1 : ∀ u ∈ (sort_visit g n n v st).1, u ∈ (sort_visit g n n v st).2 := by
        intro u hu
        by_contra hn
        exact (s1.grey u hu hn).2 (hg u (s1.grey u hu hn).1)
      obtain ⟨i2, g2, s2, m2⟩ := ih (sort_visit g n n v st)
        (fun x hx => hvs x (List.mem_cons_of_mem _ hx)) i1 hg1
      refine ⟨i2, g2, s1.trans_step s2, ?_⟩
      intro x hx
      rcases List.mem_cons.1 hx with h | h
      · subst h
        exact s2.out_mono x (hg1 x m1)
      · exact m2 x h
  have hinv0 : DfsInv A g n ([], []) :=
    { seen_lt := fun x hx => absurd hx (List.not_mem_nil x)
      seen_nodup := List.nodup_nil
      out_sub := fun x hx => hx
      out_nodup := List.nodup_nil
      closed := fun _ a ha => absurd ha (List.not_mem_nil a)
      ordered := fun _ => List.Pairwise.nil }
  obtain ⟨i, -, -, m⟩ := key (List.range n) ([], []) (fun v hv => List.mem_range.1 hv) hinv0
    (fun u hu => hu)
  refine ⟨?_, i.ordered⟩
  refine (List.perm_ext_iff_of_nodup i.out_nodup (List.nodup_range n)).2 ?_
  intro a
  constructor
  · intro ha
    exact List.mem_range.2 (i.seen_lt a (i.out_sub a ha))
  · intro ha
    exact m a ha

/-! ## Preparing a remove transaction -/

theorem range_filterMap_getElem {α : Type} (l : List α) :
    (List.range l.length).filterMap (fun i => l[i]?) = l := by
  induction l using List.reverseRecOn with
  | nil => rfl
  | append_singleton l a ih =>
    rw [List.length_append, List.length_singleton, List.range_succ, List.filterMap_append]
    have h1 : (List.range l.length).filterMap (fun i => (l ++ [a])[i]?) =
        (List.range l.length).filterMap (fun i => l[i]?) := by
      apply List.filterMap_congr
      intro i hi
      rw [List.mem_range] at hi
      exact List.getElem?_append_left hi
    rw [h1, ih]
    simp

theorem sortbydeps_perm (env : PlanEnv) (targets : List alpm_pkg_t) (reverse : Bool) :
    (_alpm_sortbydeps env targets reverse).Perm targets := by
  have h := (sort_order_spec False (dep_graph env targets) targets.length (fun _ => 0)
    (fun h => h.elim)).1
  have h2 := h.filterMap (fun i => targets[i]?)
  rw [range_filterMap_getElem] at h2
  unfold _alpm_sortbydeps
  dsimp only
  split_ifs
  · exact (List.reverse_perm _).trans h2
  · exact h2

theorem sortbydeps_ordered (env : PlanEnv) (targets : List alpm_pkg_t)
    (rank : alpm_pkg_t → Nat)
    (hrank : ∀ p ∈ targets, ∀ q ∈ targets, _alpm_dep_edge env p q = true → rank q < rank p) :
    (_alpm_sortbydeps env targets true).Pairwise
      (fun p q => _alpm_dep_edge env q p = false) := by
  have h := (sort_order_spec True (dep_graph env targets) targets.length
    (fun i => match targets[i]? with
      | some p => rank p
      | none => 0) (by
      intro _ x y hx hy hg
      unfold dep_graph at hg
      simp only [List.getElem?_eq_getElem hx, List.getElem?_eq_getElem hy] at hg ⊢
      exact hrank _ (List.getElem_mem _) _ (List.getElem_mem _) hg)).2 trivial
  unfold _alpm_sortbydeps
  dsimp only
  rw [if_pos rfl, List.pairwise_reverse, List.pairwise_filterMap]
  refine h.imp ?_
  intro a b hab p hp q hq
  rw [Option.mem_def] at hp hq
  unfold dep_graph at hab
  rw [hp, hq] at hab
  exact hab


theorem pkg_find_isSome_iff (l : List alpm_pkg_t) (n : String) :
    (_alpm_pkg_find l n).isSome = true ↔ ∃ p ∈ l, p.name = n := by
  unfold _alpm_pkg_find
  rw [List.find?_isSome]
  simp

theorem pkg_find_isSome_congr {l1 l2 : List alpm_pkg_t}
    (h : ∀ n, (∃ p ∈ l1, p.name = n) ↔ ∃ p ∈ l2, p.name = n) (n : String) :
    (_alpm_pkg_find l1 n).isSome = (_alpm_pkg_find l2 n).isSome := by
  rw [Bool.eq_iff_iff, pkg_find_isSome_iff, pkg_find_isSome_iff]
  exact h n

theorem checkdeps_congr (env : PlanEnv) (pkglist upgrade : List alpm_pkg_t)
    (reversedeps : Bool) {rem1 rem2 : List alpm_pkg_t}
    (h : ∀ n, (∃ p ∈ rem1, p.name = n) ↔ ∃ p ∈ rem2, p.name = n) :
    alpm_checkdeps env pkglist rem1 upgrade reversedeps =
      alpm_checkdeps env pkglist rem2 upgrade reversedeps := by
  unfold alpm_checkdeps
  have hp : ∀ (n : String), (_alpm_pkg_find rem1 n).isSome = (_alpm_pkg_find rem2 n).isSome :=
    pkg_find_isSome_congr h
  simp only [hp]

theorem checkdeps_perm (env : PlanEnv) (pkglist upgrade : List alpm_pkg_t)
    (reversedeps : Bool) {rem1 rem2 : List alpm_pkg_t} (h : rem1.Perm rem2) :
    alpm_checkdeps env pkglist rem1 upgrade reversedeps =
      alpm_checkdeps env pkglist rem2 upgrade reversedeps :=
  checkdeps_congr env pkglist upgrade reversedeps (fun _ =>
    ⟨fun ⟨p, hp, hn⟩ => ⟨p, h.mem_iff.1 hp, hn⟩, fun ⟨p, hp, hn⟩ => ⟨p, h.mem_iff.2 hp, hn⟩⟩)

theorem checkdeps_miss (env : PlanEnv) (pkglist rem : List alpm_pkg_t)
    (miss : alpm_depmissing_t) (h : miss ∈ alpm_checkdeps env pkglist rem [] true) :
    (∃ lp ∈ pkglist, _alpm_pkg_find rem lp.name = none ∧ miss.target = lp.name) ∧
      ∃ c ∈ pkglist, (_alpm_pkg_find rem c.name).isSome = true ∧
        miss.causingpkg = some c.name := by
  unfold alpm_checkdeps at h
  simp only [List.flatMap_nil, if_true, List.nil_append, List.mem_flatMap, List.mem_filterMap,
    List.mem_filter] at h
  obtain ⟨lp, ⟨hlp, htouch⟩, dep, _, hm⟩ := h
  split at hm
  · rename_i causingpkg hc
    split_ifs at hm
    rw [Option.some.injEq] at hm
    subst hm
    unfold find_dep_satisfier at hc
    have hmem := List.mem_of_find?_eq_some hc
    rw [List.mem_filter] at hmem
    refine ⟨⟨lp, hlp, ?_, rfl⟩, causingpkg, hmem.1, ?_, rfl⟩
    · simpa [_alpm_pkg_find] using htouch
    · simpa [_alpm_pkg_find] using hmem.2
  · exact absurd hm (by simp)

theorem set_remove_remove (handle : alpm_handle_t) (r : List alpm_pkg_t) :
    (set_remove handle r).trans.remove = r := rfl

theorem set_remove_db_local (handle : alpm_handle_t) (r : List alpm_pkg_t) :
    (set_remove handle r).db_local = handle.db_local := rfl

theorem set_remove_flags (handle : alpm_handle_t) (r : List alpm_pkg_t) :
    (set_remove handle r).trans.flags = handle.trans.flags := rfl

theorem set_remove_set_remove (handle : alpm_handle_t) (r1 r2 : List alpm_pkg_t) :
    set_remove (set_remove handle r1) r2 = set_remove handle r2 := rfl

theorem set_remove_self (handle : alpm_handle_t) :
    set_remove handle handle.trans.remove = handle := rfl

theorem pkg_find_isSome_append_left (l1 l2 : List alpm_pkg_t) (n : String)
    (h : (_alpm_pkg_find l1 n).isSome = true) : (_alpm_pkg_find (l1 ++ l2) n).isSome = true := by
  rw [pkg_find_isSome_iff] at h ⊢
  obtain ⟨p, hp, hn⟩ := h
  exact ⟨p, List.mem_append_left _ hp, hn⟩

theorem pkg_find_none_append_left (l1 l2 : List alpm_pkg_t) (n : String)
    (h : _alpm_pkg_find (l1 ++ l2) n = none) : _alpm_pkg_find l1 n = none := by
  rw [pkg_find_eq_none_iff] at h ⊢
  intro hmem
  exact h (by rw [List.map_append]; exact List.mem_append_left _ hmem)

theorem cascade_miss_spec (handle : alpm_handle_t) (miss : alpm_depmissing_t) :
    ∃ B, cascade_miss handle miss = set_remove handle (handle.trans.remove ++ B) ∧
      (∀ p ∈ B, p ∈ handle.db_local ∧ miss.target = p.name ∧
        _alpm_pkg_find handle.trans.remove p.name = none) ∧
      (B.map (fun p => p.name)).Nodup ∧
      ∀ info, _alpm_db_get_pkgfromcache handle.db_local miss.target = some info →
        (_alpm_pkg_find (handle.trans.remove ++ B) info.name).isSome = true := by
  unfold cascade_miss
  cases hlook : _alpm_db_get_pkgfromcache handle.db_local miss.target with
  | none =>
    exact ⟨[], by simp [set_remove_self], by simp, by simp, by simp⟩
  | some info =>
    by_cases hf : (_alpm_pkg_find handle.trans.remove info.name).isNone = true
    · refine ⟨[info], by simp only [hf, if_true], ?_, by simp, ?_⟩
      · intro p hp
        rw [List.mem_singleton] at hp
        subst hp
        exact ⟨(pkgfromcache_some_name hlook).2, (pkgfromcache_some_name hlook).1.symm,
          by simpa using hf⟩
      · intro info2 h2
        rw [Option.some.injEq] at h2
        subst h2
        rw [pkg_find_isSome_iff]
        exact ⟨info, by simp, rfl⟩
    · refine ⟨[], by simp [hf, set_remove_self], by simp, by simp, ?_⟩
      intro info2 h2
      rw [Option.some.injEq] at h2
      subst h2
      rw [List.append_nil]
      cases hfind : _alpm_pkg_find handle.trans.remove info.name with
      | none => rw [hfind] at hf; exact absurd rfl hf
      | some _ => rfl

theorem cascade_round_spec : ∀ (lp : List alpm_depmissing_t) (handle : alpm_handle_t),
    ∃ B, lp.foldl cascade_miss handle = set_remove handle (handle.trans.remove ++ B) ∧
      (∀ p ∈ B, p ∈ handle.db_local ∧ (∃ miss ∈ lp, miss.target = p.name) ∧
        _alpm_pkg_find handle.trans.remove p.name = none) ∧
      (B.map (fun p => p.name)).Nodup ∧
      ∀ miss ∈ lp, ∀ info,
        _alpm_db_get_pkgfromcache handle.db_local miss.target = some info →
        (_alpm_pkg_find (handle.trans.remove ++ B) info.name).isSome = true := by
  intro lp
  induction lp with
  | nil =>
    intro handle
    exact ⟨[], by simp [set_remove_self], by simp, by simp, by simp⟩
  | cons miss rest ih =>
    intro handle
    obtain ⟨B1, e1, p1, n1, f1⟩ := cascade_miss_spec handle miss
    obtain ⟨B2, e2, p2, n2, f2⟩ := ih (cascade_miss handle miss)
    rw [e1] at e2 p2 f2
    simp only [set_remove_remove, set_remove_db_local, set_remove_set_remove] at e2 p2 f2
    refine ⟨B1 ++ B2, ?_, ?_, ?_, ?_⟩
    · rw [List.foldl_cons, e1, e2, List.append_assoc]
    · intro p hp
      rcases List.mem_append.1 hp with h | h
      · obtain ⟨a, b, c⟩ := p1 p h
        exact ⟨a, ⟨miss, List.mem_cons_self _ _, b⟩, c⟩
      · obtain ⟨a, ⟨m, hm, hmt⟩, c⟩ := p2 p h
        exact ⟨a, ⟨m, List.mem_cons_of_mem _ hm, hmt⟩, pkg_find_none_append_left _ _ _ c⟩
    · rw [List.map_append, List.nodup_append]
      refine ⟨n1, n2, ?_⟩
      intro x hx1 hx2
      obtain ⟨p, hp, hpn⟩ := List.mem_map.1 hx2
      have hnone := (p2 p hp).2.2
      rw [pkg_find_eq_none_iff, List.map_append] at hnone
      exact hnone (List.mem_append_right _ (hpn ▸ hx1))
    · intro m hm info hinfo
      rw [← List.append_assoc]
      rcases List.mem_cons.1 hm with h | h
      · subst h
        exact pkg_find_isSome_append_left _ _ _ (f1 info hinfo)
      · exact f2 m h info hinfo

theorem countP_lt_of_imp {α : Type} (p q : α → Bool) :
    ∀ (l : List α), (∀ x ∈ l, q x = true → p x = true) →
      (∃ x ∈ l, p x = true ∧ q x = false) → l.countP q < l.countP p := by
  intro l
  induction l with
  | nil => intro _ ⟨x, hx, _⟩; exact absurd hx (List.not_mem_nil x)
  | cons a rest ih =>
    intro himp ⟨x, hx, hpx, hqx⟩
    have hle : rest.countP q ≤ rest.countP p :=
      List.countP_mono_left (fun y hy => himp y (List.mem_cons_of_mem _ hy))
    rw [List.countP_cons, List.countP_cons]
    rcases List.mem_cons.1 hx with h | h
    · subst h
      rw [hpx, hqx]
      simp only [if_true, Bool.false_eq_true, if_false]
      omega
    · have hlt := ih (fun y hy => himp y (List.mem_cons_of_mem _ hy)) ⟨x, h, hpx, hqx⟩
      have ha := himp a (List.mem_cons_self _ _)
      by_cases hqa : q a = true
      · rw [hqa, ha hqa]
        simp only [if_true]
        omega
      · rw [Bool.not_eq_true] at hqa
        rw [hqa]
        simp only [Bool.false_eq_true, if_false]
        split_ifs <;> omega

theorem cascade_loop_spec (env : PlanEnv) : ∀ (fuel : Nat) (handle : alpm_handle_t),
    handle.db_local.countP (fun p => (_alpm_pkg_find handle.trans.remove p.name).isNone) < fuel →
    ∃ B, remove_prepare_cascade env fuel handle
        (alpm_checkdeps env handle.db_local handle.trans.remove [] true) =
          some (0, set_remove handle (handle.trans.remove ++ B)) ∧
      (∀ p ∈ B, p ∈ handle.db_local ∧ _alpm_pkg_find handle.trans.remove p.name = none ∧
        ∃ k, ∃ miss ∈ alpm_checkdeps env handle.db_local (handle.trans.remove ++ B.take k) []
          true, miss.target = p.name) ∧
      (B.map (fun p => p.name)).Nodup ∧
      alpm_checkdeps env handle.db_local (handle.trans.remove ++ B) [] true = [] := by
  intro fuel
  induction fuel with
  | zero => intro handle h; exact absurd h (Nat.not_lt_zero _)
  | succ fuel ih =>
    intro handle hfuel
    cases hlp : alpm_checkdeps env handle.db_local handle.trans.remove [] true with
    | nil =>
      refine ⟨[], ?_, by simp, by simp, by simpa using hlp⟩
      unfold remove_prepare_cascade
      simp [set_remove_self]
    | cons miss lp =>
      obtain ⟨B1, e1, p1, n1, f1⟩ := cascade_round_spec (miss :: lp) handle
      have hmiss : miss ∈ alpm_checkdeps env handle.db_local handle.trans.remove [] true := by
        rw [hlp]; exact List.mem_cons_self _ _
      obtain ⟨⟨lp0, hlp0, hnone0, ht0⟩, -⟩ := checkdeps_miss env _ _ miss hmiss
      have hmeasure : handle.db_local.countP
          (fun p => (_alpm_pkg_find (handle.trans.remove ++ B1) p.name).isNone) <
          handle.db_local.countP
            (fun p => (_alpm_pkg_find handle.trans.remove p.name).isNone) := by
        apply countP_lt_of_imp
        · intro x _ hx
          simp only [Option.isNone_iff_eq_none] at hx ⊢
          exact pkg_find_none_append_left _ _ _ hx
        · refine ⟨lp0, hlp0, by simp [hnone0], ?_⟩
          cases hlook : _alpm_db_get_pkgfromcache handle.db_local miss.target with
          | none =>
            rw [pkgfromcache_eq_none_iff] at hlook
            exact absurd (List.mem_map.2 ⟨lp0, hlp0, ht0.symm⟩) hlook
          | some info =>
            have h1 := f1 miss (List.mem_cons_self _ _) info hlook
            rw [(pkgfromcache_some_name hlook).1, ht0] at h1
            simpa using h1
      obtain ⟨B2, e2, p2, n2, f2⟩ := ih (set_remove handle (handle.trans.remove ++ B1)) (by
        rw [set_remove_remove, set_remove_db_local]; omega)
      simp only [set_remove_remove, set_remove_db_local, set_remove_set_remove] at e2 p2 f2
      refine ⟨B1 ++ B2, ?_, ?_, ?_, ?_⟩
      · conv_lhs => unfold remove_prepare_cascade
        simp only []
        rw [e1, set_remove_remove, set_remove_db_local, e2, List.append_assoc]
      · intro p hp
        rcases List.mem_append.1 hp with h | h
        · obtain ⟨a, ⟨m, hm, hmt⟩, c⟩ := p1 p h
          refine ⟨a, c, 0, m, ?_, hmt⟩
          rw [List.take_zero, List.append_nil, hlp]
          exact hm
        · obtain ⟨a, c, k, m, hm, hmt⟩ := p2 p h
          refine ⟨a, pkg_find_none_append_left _ _ _ c, B1.length + k, m, ?_, hmt⟩
          rw [List.take_append, ← List.append_assoc]
          exact hm
      · rw [List.map_append, List.nodup_append]
        refine ⟨n1, n2, ?_⟩
        intro x hx1 hx2
        obtain ⟨p, hp, hpn⟩ := List.mem_map.1 hx2
        have hnone := (p2 p hp).2.1
        rw [pkg_find_eq_none_iff, List.map_append] at hnone
        exact hnone (List.mem_append_right _ (hpn ▸ hx1))
      · rw [← List.append_assoc]
        exact f2

theorem remove_prepare_checkdeps_cascade (env : PlanEnv) (handle : alpm_handle_t)
    (hcascade : handle.trans.flags.CASCADE = true) :
    ∃ B, remove_prepare_checkdeps env handle =
        some (0, set_remove handle (handle.trans.remove ++ B), []) ∧
      (∀ p ∈ B, p ∈ handle.db_local ∧ _alpm_pkg_find handle.trans.remove p.name = none ∧
        ∃ k, ∃ miss ∈ alpm_checkdeps env handle.db_local (handle.trans.remove ++ B.take k) []
          true, miss.target = p.name) ∧
      (B.map (fun p => p.name)).Nodup ∧
      alpm_checkdeps env handle.db_local (handle.trans.remove ++ B) [] true = [] := by
  obtain ⟨B, e, p, n, f⟩ := cascade_loop_spec env (handle.db_local.length + 1) handle
    (Nat.lt_succ_of_le (List.countP_le_length _))
  refine ⟨B, ?_, p, n, f⟩
  unfold remove_prepare_checkdeps
  dsimp only
  by_cases hlp : alpm_checkdeps env handle.db_local handle.trans.remove [] true = []
  · rw [hlp] at e ⊢
    unfold remove_prepare_cascade at e
    simp only [Option.some.injEq, Prod.mk.injEq, true_and] at e
    rw [← e]
    simp
  · rw [if_pos hlp, if_pos hcascade, e]
    simp

/-- C18: with CASCADE set and NODEPS and RECURSE unset, `_alpm_remove_prepare` returns 0,
and then the dependency check of the local database against the resulting
`trans->remove` reports no missing dependency; `trans->remove` holds the packages it
held initially and the added ones, each of which is an installed package of a name that
was not in the list, named as target (the blocking package) of a missing dependency
that the check reported for the initial list with the packages added before it, and no
two added packages have the same name. -/
theorem remove_prepare_cascade_fixpoint (env : PrepareEnv) (handle : alpm_handle_t)
    (hcascade : handle.trans.flags.CASCADE = true)
    (hnodeps : handle.trans.flags.NODEPS = false)
    (hrecurse : handle.trans.flags.RECURSE = false) :
    ∃ h' added, _alpm_remove_prepare env handle = some (0, h', []) ∧
      h'.db_local = handle.db_local ∧
      h'.trans.remove.Perm (handle.trans.remove ++ added) ∧
      alpm_checkdeps env.toPlanEnv h'.db_local h'.trans.remove [] true = [] ∧
      (∀ p ∈ added, p ∈ handle.db_local ∧ _alpm_pkg_find handle.trans.remove p.name = none ∧
        ∃ k, ∃ miss ∈ alpm_checkdeps env.toPlanEnv handle.db_local
          (handle.trans.remove ++ added.take k) [] true, miss.target = p.name) ∧
      (added.map (fun p => p.name)).Nodup := by
  obtain ⟨B, e, p, n, f⟩ := remove_prepare_checkdeps_cascade env.toPlanEnv handle hcascade
  refine ⟨set_remove handle
    (_alpm_sortbydeps env.toPlanEnv (handle.trans.remove ++ B) true), B, ?_, rfl, ?_, ?_, p, n⟩
  · unfold _alpm_remove_prepare
    simp only [hcascade, hnodeps, hrecurse, Bool.false_and, Bool.and_false, Bool.false_eq_true,
      if_false, set_remove_self, e, set_remove_remove, set_remove_set_remove]
    simp
  · exact sortbydeps_perm env.toPlanEnv (handle.trans.remove ++ B) true
  · rw [set_remove_db_local, set_remove_remove,
      checkdeps_perm env.toPlanEnv _ _ _ (sortbydeps_perm _ _ _)]
    exact f

theorem remove_prepare_cascade_fixpoint_witness :
    (∃ h' added, _alpm_remove_prepare example_prepare_env example_cascade_handle =
        some (0, h', []) ∧
      h'.db_local = example_cascade_handle.db_local ∧
      h'.trans.remove.Perm (example_cascade_handle.trans.remove ++ added) ∧
      alpm_checkdeps example_prepare_env.toPlanEnv h'.db_local h'.trans.remove [] true = [] ∧
      (∀ p ∈ added, p ∈ example_cascade_handle.db_local ∧
        _alpm_pkg_find example_cascade_handle.trans.remove p.name = none ∧
        ∃ k, ∃ miss ∈ alpm_checkdeps example_prepare_env.toPlanEnv
          example_cascade_handle.db_local
          (example_cascade_handle.trans.remove ++ added.take k) [] true,
          miss.target = p.name) ∧
      (added.map (fun p => p.name)).Nodup) ∧
    _alpm_remove_prepare example_prepare_env example_cascade_handle =
      some (0, set_remove example_cascade_handle [example_a, example_b], []) :=
  ⟨remove_prepare_cascade_fixpoint example_prepare_env example_cascade_handle rfl rfl rfl,
    by decide⟩

theorem keep_needed_miss_spec (handle : alpm_handle_t) (miss : alpm_depmissing_t) :
    ∃ K, keep_needed_miss handle miss = set_remove handle K ∧
      K.Sublist handle.trans.remove ∧
      (∀ p ∈ handle.trans.remove, p ∉ K → miss.causingpkg = some p.name) ∧
      (∀ c, miss.causingpkg = some c → (_alpm_pkg_find handle.trans.remove c).isSome = true →
        K.length < handle.trans.remove.length) := by
  cases hc : miss.causingpkg with
  | none =>
    exact ⟨handle.trans.remove, by simp only [keep_needed_miss, hc, set_remove_self],
      List.Sublist.refl _, fun p hp hn => absurd hp hn, fun c h => by simp at h⟩
  | some causingpkg =>
    cases hfind : _alpm_pkg_find handle.trans.remove causingpkg with
    | none =>
      refine ⟨handle.trans.remove, by simp only [keep_needed_miss, hc, hfind, set_remove_self],
        List.Sublist.refl _, fun p hp hn => absurd hp hn, ?_⟩
      intro c h1 h2
      rw [Option.some.injEq] at h1
      subst h1
      rw [hfind] at h2
      simp at h2
    | some pkg =>
      obtain ⟨hname, hmem⟩ := pkg_find_some_name hfind
      refine ⟨alpm_list_remove handle.trans.remove pkg,
        by simp only [keep_needed_miss, hc, hfind], List.eraseP_sublist _, ?_, ?_⟩
      · intro p hp hn
        by_contra hne
        have hneg : ¬ ((p.name == pkg.name) = true) := by
          intro h
          apply hne
          have h2 : p.name = pkg.name := by simpa using h
          rw [h2, hname]
        exact hn ((@List.mem_eraseP_of_neg _ (fun (q : alpm_pkg_t) => q.name == pkg.name) p
          handle.trans.remove hneg).2 hp)
      · intro _ _ _
        unfold alpm_list_remove
        rw [List.length_eraseP_of_mem hmem (by simp)]
        have hpos : 0 < handle.trans.remove.length := List.length_pos_of_mem hmem
        omega

theorem keep_needed_round_spec : ∀ (lp : List alpm_depmissing_t) (handle : alpm_handle_t),
    ∃ K, lp.foldl keep_needed_miss handle = set_remove handle K ∧
      K.Sublist handle.trans.remove ∧
      ∀ p ∈ handle.trans.remove, p ∉ K → ∃ miss ∈ lp, miss.causingpkg = some p.name := by
  intro lp
  induction lp with
  | nil =>
    intro handle
    exact ⟨handle.trans.remove, rfl, List.Sublist.refl _, fun p hp hn => absurd hp hn⟩
  | cons miss rest ih =>
    intro handle
    obtain ⟨K1, e1, s1, d1, -⟩ := keep_needed_miss_spec handle miss
    obtain ⟨K2, e2, s2, d2⟩ := ih (keep_needed_miss handle miss)
    rw [e1] at e2 s2 d2
    simp only [set_remove_remove, set_remove_set_remove] at e2 s2 d2
    refine ⟨K2, by rw [List.foldl_cons, e1, e2], s2.trans s1, ?_⟩
    intro p hp hn
    by_cases hk : p ∈ K1
    · obtain ⟨m, hm, hmc⟩ := d2 p hk hn
      exact ⟨m, List.mem_cons_of_mem _ hm, hmc⟩
    · exact ⟨miss, List.mem_cons_self _ _, d1 p hp hk⟩

theorem keep_needed_loop_spec (env : PlanEnv) : ∀ (fuel : Nat) (handle : alpm_handle_t),
    handle.trans.remove.length < fuel →
    ∃ K, remove_prepare_keep_needed env fuel handle
        (alpm_checkdeps env handle.db_local handle.trans.remove [] true) =
          some (set_remove handle K) ∧
      K.Sublist handle.trans.remove ∧
      (∀ p ∈ handle.trans.remove, p ∉ K → ∃ mid, mid.Sublist handle.trans.remove ∧
        ∃ miss ∈ alpm_checkdeps env handle.db_local mid [] true,
          miss.causingpkg = some p.name) ∧
      alpm_checkdeps env handle.db_local K [] true = [] := by
  intro fuel
  induction fuel with
  | zero => intro handle h; exact absurd h (Nat.not_lt_zero _)
  | succ fuel ih =>
    intro handle hfuel
    cases hlp : alpm_checkdeps env handle.db_local handle.trans.remove [] true with
    | nil =>
      refine ⟨handle.trans.remove, ?_, List.Sublist.refl _, fun p hp hn => absurd hp hn, hlp⟩
      unfold remove_prepare_keep_needed
      rfl
    | cons miss lp =>
      have hmiss : miss ∈ alpm_checkdeps env handle.db_local handle.trans.remove [] true := by
        rw [hlp]; exact List.mem_cons_self _ _
      obtain ⟨-, c, -, hcsome, hcause⟩ := checkdeps_miss env _ _ miss hmiss
      obtain ⟨K1, e1, s1, d1, l1⟩ := keep_needed_miss_spec handle miss
      obtain ⟨K2, e2, s2, d2⟩ := keep_needed_round_spec lp (keep_needed_miss handle miss)
      rw [e1] at e2 s2 d2
      simp only [set_remove_remove, set_remove_set_remove] at e2 s2 d2
      have hlen1 := l1 c.name hcause hcsome
      have hlen2 := s2.length_le
      obtain ⟨K3, e3, s3, d3, f3⟩ := ih (set_remove handle K2) (by
        rw [set_remove_remove]; omega)
      simp only [set_remove_remove, set_remove_db_local, set_remove_set_remove] at e3 s3 d3 f3
      refine ⟨K3, ?_, s3.trans (s2.trans s1), ?_, f3⟩
      · conv_lhs => unfold remove_prepare_keep_needed
        simp only []
        rw [List.foldl_cons, e1, e2, set_remove_remove, set_remove_db_local, e3]
      · intro p hp hn
        by_cases hk2 : p ∈ K2
        · obtain ⟨mid, hmid, m, hm, hmc⟩ := d3 p hk2 hn
          exact ⟨mid, hmid.trans (s2.trans s1), m, hm, hmc⟩
        · refine ⟨handle.trans.remove, List.Sublist.refl _, ?_⟩
          by_cases hk1 : p ∈ K1
          · obtain ⟨m, hm, hmc⟩ := d2 p hk1 hk2
            exact ⟨m, by rw [hlp]; exact List.mem_cons_of_mem _ hm, hmc⟩
          · exact ⟨miss, hmiss, d1 p hp hk1⟩

theorem remove_prepare_checkdeps_keep_needed (env : PlanEnv) (handle : alpm_handle_t)
    (hcascade : handle.trans.flags.CASCADE = false)
    (hunneeded : handle.trans.flags.UNNEEDED = true) :
    ∃ K, remove_prepare_checkdeps env handle = some (0, set_remove handle K, []) ∧
      K.Sublist handle.trans.remove ∧
      (∀ p ∈ handle.trans.remove, p ∉ K → ∃ mid, mid.Sublist handle.trans.remove ∧
        ∃ miss ∈ alpm_checkdeps env handle.db_local mid [] true,
          miss.causingpkg = some p.name) ∧
      alpm_checkdeps env handle.db_local K [] true = [] := by
  obtain ⟨K, e, s, d, f⟩ := keep_needed_loop_spec env (handle.trans.remove.length + 1) handle
    (Nat.lt_succ_self _)
  refine ⟨K, ?_, s, d, f⟩
  unfold remove_prepare_checkdeps
  dsimp only
  by_cases hlp : alpm_checkdeps env handle.db_local handle.trans.remove [] true = []
  · rw [hlp] at e ⊢
    unfold remove_prepare_keep_needed at e
    simp only [Option.some.injEq] at e
    rw [← e]
    simp
  · rw [if_pos hlp, if_neg (by simp [hcascade]), if_pos hunneeded, e]

/-- C19: with UNNEEDED set and CASCADE, NODEPS and RECURSE unset, `_alpm_remove_prepare`
returns 0; `trans->remove` then holds packages that it held initially (a rearrangement
of a sublist of the initial list); every package of the initial list that is no longer
in it was named as causing package of a missing dependency that the dependency check
reported for the local database against a sublist of the initial list; and the
dependency check against the final `trans->remove` reports no missing dependency. -/
theorem remove_prepare_unneeded (env : PrepareEnv) (handle : alpm_handle_t)
    (hunneeded : handle.trans.flags.UNNEEDED = true)
    (hcascade : handle.trans.flags.CASCADE = false)
    (hnodeps : handle.trans.flags.NODEPS = false)
    (hrecurse : handle.trans.flags.RECURSE = false) :
    ∃ h' kept, _alpm_remove_prepare env handle = some (0, h', []) ∧
      h'.db_local = handle.db_local ∧
      kept.Sublist handle.trans.remove ∧ h'.trans.remove.Perm kept ∧
      (∀ p ∈ handle.trans.remove, p ∉ h'.trans.remove →
        ∃ mid, mid.Sublist handle.trans.remove ∧
          ∃ miss ∈ alpm_checkdeps env.toPlanEnv handle.db_local mid [] true,
            miss.causingpkg = some p.name) ∧
      alpm_checkdeps env.toPlanEnv h'.db_local h'.trans.remove [] true = [] := by
  obtain ⟨K, e, s, d, f⟩ :=
    remove_prepare_checkdeps_keep_needed env.toPlanEnv handle hcascade hunneeded
  have hperm := sortbydeps_perm env.toPlanEnv K true
  refine ⟨set_remove handle (_alpm_sortbydeps env.toPlanEnv K true), K, ?_, rfl, s, hperm,
    ?_, ?_⟩
  · unfold _alpm_remove_prepare
    simp only [hcascade, hnodeps, hrecurse, Bool.false_and, Bool.and_false, Bool.false_eq_true,
      if_false, set_remove_self, e, set_remove_remove, set_remove_set_remove]
    simp
  · intro p hp hn
    exact d p hp (fun hk => hn (hperm.mem_iff.2 hk))
  · rw [set_remove_db_local, set_remove_remove, checkdeps_perm env.toPlanEnv _ _ _ hperm]
    exact f

theorem remove_prepare_unneeded_witness :
    (∃ h' kept, _alpm_remove_prepare example_prepare_env example_unneeded_b_handle =
        some (0, h', []) ∧
      h'.db_local = example_unneeded_b_handle.db_local ∧
      kept.Sublist example_unneeded_b_handle.trans.remove ∧ h'.trans.remove.Perm kept ∧
      (∀ p ∈ example_unneeded_b_handle.trans.remove, p ∉ h'.trans.remove →
        ∃ mid, mid.Sublist example_unneeded_b_handle.trans.remove ∧
          ∃ miss ∈ alpm_checkdeps example_prepare_env.toPlanEnv
            example_unneeded_b_handle.db_local mid [] true,
            miss.causingpkg = some p.name) ∧
      alpm_checkdeps example_prepare_env.toPlanEnv h'.db_local h'.trans.remove [] true = []) ∧
    _alpm_remove_prepare example_prepare_env example_unneeded_b_handle =
      some (0, set_remove example_unneeded_b_handle [], []) :=
  ⟨remove_prepare_unneeded example_prepare_env example_unneeded_b_handle rfl rfl rfl rfl,
    by decide⟩

/-- C20 as stated fails: with Local = {`a` depends on `b`, `b`} and the targets `a` and
`b` under UNNEEDED, the prepared remove list is not [`a`]: it holds `a` and `b`. -/
theorem keep_needed_scenario_keeps_b :
    (_alpm_remove_prepare example_prepare_env example_unneeded_handle).map
        (fun r => r.2.1.trans.remove) ≠ some [example_a] ∧
      example_b ∈ ((_alpm_remove_prepare example_prepare_env example_unneeded_handle).map
        (fun r => r.2.1.trans.remove)).getD [] := by
  decide

/-- C20, as the code has it: with Local = {`a` depends on `b`, `b`} and the targets `a`
and `b` under UNNEEDED, the dependency check reports nothing (`b` is needed by `a` alone,
which is removed as well), prepare returns 0 and the prepared remove list is [`a`, `b`];
with the target `b` alone, `b` is needed by the installed `a` and is dropped: the
prepared list is empty. -/
theorem keep_needed_scenario :
    alpm_checkdeps example_prepare_env.toPlanEnv example_unneeded_handle.db_local
        example_unneeded_handle.trans.remove [] true = [] ∧
      _alpm_remove_prepare example_prepare_env example_unneeded_handle =
        some (0, set_remove example_unneeded_handle [example_a, example_b], []) ∧
      _alpm_remove_prepare example_prepare_env example_unneeded_b_handle =
        some (0, set_remove example_unneeded_b_handle [], []) := by
  decide

theorem remove_prepare_sorted (env : PrepareEnv) (handle h' : alpm_handle_t)
    (data : List alpm_depmissing_t)
    (hflags : (handle.trans.flags.CASCADE && handle.trans.flags.RECURSE) = false)
    (hret : _alpm_remove_prepare env handle = some (0, h', data)) :
    ∃ X, h'.trans.remove = _alpm_sortbydeps env.toPlanEnv X true := by
  unfold _alpm_remove_prepare at hret
  dsimp only at hret
  generalize (if (handle.trans.flags.RECURSE && !handle.trans.flags.CASCADE) = true then
      env.recursedeps handle.db_local handle.trans.remove handle.trans.flags.RECURSEALL
    else (0, handle.trans.remove)) = r1 at hret
  generalize (if handle.trans.flags.NODEPS = true then some (0, set_remove handle r1.2, [])
    else remove_prepare_checkdeps env.toPlanEnv (set_remove handle r1.2)) = cd at hret
  by_cases h1 : r1.1 ≠ 0
  · rw [if_pos h1] at hret
    simp at hret
  · rw [if_neg h1] at hret
    cases cd with
    | none => simp at hret
    | some x =>
      obtain ⟨ret, handle2, d⟩ := x
      dsimp only at hret
      by_cases hr : ret ≠ 0
      · rw [if_pos hr] at hret
        simp only [Option.some.injEq, Prod.mk.injEq] at hret
        exact absurd hret.1 hr
      · rw [if_neg hr] at hret
        simp only [hflags, Bool.false_eq_true, if_false, ne_eq, not_true_eq_false,
          Option.some.injEq, Prod.mk.injEq, true_and] at hret
        exact ⟨handle2.trans.remove, by rw [← hret.1]; rfl⟩

/-- C17, as the code has it: after a successful `_alpm_remove_prepare` without the
combination CASCADE and RECURSE, when the dependency relation among the packages of
`trans->remove` has no cycle (a rank decreases along every dependency), for all
packages P and Q of `trans->remove` such that P depends on Q, P stands before Q in
`trans->remove`. -/
theorem remove_prepare_dependents_first (env : PrepareEnv) (handle h' : alpm_handle_t)
    (data : List alpm_depmissing_t) (rank : alpm_pkg_t → Nat)
    (hflags : (handle.trans.flags.CASCADE && handle.trans.flags.RECURSE) = false)
    (hret : _alpm_remove_prepare env handle = some (0, h', data))
    (hacyclic : ∀ p ∈ h'.trans.remove, ∀ q ∈ h'.trans.remove,
      _alpm_dep_edge env.toPlanEnv p q = true → rank q < rank p) :
    ∀ (i j : Nat) (hi : i < h'.trans.remove.length) (hj : j < h'.trans.remove.length),
      _alpm_dep_edge env.toPlanEnv h'.trans.remove[i] h'.trans.remove[j] = true → i < j := by
  obtain ⟨X, hX⟩ := remove_prepare_sorted env handle h' data hflags hret
  have hperm := sortbydeps_perm env.toPlanEnv X true
  have hord := sortbydeps_ordered env.toPlanEnv X rank (by
    intro p hp q hq he
    rw [← hX] at hperm
    exact hacyclic p (hperm.mem_iff.2 hp) q (hperm.mem_iff.2 hq) he)
  rw [← hX, List.pairwise_iff_getElem] at hord
  intro i j hi hj hedge
  by_contra hlt
  rcases Nat.lt_or_eq_of_le (Nat.le_of_not_lt hlt) with h | h
  · have := hord j i hj hi h
    rw [hedge] at this
    exact absurd this (by simp)
  · subst h
    exact lt_irrefl _ (hacyclic _ (List.getElem_mem _) _ (List.getElem_mem _) hedge)

theorem remove_prepare_dependents_first_witness :
    _alpm_remove_prepare example_prepare_env example_cascade_handle =
        some (0, set_remove example_cascade_handle [example_a, example_b], []) ∧
      _alpm_dep_edge example_plan_env example_a example_b = true ∧ (0 : Nat) < 1 :=
  ⟨by decide, by decide,
    remove_prepare_dependents_first example_prepare_env example_cascade_handle
      (set_remove example_cascade_handle [example_a, example_b]) []
      (fun p => if p.name = "a" then 1 else 0) (by decide) (by decide) (by decide)
      0 1 (by decide) (by decide) (by decide)⟩

/-- C17 as stated fails for installed sets with cyclic dependencies: with
Local = {`x` depends on `y`, `y` depends on `x`} and the targets `x` and `y`,
`_alpm_remove_prepare` returns 0 with `trans->remove` = [`x`, `y`], where `y` depends on
`x` and stands after it. -/
theorem remove_prepare_cycle_order :
    _alpm_remove_prepare example_prepare_env example_cycle_handle =
        some (0, set_remove example_cycle_handle [example_x, example_y], []) ∧
      _alpm_dep_edge example_prepare_env.toPlanEnv example_y example_x = true := by
  decide

/-! ## Preparing a sync transaction -/

theorem sync_resolve_frame (env : SyncEnv) (handle : alpm_handle_t) :
    (sync_resolve env handle).2.trans.remove = handle.trans.remove ∧
      (sync_resolve env handle).2.db_local = handle.db_local ∧
      (sync_resolve env handle).2.trans.flags = handle.trans.flags := by
  unfold sync_resolve
  dsimp only
  split_ifs <;> exact ⟨rfl, rfl, rfl⟩

theorem inner_conflicts_frame (env : SyncEnv) :
    ∀ (deps : List alpm_conflict_t) (handle : alpm_handle_t),
      (inner_conflicts env deps handle).2.trans.remove = handle.trans.remove ∧
        (inner_conflicts env deps handle).2.db_local = handle.db_local ∧
        (inner_conflicts env deps handle).2.trans.flags = handle.trans.flags := by
  intro deps
  induction deps with
  | nil => intro handle; exact ⟨rfl, rfl, rfl⟩
  | cons conflict rest ih =>
    intro handle
    unfold inner_conflicts
    split
    · dsimp only
      split_ifs
      · exact ih _
      · exact ih _
      · exact ⟨rfl, rfl, rfl⟩
    · exact ih _

theorem elect_for_removal_frame (handle : alpm_handle_t) (conflict : alpm_conflict_t) :
    (elect_for_removal handle conflict).trans.remove = handle.trans.remove ∧
      (elect_for_removal handle conflict).db_local = handle.db_local ∧
      (elect_for_removal handle conflict).trans.flags = handle.trans.flags := by
  unfold elect_for_removal
  split <;> exact ⟨rfl, rfl, rfl⟩

theorem outer_conflicts_frame (env : SyncEnv) :
    ∀ (deps : List alpm_conflict_t) (handle : alpm_handle_t),
      (outer_conflicts env deps handle).2.trans.remove = handle.trans.remove ∧
        (outer_conflicts env deps handle).2.db_local = handle.db_local ∧
        (outer_conflicts env deps handle).2.trans.flags = handle.trans.flags := by
  intro deps
  induction deps with
  | nil => intro handle; exact ⟨rfl, rfl, rfl⟩
  | cons conflict rest ih =>
    intro handle
    unfold outer_conflicts
    dsimp only
    split_ifs
    · exact ih _
    · obtain ⟨a, b, c⟩ := ih (elect_for_removal handle conflict)
      obtain ⟨a', b', c'⟩ := elect_for_removal_frame handle conflict
      exact ⟨a.trans a', b.trans b', c.trans c'⟩
    · exact ⟨rfl, rfl, rfl⟩

theorem sync_conflicts_frame (env : SyncEnv) (handle : alpm_handle_t) :
    (sync_conflicts env handle).2.trans.remove = handle.trans.remove ∧
      (sync_conflicts env handle).2.db_local = handle.db_local ∧
      (sync_conflicts env handle).2.trans.flags = handle.trans.flags := by
  unfold sync_conflicts
  dsimp only
  split_ifs
  · exact inner_conflicts_frame env _ handle
  · obtain ⟨a, b, c⟩ := outer_conflicts_frame env
      (env.outerconflicts (inner_conflicts env (env.innerconflicts handle.trans.add) handle).2.db_local
        (inner_conflicts env (env.innerconflicts handle.trans.add) handle).2.trans.add)
      (inner_conflicts env (env.innerconflicts handle.trans.add) handle).2
    obtain ⟨a', b', c'⟩ := inner_conflicts_frame env (env.innerconflicts handle.trans.add) handle
    exact ⟨a.trans a', b.trans b', c.trans c'⟩

theorem build_remove_pkg_spec (handle : alpm_handle_t) (x : String) :
    (build_remove_pkg handle x).trans.add = handle.trans.add ∧
      (build_remove_pkg handle x).db_local = handle.db_local ∧
      (build_remove_pkg handle x).trans.flags = handle.trans.flags ∧
      ∀ n, n ∈ (build_remove_pkg handle x).trans.remove.map (fun p => p.name) ↔
        n ∈ handle.trans.remove.map (fun p => p.name) ∨
          (n = x ∧ n ∈ handle.db_local.map (fun p => p.name)) := by
  unfold build_remove_pkg
  cases hlook : _alpm_db_get_pkgfromcache handle.db_local x with
  | none =>
    refine ⟨rfl, rfl, rfl, ?_⟩
    intro n
    rw [pkgfromcache_eq_none_iff] at hlook
    constructor
    · exact Or.inl
    · rintro (h | ⟨h1, h2⟩)
      · exact h
      · exact absurd (h1 ▸ h2) hlook
  | some rpkg =>
    obtain ⟨hname, hmem⟩ := pkgfromcache_some_name hlook
    have hx : x ∈ handle.db_local.map (fun p => p.name) := List.mem_map.2 ⟨rpkg, hmem, hname⟩
    dsimp only
    split_ifs with hf
    · refine ⟨rfl, rfl, rfl, ?_⟩
      intro n
      rw [set_remove_remove, List.map_append, List.mem_append, List.map_singleton,
        List.mem_singleton, hname]
      constructor
      · rintro (h | h)
        · exact Or.inl h
        · exact Or.inr ⟨h, h ▸ hx⟩
      · rintro (h | ⟨h, -⟩)
        · exact Or.inl h
        · exact Or.inr h
    · refine ⟨rfl, rfl, rfl, ?_⟩
      intro n
      constructor
      · exact Or.inl
      · rintro (h | ⟨h, -⟩)
        · exact h
        · have hsome : (_alpm_pkg_find handle.trans.remove rpkg.name).isSome = true := by
            cases hfind : _alpm_pkg_find handle.trans.remove rpkg.name with
            | none => rw [hfind] at hf; exact absurd rfl hf
            | some _ => rfl
          rw [pkg_find_isSome_iff] at hsome
          obtain ⟨p, hp, hpn⟩ := hsome
          rw [h, ← hname, ← hpn]
          exact List.mem_map.2 ⟨p, hp, rfl⟩

theorem build_remove_pkgs_spec : ∀ (xs : List String) (handle : alpm_handle_t),
    (xs.foldl build_remove_pkg handle).trans.add = handle.trans.add ∧
      (xs.foldl build_remove_pkg handle).db_local = handle.db_local ∧
      (xs.foldl build_remove_pkg handle).trans.flags = handle.trans.flags ∧
      ∀ n, n ∈ (xs.foldl build_remove_pkg handle).trans.remove.map (fun p => p.name) ↔
        n ∈ handle.trans.remove.map (fun p => p.name) ∨
          (n ∈ xs ∧ n ∈ handle.db_local.map (fun p => p.name)) := by
  intro xs
  induction xs with
  | nil => intro handle; exact ⟨rfl, rfl, rfl, fun n => by simp⟩
  | cons x rest ih =>
    intro handle
    rw [List.foldl_cons]
    obtain ⟨a1, b1, c1, d1⟩ := build_remove_pkg_spec handle x
    obtain ⟨a2, b2, c2, d2⟩ := ih (build_remove_pkg handle x)
    refine ⟨a2.trans a1, b2.trans b1, c2.trans c1, ?_⟩
    intro n
    rw [d2 n, d1 n, b1, List.mem_cons]
    tauto

theorem build_remove_fold_spec : ∀ (pkgs : List alpm_pkg_t) (handle : alpm_handle_t),
    (pkgs.foldl (fun h spkg => spkg.removes.foldl build_remove_pkg h) handle).trans.add =
        handle.trans.add ∧
      (pkgs.foldl (fun h spkg => spkg.removes.foldl build_remove_pkg h) handle).db_local =
        handle.db_local ∧
      (pkgs.foldl (fun h spkg => spkg.removes.foldl build_remove_pkg h) handle).trans.flags =
        handle.trans.flags ∧
      ∀ n, n ∈ (pkgs.foldl (fun h spkg => spkg.removes.foldl build_remove_pkg h)
          handle).trans.remove.map (fun p => p.name) ↔
        n ∈ handle.trans.remove.map (fun p => p.name) ∨
          ((∃ p ∈ pkgs, n ∈ p.removes) ∧ n ∈ handle.db_local.map (fun p => p.name)) := by
  intro pkgs
  induction pkgs with
  | nil => intro handle; exact ⟨rfl, rfl, rfl, fun n => by simp⟩
  | cons spkg rest ih =>
    intro handle
    rw [List.foldl_cons]
    obtain ⟨a1, b1, c1, d1⟩ := build_remove_pkgs_spec spkg.removes handle
    obtain ⟨a2, b2, c2, d2⟩ := ih (spkg.removes.foldl build_remove_pkg handle)
    refine ⟨a2.trans a1, b2.trans b1, c2.trans c1, ?_⟩
    intro n
    rw [d2 n, d1 n, b1]
    simp only [List.mem_cons, exists_eq_or_imp]
    tauto

theorem build_remove_spec (handle : alpm_handle_t) :
    (build_remove handle).trans.add = handle.trans.add ∧
      (build_remove handle).db_local = handle.db_local ∧
      (build_remove handle).trans.flags = handle.trans.flags ∧
      ∀ n, n ∈ (build_remove handle).trans.remove.map (fun p => p.name) ↔
        n ∈ handle.trans.remove.map (fun p => p.name) ∨
          ((∃ p ∈ handle.trans.add, n ∈ p.removes) ∧
            n ∈ handle.db_local.map (fun p => p.name)) :=
  build_remove_fold_spec handle.trans.add handle

theorem compute_download_size_spec (env : SyncEnv) (handle : alpm_handle_t)
    (newpkg : alpm_pkg_t) :
    (compute_download_size env handle newpkg).2.2.name = newpkg.name ∧
      (compute_download_size env handle newpkg).2.2.removes = newpkg.removes ∧
      (compute_download_size env handle newpkg).2.1.trans = handle.trans ∧
      (compute_download_size env handle newpkg).2.1.db_local = handle.db_local := by
  unfold compute_download_size
  by_cases ho : newpkg.origin ≠ alpm_pkgfrom_t.ALPM_PKG_FROM_SYNCDB
  · rw [if_pos ho]
    exact ⟨rfl, rfl, rfl, rfl⟩
  · rw [if_neg ho]
    cases newpkg.filename with
    | none => exact ⟨rfl, rfl, rfl, rfl⟩
    | some fname =>
      dsimp only
      cases env.filecache_find fname with
      | some _ => exact ⟨rfl, rfl, rfl, rfl⟩
      | none =>
        dsimp only
        cases env.filecache_find (fname ++ ".part") with
        | some _ => exact ⟨rfl, rfl, rfl, rfl⟩
        | none =>
          dsimp only
          by_cases hd : env.use_deltas = true
          · rw [if_pos hd]
            by_cases hp : (env.shortest_delta_path newpkg).2 = true
            · rw [if_pos hp]
              exact ⟨rfl, rfl, rfl, rfl⟩
            · rw [if_neg hp]
              exact ⟨rfl, rfl, rfl, rfl⟩
          · rw [if_neg hd]
            exact ⟨rfl, rfl, rfl, rfl⟩

theorem compute_download_sizes_spec (env : SyncEnv) :
    ∀ (pkgs : List alpm_pkg_t) (handle : alpm_handle_t),
      (compute_download_sizes env pkgs handle).2.2.map (fun p => (p.name, p.removes)) =
          pkgs.map (fun p => (p.name, p.removes)) ∧
        (compute_download_sizes env pkgs handle).2.1.trans = handle.trans ∧
        (compute_download_sizes env pkgs handle).2.1.db_local = handle.db_local := by
  intro pkgs
  induction pkgs with
  | nil => intro handle; exact ⟨rfl, rfl, rfl⟩
  | cons spkg rest ih =>
    intro handle
    obtain ⟨a1, b1, c1, d1⟩ := compute_download_size_spec env handle spkg
    unfold compute_download_sizes
    dsimp only
    split_ifs
    · refine ⟨?_, c1, d1⟩
      rw [List.map_cons, List.map_cons, a1, b1]
    · obtain ⟨a2, c2, d2⟩ := ih (compute_download_size env handle spkg).2.1
      refine ⟨?_, c2.trans c1, d2.trans d1⟩
      rw [List.map_cons, List.map_cons, a1, b1, a2]

theorem exists_removes_congr {l1 l2 : List alpm_pkg_t}
    (h : l1.map (fun p => (p.name, p.removes)) = l2.map (fun p => (p.name, p.removes)))
    (n : String) : (∃ p ∈ l1, n ∈ p.removes) ↔ ∃ p ∈ l2, n ∈ p.removes := by
  have key : ∀ (l : List alpm_pkg_t), (∃ p ∈ l, n ∈ p.removes) ↔
      ∃ x ∈ l.map (fun p => (p.name, p.removes)), n ∈ x.2 := by
    intro l
    simp
  rw [key l1, key l2, h]

theorem sync_prepare_remove_names (env : SyncEnv) (handle h' : alpm_handle_t)
    (hret : _alpm_sync_prepare env handle = (0, h')) :
    ∀ n, n ∈ h'.trans.remove.map (fun p => p.name) ↔
      n ∈ handle.trans.remove.map (fun p => p.name) ∨
        ((∃ p ∈ h'.trans.add, n ∈ p.removes) ∧ n ∈ handle.db_local.map (fun p => p.name)) := by
  unfold _alpm_sync_prepare at hret
  dsimp only at hret
  split at hret
  · simp at hret
  · generalize hr1 : (if (!handle.trans.flags.NODEPS) = true then sync_resolve env handle
      else (0, handle)) = r1 at hret
    have f1 : r1.2.trans.remove = handle.trans.remove ∧ r1.2.db_local = handle.db_local := by
      rw [← hr1]
      split_ifs
      · exact ⟨(sync_resolve_frame env handle).1, (sync_resolve_frame env handle).2.1⟩
      · exact ⟨rfl, rfl⟩
    by_cases h1 : r1.1 ≠ 0
    · rw [if_pos h1] at hret
      rw [hret] at h1
      exact absurd rfl h1
    · rw [if_neg h1] at hret
      generalize hr2 : (if (!r1.2.trans.flags.NOCONFLICTS) = true then sync_conflicts env r1.2
        else (0, r1.2)) = r2 at hret
      have f2 : r2.2.trans.remove = r1.2.trans.remove ∧ r2.2.db_local = r1.2.db_local := by
        rw [← hr2]
        split_ifs
        · exact ⟨(sync_conflicts_frame env r1.2).1, (sync_conflicts_frame env r1.2).2.1⟩
        · exact ⟨rfl, rfl⟩
      by_cases h2 : r2.1 ≠ 0
      · rw [if_pos h2] at hret
        rw [hret] at h2
        exact absurd rfl h2
      · rw [if_neg h2] at hret
        obtain ⟨a3, b3, -, d3⟩ := build_remove_spec r2.2
        generalize (if (!(build_remove r2.2).trans.flags.NODEPS) = true then
            alpm_checkdeps env.toPlanEnv (build_remove r2.2).db_local
              (build_remove r2.2).trans.remove (build_remove r2.2).trans.add true
          else []) = deps at hret
        by_cases hd : deps ≠ []
        · rw [if_pos hd] at hret
          simp at hret
        · rw [if_neg hd] at hret
          obtain ⟨a4, c4, -⟩ := compute_download_sizes_spec env (build_remove r2.2).trans.add
            (build_remove r2.2)
          rw [Prod.mk.injEq] at hret
          obtain ⟨-, hh⟩ := hret
          subst hh
          intro n
          have hadd : (set_add (compute_download_sizes env (build_remove r2.2).trans.add
              (build_remove r2.2)).2.1 (compute_download_sizes env (build_remove r2.2).trans.add
              (build_remove r2.2)).2.2).trans.add = (compute_download_sizes env
              (build_remove r2.2).trans.add (build_remove r2.2)).2.2 := rfl
          have hrem : (set_add (compute_download_sizes env (build_remove r2.2).trans.add
              (build_remove r2.2)).2.1 (compute_download_sizes env (build_remove r2.2).trans.add
              (build_remove r2.2)).2.2).trans.remove = (compute_download_sizes env
              (build_remove r2.2).trans.add (build_remove r2.2)).2.1.trans.remove := rfl
          rw [hadd, hrem, c4, exists_removes_congr a4 n, d3 n, a3, f2.1, f1.1, f2.2, f1.2]

/-- C16, as the code has it: after a successful `_alpm_sync_prepare` (under any flags,
after `alpm_sync_sysupgrade` or not), no package name occurs both in `trans->add` and in
`trans->remove` if and only if no target has the name of a package that was in
`trans->remove` before, or the name of an installed package that is in the removes list
of a target. -/
theorem sync_prepare_add_remove_disjoint (env : SyncEnv) (handle h' : alpm_handle_t)
    (hret : _alpm_sync_prepare env handle = (0, h')) :
    (∀ p ∈ h'.trans.add, ∀ r ∈ h'.trans.remove, p.name ≠ r.name) ↔
      ∀ p ∈ h'.trans.add, p.name ∉ handle.trans.remove.map (fun r => r.name) ∧
        (p.name ∈ handle.db_local.map (fun l => l.name) →
          ∀ q ∈ h'.trans.add, p.name ∉ q.removes) := by
  have key := sync_prepare_remove_names env handle h' hret
  constructor
  · intro h p hp
    have hnot : p.name ∉ h'.trans.remove.map (fun r => r.name) := by
      intro hmem
      obtain ⟨r, hr, hrn⟩ := List.mem_map.1 hmem
      exact h p hp r hr hrn.symm
    rw [key] at hnot
    refine ⟨fun hmem => hnot (Or.inl hmem), ?_⟩
    intro hl q hq hmem
    exact hnot (Or.inr ⟨⟨q, hq, hmem⟩, hl⟩)
  · intro h p hp r hr hne
    have hmem : p.name ∈ h'.trans.remove.map (fun r => r.name) :=
      List.mem_map.2 ⟨r, hr, hne.symm⟩
    rw [key] at hmem
    rcases hmem with hm | ⟨⟨q, hq, hqm⟩, hl⟩
    · exact (h p hp).1 hm
    · exact (h p hp).2 hl q hq hqm

theorem sync_prepare_add_remove_disjoint_witness :
    _alpm_sync_prepare example_sync_env
        (alpm_sync_sysupgrade example_plan_env example_replace_file_handle false 0).2.1 =
      (0, (_alpm_sync_prepare example_sync_env
        (alpm_sync_sysupgrade example_plan_env example_replace_file_handle false 0).2.1).2) ∧
    (_alpm_sync_prepare example_sync_env
        (alpm_sync_sysupgrade example_plan_env example_replace_file_handle false
          0).2.1).2.trans.remove = [example_oldpkg] ∧
    (_alpm_sync_prepare example_sync_env
        (alpm_sync_sysupgrade example_plan_env example_replace_file_handle false
          0).2.1).2.trans.add.map (fun p => (p.name, p.removes)) = [("newpkg", ["oldpkg"])] ∧
    ∀ p ∈ (_alpm_sync_prepare example_sync_env
        (alpm_sync_sysupgrade example_plan_env example_replace_file_handle false
          0).2.1).2.trans.add,
      ∀ r ∈ (_alpm_sync_prepare example_sync_env
        (alpm_sync_sysupgrade example_plan_env example_replace_file_handle false
          0).2.1).2.trans.remove, p.name ≠ r.name :=
  ⟨by decide, by decide, by decide,
    (sync_prepare_add_remove_disjoint example_sync_env
      (alpm_sync_sysupgrade example_plan_env example_replace_file_handle false 0).2.1
      (_alpm_sync_prepare example_sync_env
        (alpm_sync_sysupgrade example_plan_env example_replace_file_handle false 0).2.1).2
      (by decide)).2 (by decide)⟩

/-- C16 as stated fails: Local = {`foo-1.0`}, the first repository has `newfoo`, which
replaces `foo`, and no `foo`, the second repository has `foo-2.0`.  `alpm_sync_sysupgrade`
schedules both `newfoo` (with `foo` in its removes list) and `foo-2.0`, and
`_alpm_sync_prepare` (with NODEPS and NOCONFLICTS) succeeds with the name `foo` both in
`trans->add` and in `trans->remove`. -/
theorem sysupgrade_prepare_name_in_both :
    (alpm_sync_sysupgrade example_sync_env.toPlanEnv example_both_handle false 0).1 = 0 ∧
    (_alpm_sync_prepare example_sync_env
      (alpm_sync_sysupgrade example_sync_env.toPlanEnv example_both_handle false 0).2.1).1
        = 0 ∧
    (_alpm_sync_prepare example_sync_env
      (alpm_sync_sysupgrade example_sync_env.toPlanEnv example_both_handle false
        0).2.1).2.trans.add.map (fun p => p.name) = ["newfoo", "foo"] ∧
    (_alpm_sync_prepare example_sync_env
      (alpm_sync_sysupgrade example_sync_env.toPlanEnv example_both_handle false
        0).2.1).2.trans.remove = [example_foo1] := by
  decide

/-! ## Adding a removal target -/

/-- C24: `alpm_remove_pkg` on a transaction in state INITIALIZED returns -1 with
TRANS_DUP_TARGET and leaves `trans->remove` (and all but `pm_errno`) unchanged when
`trans->remove` holds a package of the given package's name; otherwise it returns 0 and
`trans->remove` is the old list with the package appended at the end.  When the state is
not INITIALIZED it returns -1 with TRANS_NOT_INITIALIZED and changes nothing but
`pm_errno`.  Hence a remove list without name-duplicates stays without
name-duplicates. -/
theorem remove_pkg_target (handle : alpm_handle_t) (pkg : alpm_pkg_t) :
    (handle.trans.state = alpm_transstate_t.STATE_INITIALIZED →
      (∃ p ∈ handle.trans.remove, p.name = pkg.name) →
      alpm_remove_pkg handle pkg =
        (-1, { handle with pm_errno := alpm_errno_t.ALPM_ERR_TRANS_DUP_TARGET })) ∧
    (handle.trans.state = alpm_transstate_t.STATE_INITIALIZED →
      (∀ p ∈ handle.trans.remove, p.name ≠ pkg.name) →
      alpm_remove_pkg handle pkg = (0, set_remove handle (handle.trans.remove ++ [pkg]))) ∧
    (handle.trans.state ≠ alpm_transstate_t.STATE_INITIALIZED →
      alpm_remove_pkg handle pkg =
        (-1, { handle with pm_errno := alpm_errno_t.ALPM_ERR_TRANS_NOT_INITIALIZED })) ∧
    ((handle.trans.remove.map (fun p => p.name)).Nodup →
      ((alpm_remove_pkg handle pkg).2.trans.remove.map (fun p => p.name)).Nodup) := by
  refine ⟨?_, ?_, ?_, ?_⟩
  · intro hst hdup
    unfold alpm_remove_pkg
    simp only [hst, ne_eq, not_true_eq_false, if_false]
    rw [if_pos ((pkg_find_isSome_iff _ _).2 hdup)]
  · intro hst hnew
    unfold alpm_remove_pkg
    simp only [hst, ne_eq, not_true_eq_false, if_false]
    rw [if_neg]
    intro h
    obtain ⟨p, hp, hn⟩ := (pkg_find_isSome_iff _ _).1 h
    exact hnew p hp hn
  · intro hst
    unfold alpm_remove_pkg
    simp only [hst, ne_eq, not_false_eq_true, if_true]
  · intro hnd
    unfold alpm_remove_pkg
    dsimp only
    split_ifs with h1 h2
    · exact hnd
    · exact hnd
    · rw [set_remove_remove, List.map_append, List.map_singleton]
      have hnot : pkg.name ∉ handle.trans.remove.map (fun p => p.name) := by
        intro hmem
        obtain ⟨p, hp, hn⟩ := List.mem_map.1 hmem
        exact h2 ((pkg_find_isSome_iff _ _).2 ⟨p, hp, hn⟩)
      exact List.Nodup.append hnd (List.nodup_singleton _)
        (by simpa [List.Disjoint] using hnot)

theorem remove_pkg_target_witness :
    alpm_remove_pkg example_cascade_handle example_a =
        (0, set_remove example_cascade_handle [example_b, example_a]) ∧
      alpm_remove_pkg example_cascade_handle example_b =
        (-1, { example_cascade_handle with
                pm_errno := alpm_errno_t.ALPM_ERR_TRANS_DUP_TARGET }) ∧
      ((alpm_remove_pkg example_cascade_handle example_a).2.trans.remove.map
        (fun p => p.name)).Nodup :=
  ⟨(remove_pkg_target example_cascade_handle example_a).2.1 rfl (by decide),
    (remove_pkg_target example_cascade_handle example_b).1 rfl (by decide),
    (remove_pkg_target example_cascade_handle example_a).2.2.2 (by decide)⟩

/-! ## File lists compared with themselves -/

/-- C26: for every file list A sorted strictly ascending by byte-wise path comparison
(sorted and deduplicated), with non-empty paths, `_alpm_filelist_difference A A` is the
empty list. -/
theorem filelist_difference_self (A : alpm_filelist_t) (hA : strictly_sorted A)
    (_hne : ∀ a ∈ A, a.name ≠ "") :
    _alpm_filelist_difference A A = [] := by
  unfold _alpm_filelist_difference
  have h := difference_loop_spec A A hA hA (A.length + A.length) 0 0 [] (by omega)
  simp only [List.drop_zero, List.nil_append] at h
  dsimp only
  rw [h, List.filter_eq_nil_iff]
  intro a ha
  have hany : A.any (fun b => b.name == a.name) = true :=
    List.any_eq_true.2 ⟨a, ha, by simp⟩
  simp [hany]

theorem filelist_difference_self_witness :
    strictly_sorted example_filesA ∧ _alpm_filelist_difference example_filesA example_filesA = [] :=
  ⟨by decide, filelist_difference_self example_filesA (by decide) (by decide)⟩

/-- C27: for every file list A sorted strictly ascending by byte-wise path comparison
(sorted and deduplicated), with non-empty paths, `_alpm_filelist_intersection A A` is A
with the entries whose path ends in `/` removed, in the same order. -/
theorem filelist_intersection_self (A : alpm_filelist_t) (hA : strictly_sorted A)
    (_hne : ∀ a ∈ A, a.name ≠ "") :
    _alpm_filelist_intersection A A = A.filter (fun a => !last_is_slash a.name) := by
  unfold _alpm_filelist_intersection
  have h := intersection_loop_spec A A hA hA (A.length + A.length) 0 0 [] (by omega)
  simp only [List.drop_zero, List.nil_append] at h
  rw [h]
  apply List.filter_congr
  intro a ha
  have hany : A.any (fun b => b.name == a.name) = true :=
    List.any_eq_true.2 ⟨a, ha, by simp⟩
  simp [hany]

theorem filelist_intersection_self_witness :
    strictly_sorted example_filesA ∧
      _alpm_filelist_intersection example_filesA example_filesA =
        example_filesA.filter (fun a => !last_is_slash a.name) :=
  ⟨by decide, filelist_intersection_self example_filesA (by decide) (by decide)⟩

/-! ## Difference and intersection without sortedness -/

theorem pick_replicate_true {α : Type} : ∀ (l : List α), pick (List.replicate l.length true) l = l
  | [] => rfl
  | a :: l => by
    rw [List.length_cons, List.replicate_succ]
    unfold pick
    rw [pick_replicate_true l]

theorem pick_replicate_false {α : Type} :
    ∀ (l : List α), pick ((List.replicate l.length true).map (fun b => !b)) l = []
  | [] => rfl
  | a :: l => by
    rw [List.length_cons, List.replicate_succ, List.map_cons]
    simp only [Bool.not_true]
    unfold pick
    exact pick_replicate_false l

theorem pick_length {α : Type} : ∀ (mask : List Bool) (l : List α), mask.length = l.length →
    (pick mask l).length + (pick (mask.map (fun b => !b)) l).length = l.length
  | [], [], _ => rfl
  | [], _ :: _, h => by simp at h
  | _ :: _, [], h => by simp at h
  | true :: mask, a :: l, h => by
    have ih := pick_length mask l (by simpa using h)
    simp only [List.map_cons, Bool.not_true, pick, List.length_cons]
    omega
  | false :: mask, a :: l, h => by
    have ih := pick_length mask l (by simpa using h)
    simp only [List.map_cons, Bool.not_false, pick, List.length_cons]
    omega

theorem pick_sublist {α : Type} : ∀ (mask : List Bool) (l : List α), (pick mask l).Sublist l
  | [], l => by unfold pick; exact List.nil_sublist l
  | b :: _, [] => by cases b <;> simp [pick]
  | true :: mask, a :: l => by
    unfold pick
    exact (pick_sublist mask l).cons₂ a
  | false :: mask, a :: l => by
    unfold pick
    exact (pick_sublist mask l).cons a

theorem difference_intersection_loops (A B : alpm_filelist_t) :
    ∀ (fuel i j : Nat) (retD retI : List alpm_file_t),
      (A.length - i) + (B.length - j) ≤ fuel →
      ∃ mask : List Bool,
        mask.length = ((A.drop i).filter (fun a => !last_is_slash a.name)).length ∧
        difference_rest A (A.length - (difference_loop A B fuel i j retD).1)
            (difference_loop A B fuel i j retD).1 (difference_loop A B fuel i j retD).2 =
          retD ++ pick mask ((A.drop i).filter (fun a => !last_is_slash a.name)) ∧
        intersection_loop A B fuel i j retI =
          retI ++ pick (mask.map (fun b => !b))
            ((A.drop i).filter (fun a => !last_is_slash a.name)) := by
  have hexit : ∀ (i : Nat) (retD retI : List alpm_file_t),
      ∃ mask : List Bool,
        mask.length = ((A.drop i).filter (fun a => !last_is_slash a.name)).length ∧
        difference_rest A (A.length - i) i retD =
          retD ++ pick mask ((A.drop i).filter (fun a => !last_is_slash a.name)) ∧
        retI = retI ++ pick (mask.map (fun b => !b))
            ((A.drop i).filter (fun a => !last_is_slash a.name)) := by
    intro i retD retI
    refine ⟨List.replicate ((A.drop i).filter (fun a => !last_is_slash a.name)).length true,
      List.length_replicate _ _, ?_, ?_⟩
    · rw [difference_rest_spec A _ i retD (le_refl _), pick_replicate_true]
    · rw [pick_replicate_false, List.append_nil]
  intro fuel
  induction fuel with
  | zero =>
    intro i j retD retI _
    unfold difference_loop intersection_loop
    exact hexit i retD retI
  | succ n ih =>
    intro i j retD retI h
    unfold difference_loop intersection_loop
    by_cases hij : i < A.length ∧ j < B.length
    · obtain ⟨hi, hj⟩ := hij
      rw [dif_pos ⟨hi, hj⟩, dif_pos ⟨hi, hj⟩]
      simp only []
      by_cases hdA : last_is_slash A[i].name = true
      · rw [if_pos hdA, if_pos hdA]
        obtain ⟨mask, hlen, hd, hI⟩ := ih (i + 1) j retD retI (by omega)
        refine ⟨mask, ?_, ?_, ?_⟩
        · rw [hlen, List.drop_eq_getElem_cons hi, List.filter_cons]
          simp [-List.getElem_cons_drop, hdA]
        · rw [hd, List.drop_eq_getElem_cons hi, List.filter_cons]
          simp [-List.getElem_cons_drop, hdA]
        · rw [hI, List.drop_eq_getElem_cons hi, List.filter_cons]
          simp [-List.getElem_cons_drop, hdA]
      · rw [if_neg hdA, if_neg hdA]
        have hdA' : last_is_slash A[i].name = false := by simpa using hdA
        have hcons : (A.drop i).filter (fun a => !last_is_slash a.name) =
            A[i] :: (A.drop (i + 1)).filter (fun a => !last_is_slash a.name) := by
          rw [List.drop_eq_getElem_cons hi, List.filter_cons]
          simp [-List.getElem_cons_drop, hdA']
        by_cases hdB : last_is_slash B[j].name = true
        · rw [if_pos hdB, if_pos hdB]
          exact ih i (j + 1) retD retI (by omega)
        · rw [if_neg hdB, if_neg hdB]
          by_cases hlt : strcmp A[i].name B[j].name < 0
          · rw [if_pos hlt, if_pos hlt]
            obtain ⟨mask, hlen, hd, hI⟩ := ih (i + 1) j (retD ++ [A[i]]) retI (by omega)
            refine ⟨true :: mask, ?_, ?_, ?_⟩
            · rw [hcons, List.length_cons, List.length_cons, hlen]
            · rw [hd, hcons]
              simp [pick]
            · rw [hI, hcons]
              simp [pick]
          · rw [if_neg hlt, if_neg hlt]
            by_cases hgt : strcmp A[i].name B[j].name > 0
            · rw [if_pos hgt, if_pos hgt]
              exact ih i (j + 1) retD retI (by omega)
            · rw [if_neg hgt, if_neg hgt]
              obtain ⟨mask, hlen, hd, hI⟩ := ih (i + 1) (j + 1) retD (retI ++ [A[i]]) (by omega)
              refine ⟨false :: mask, ?_, ?_, ?_⟩
              · rw [hcons, List.length_cons, List.length_cons, hlen]
              · rw [hd, hcons]
                simp [pick]
              · rw [hI, hcons]
                simp [pick]
    · rw [dif_neg hij, dif_neg hij]
      exact hexit i retD retI

/-- C28: for all file lists A and B with non-empty paths, sorted or not, there is a
choice of positions among the entries of A whose path does not end in `/` (in A's
order) such that `_alpm_filelist_difference A B` lists exactly the chosen entries and
`_alpm_filelist_intersection A B` exactly the others, both in A's order: each such
entry is in exactly one of the results, no result holds a directory entry or an entry
that is not from A, and the two lengths add up to the number of those entries. -/
theorem filelist_difference_intersection_partition (A B : alpm_filelist_t)
    (_hneA : ∀ a ∈ A, a.name ≠ "") (_hneB : ∀ b ∈ B, b.name ≠ "") :
    ∃ mask : List Bool,
      mask.length = (A.filter (fun a => !last_is_slash a.name)).length ∧
      _alpm_filelist_difference A B = pick mask (A.filter (fun a => !last_is_slash a.name)) ∧
      _alpm_filelist_intersection A B =
        pick (mask.map (fun b => !b)) (A.filter (fun a => !last_is_slash a.name)) ∧
      (_alpm_filelist_difference A B).Sublist (A.filter (fun a => !last_is_slash a.name)) ∧
      (_alpm_filelist_intersection A B).Sublist
        (A.filter (fun a => !last_is_slash a.name)) ∧
      (_alpm_filelist_difference A B).length + (_alpm_filelist_intersection A B).length =
        (A.filter (fun a => !last_is_slash a.name)).length := by
  obtain ⟨mask, hlen, hd, hI⟩ :=
    difference_intersection_loops A B (A.length + B.length) 0 0 [] [] (by omega)
  simp only [List.drop_zero, List.nil_append] at hlen hd hI
  have hD : _alpm_filelist_difference A B =
      pick mask (A.filter (fun a => !last_is_slash a.name)) := hd
  have hI' : _alpm_filelist_intersection A B =
      pick (mask.map (fun b => !b)) (A.filter (fun a => !last_is_slash a.name)) := hI
  refine ⟨mask, hlen, hD, hI', ?_, ?_, ?_⟩
  · rw [hD]; exact pick_sublist _ _
  · rw [hI']; exact pick_sublist _ _
  · rw [hD, hI']; exact pick_length mask _ hlen

theorem filelist_difference_intersection_partition_witness :
    (∃ mask : List Bool,
      mask.length =
        (example_files_unsortedA.filter (fun a => !last_is_slash a.name)).length ∧
      _alpm_filelist_difference example_files_unsortedA example_files_unsortedB =
        pick mask (example_files_unsortedA.filter (fun a => !last_is_slash a.name)) ∧
      _alpm_filelist_intersection example_files_unsortedA example_files_unsortedB =
        pick (mask.map (fun b => !b))
          (example_files_unsortedA.filter (fun a => !last_is_slash a.name)) ∧
      (_alpm_filelist_difference example_files_unsortedA example_files_unsortedB).Sublist
        (example_files_unsortedA.filter (fun a => !last_is_slash a.name)) ∧
      (_alpm_filelist_intersection example_files_unsortedA example_files_unsortedB).Sublist
        (example_files_unsortedA.filter (fun a => !last_is_slash a.name)) ∧
      (_alpm_filelist_difference example_files_unsortedA example_files_unsortedB).length +
          (_alpm_filelist_intersection example_files_unsortedA
            example_files_unsortedB).length =
        (example_files_unsortedA.filter (fun a => !last_is_slash a.name)).length) ∧
    _alpm_filelist_difference example_files_unsortedA example_files_unsortedB =
      pick [true, true, false, true]
        (example_files_unsortedA.filter (fun a => !last_is_slash a.name)) ∧
    _alpm_filelist_intersection example_files_unsortedA example_files_unsortedB =
      pick [false, false, true, false]
        (example_files_unsortedA.filter (fun a => !last_is_slash a.name)) :=
  ⟨filelist_difference_intersection_partition example_files_unsortedA example_files_unsortedB
    (by decide) (by decide), by decide, by decide⟩

/-! ## Interruption and rejected packages in the removal loop -/

theorem unlink_file_no_ldconfig (env : Env) (handle : alpm_handle_t) (oldpkg : alpm_pkg_t)
    (newpkg : Option alpm_pkg_t) (fileobj : alpm_file_t) (skip_remove : List String)
    (nosave : Bool) (w : World)
    (h : Action.ldconfig ∈
      (unlink_file env handle oldpkg newpkg fileobj skip_remove nosave w).2.trace) :
    Action.ldconfig ∈ w.trace := by
  rcases unlink_file_trace_cases env handle oldpkg newpkg fileobj skip_remove nosave w with
    e | e | e | e <;> rw [e] at h
  · exact h
  all_goals
    rcases List.mem_append.1 h with h | h
    · exact h
    · simp at h

theorem unlink_round_no_ldconfig (env : Env) (handle : alpm_handle_t) (oldpkg : alpm_pkg_t)
    (newpkg : Option alpm_pkg_t) (skip_remove : List String) (nosave : Bool)
    (targ_count pkg_count count idx : Nat) (file : alpm_file_t) (st : World × Int)
    (h : Action.ldconfig ∈ (unlink_round env handle oldpkg newpkg skip_remove nosave
      targ_count pkg_count count idx file st).1.trace) :
    Action.ldconfig ∈ st.1.trace := by
  unfold unlink_round at h
  cases newpkg with
  | none =>
    simp only [] at h
    rcases List.mem_append.1 h with h | h
    · exact unlink_file_no_ldconfig _ _ _ _ _ _ _ _ h
    · simp at h
  | some _ =>
    simp only [] at h
    exact unlink_file_no_ldconfig _ _ _ _ _ _ _ _ h

theorem unlink_loop_no_ldconfig (env : Env) (handle : alpm_handle_t) (oldpkg : alpm_pkg_t)
    (newpkg : Option alpm_pkg_t) (skip_remove : List String) (nosave : Bool)
    (targ_count pkg_count : Nat) (filelist : alpm_filelist_t) :
    ∀ (i : Nat) (h : i ≤ filelist.length) (st : World × Int),
      Action.ldconfig ∈ (unlink_loop env handle oldpkg newpkg skip_remove nosave targ_count
        pkg_count filelist i h st).1.trace → Action.ldconfig ∈ st.1.trace := by
  intro i
  induction i with
  | zero => intro h st hm; exact hm
  | succ i ih =>
    intro h st hm
    unfold unlink_loop at hm
    exact unlink_round_no_ldconfig _ _ _ _ _ _ _ _ _ _ _ _ (ih _ _ hm)

theorem remove_package_files_frame (env : Env) (handle : alpm_handle_t)
    (oldpkg : alpm_pkg_t) (newpkg : Option alpm_pkg_t) (targ_count pkg_count : Nat)
    (w : World) :
    (remove_package_files env handle oldpkg newpkg targ_count pkg_count w).2.1.trans =
        handle.trans ∧
      (remove_package_files env handle oldpkg newpkg targ_count pkg_count w).2.1.db_local =
        handle.db_local ∧
      (Action.ldconfig ∈
        (remove_package_files env handle oldpkg newpkg targ_count pkg_count w).2.2.trace →
        Action.ldconfig ∈ w.trace) := by
  unfold remove_package_files
  simp only []
  split_ifs
  · exact ⟨rfl, rfl, fun h => h⟩
  · refine ⟨rfl, rfl, ?_⟩
    intro h
    cases newpkg with
    | some _ =>
      simp only [] at h
      exact unlink_loop_no_ldconfig _ _ _ _ _ _ _ _ _ _ _ _ h
    | none =>
      simp only [] at h
      rcases List.mem_append.1 h with h | h
      · have := unlink_loop_no_ldconfig _ _ _ _ _ _ _ _ _ _ _ _ h
        rcases List.mem_append.1 this with h | h
        · exact h
        · simp at h
      · simp at h

theorem run_remove_scriptlet_no_ldconfig (env : Env) (handle : alpm_handle_t)
    (oldpkg : alpm_pkg_t) (script : String) (w : World)
    (h : Action.ldconfig ∈ (run_remove_scriptlet env handle oldpkg script w).trace) :
    Action.ldconfig ∈ w.trace := by
  unfold run_remove_scriptlet at h
  split_ifs at h
  · rcases List.mem_append.1 h with h | h
    · exact h
    · simp at h
  · exact h

theorem remove_single_package_frame (env : Env) (handle : alpm_handle_t)
    (oldpkg : alpm_pkg_t) (targ_count pkg_count : Nat) (w : World) :
    (_alpm_remove_single_package env handle oldpkg none targ_count pkg_count w).2.1.trans =
        handle.trans ∧
      (Action.ldconfig ∈
        (_alpm_remove_single_package env handle oldpkg none targ_count pkg_count w).2.2.trace →
        Action.ldconfig ∈ w.trace) := by
  unfold _alpm_remove_single_package
  simp only []
  by_cases hdb : (!handle.trans.flags.DBONLY) = true
  · rw [if_pos hdb]
    obtain ⟨a, -, c⟩ := remove_package_files_frame env handle oldpkg none targ_count pkg_count
      (run_remove_scriptlet env handle oldpkg "pre_remove"
        { w with trace := w.trace ++
            [Action.event alpm_event_t.ALPM_EVENT_REMOVE_START oldpkg.name] })
    refine ⟨a, ?_⟩
    intro h
    simp only [List.mem_append, List.mem_singleton, reduceCtorEq, or_false] at h
    have h1 := run_remove_scriptlet_no_ldconfig _ _ _ _ _ h
    have h2 := c h1
    have h3 := run_remove_scriptlet_no_ldconfig _ _ _ _ _ h2
    simpa using h3
  · rw [if_neg hdb]
    refine ⟨rfl, ?_⟩
    intro h
    simp only [List.mem_append, List.mem_singleton, reduceCtorEq, or_false] at h
    have h1 := run_remove_scriptlet_no_ldconfig _ _ _ _ _ h
    have h3 := run_remove_scriptlet_no_ldconfig _ _ _ _ _ h1
    simpa using h3

theorem remove_in_order_frame (env : Env) (pkg_count : Nat) :
    ∀ (pkgs : List alpm_pkg_t) (targ_count : Nat) (st : alpm_handle_t × World),
      (remove_in_order env pkg_count pkgs targ_count st).1.trans = st.1.trans ∧
        (Action.ldconfig ∈ (remove_in_order env pkg_count pkgs targ_count st).2.trace →
          Action.ldconfig ∈ st.2.trace) := by
  intro pkgs
  induction pkgs with
  | nil => intro targ_count st; exact ⟨rfl, fun h => h⟩
  | cons pkg rest ih =>
    intro targ_count st
    unfold remove_in_order
    simp only []
    obtain ⟨a, b⟩ := ih (targ_count + 1)
      ((_alpm_remove_single_package env st.1 pkg none targ_count pkg_count st.2).2.1,
        (_alpm_remove_single_package env st.1 pkg none targ_count pkg_count st.2).2.2)
    obtain ⟨c, d⟩ := remove_single_package_frame env st.1 pkg targ_count pkg_count st.2
    exact ⟨a.trans c, fun h => d (b h)⟩

theorem poll_interrupt_state (env : Env) (targ_count : Nat) (h1 h2 : alpm_handle_t)
    (h : h1.trans.state = h2.trans.state) :
    (poll_interrupt env targ_count h1).trans.state =
      (poll_interrupt env targ_count h2).trans.state := by
  unfold poll_interrupt
  split_ifs
  · rfl
  · exact h

theorem remove_packages_loop_prefix (env : Env) (pkg_count : Nat) (handle : alpm_handle_t)
    (rest : List alpm_pkg_t) :
    ∀ (before : List alpm_pkg_t) (targ_count : Nat) (st : RemoveLoopState),
      st.handle.trans.state = handle.trans.state →
      (∀ j, j < before.length →
        (poll_interrupt env (targ_count + j) handle).trans.state ≠
          alpm_transstate_t.STATE_INTERRUPTED) →
      remove_packages_loop env pkg_count (before ++ rest) targ_count st =
        remove_packages_loop env pkg_count rest (targ_count + before.length)
          { handle := (remove_in_order env pkg_count before targ_count
              (st.handle, st.world)).1,
            world := (remove_in_order env pkg_count before targ_count
              (st.handle, st.world)).2,
            run_ldconfig := st.run_ldconfig, ret := st.ret } := by
  intro before
  induction before with
  | nil => intro targ_count st _ _; rfl
  | cons pkg more ih =>
    intro targ_count st hst hreach
    have h0 := hreach 0 (by simp)
    rw [Nat.add_zero, ← poll_interrupt_state env targ_count st.handle handle hst] at h0
    have hpoll : poll_interrupt env targ_count st.handle = st.handle := by
      unfold poll_interrupt at h0 ⊢
      split_ifs at h0 ⊢ with hi
      · exact absurd rfl h0
      · rfl
    rw [List.cons_append]
    conv_lhs => unfold remove_packages_loop
    simp only []
    rw [if_neg h0, hpoll, if_neg (by rw [remove_single_package_returns_zero]; decide)]
    rw [ih (targ_count + 1) _
      (by
        simp only []
        rw [(remove_single_package_frame env st.handle pkg targ_count pkg_count st.world).1]
        exact hst)
      (by
        intro j hj
        have := hreach (j + 1) (by simp; omega)
        rw [show targ_count + 1 + j = targ_count + (j + 1) by omega]
        exact this)]
    simp only [List.length_cons]
    rw [show targ_count + 1 + more.length = targ_count + (more.length + 1) by omega]
    rfl

/-- C25: let `trans->remove` be `before ++ pkg :: after` and let the transaction state
be INTERRUPTED when the loop of `_alpm_remove_packages` reaches `pkg`, and not when it
reached the packages before it.  Then the function returns the return code accumulated
so far (0) with exactly the handle and the world that the removal of the packages of
`before`, each processed once and in list order, leaves: nothing is done for `pkg` or
a later package, and ldconfig is not run. -/
theorem remove_packages_interrupted (env : Env) (handle : alpm_handle_t)
    (run_ldconfig : Bool) (w : World) (before after : List alpm_pkg_t) (pkg : alpm_pkg_t)
    (hremove : handle.trans.remove = before ++ pkg :: after)
    (hreach : ∀ j, j < before.length →
      (poll_interrupt env (j + 1) handle).trans.state ≠ alpm_transstate_t.STATE_INTERRUPTED)
    (hint : (poll_interrupt env (before.length + 1) handle).trans.state =
      alpm_transstate_t.STATE_INTERRUPTED) :
    _alpm_remove_packages env handle run_ldconfig w =
        (0, poll_interrupt env (before.length + 1)
              (remove_in_order env handle.trans.remove.length before 1 (handle, w)).1,
          (remove_in_order env handle.trans.remove.length before 1 (handle, w)).2) ∧
      (Action.ldconfig ∉ w.trace →
        Action.ldconfig ∉ (_alpm_remove_packages env handle run_ldconfig w).2.2.trace) := by
  have hloop := remove_packages_loop_prefix env handle.trans.remove.length handle
    (pkg :: after) before 1
    { handle := handle, world := w, run_ldconfig := run_ldconfig, ret := 0 } rfl
    (by intro j hj; rw [Nat.add_comm]; exact hreach j hj)
  have hfr := remove_in_order_frame env handle.trans.remove.length before 1 (handle, w)
  have hint2 : (poll_interrupt env (1 + before.length)
      (remove_in_order env handle.trans.remove.length before 1 (handle, w)).1).trans.state =
      alpm_transstate_t.STATE_INTERRUPTED := by
    rw [Nat.add_comm, poll_interrupt_state env _ _ handle (by rw [hfr.1]), hint]
  have heq : _alpm_remove_packages env handle run_ldconfig w =
      (0, poll_interrupt env (before.length + 1)
            (remove_in_order env handle.trans.remove.length before 1 (handle, w)).1,
        (remove_in_order env handle.trans.remove.length before 1 (handle, w)).2) := by
    unfold _alpm_remove_packages
    simp only []
    generalize handle.trans.remove.length = n at hloop hint2 ⊢
    rw [hremove, hloop]
    unfold remove_packages_loop
    simp only []
    rw [if_pos hint2, Nat.add_comm]
    simp
  refine ⟨heq, ?_⟩
  intro hno hmem
  rw [heq] at hmem
  exact hno (hfr.2 hmem)

theorem run_remove_scriptlet_trace (env : Env) (handle : alpm_handle_t)
    (oldpkg : alpm_pkg_t) (script : String) (w : World) :
    ∀ a ∈ (run_remove_scriptlet env handle oldpkg script w).trace,
      a ∈ w.trace ∨ a.touches_file = false := by
  intro a ha
  unfold run_remove_scriptlet at ha
  split_ifs at ha
  · rcases List.mem_append.1 ha with h | h
    · exact Or.inl h
    · rw [List.mem_singleton] at h
      subst h
      exact Or.inr rfl
  · exact Or.inl ha

theorem remove_packages_all (env : Env) (handle : alpm_handle_t) (run_ldconfig : Bool)
    (w : World)
    (hreach : ∀ j, j < handle.trans.remove.length →
      (poll_interrupt env (j + 1) handle).trans.state ≠ alpm_transstate_t.STATE_INTERRUPTED) :
    _alpm_remove_packages env handle run_ldconfig w =
      (0, (remove_in_order env handle.trans.remove.length handle.trans.remove 1 (handle, w)).1,
        if run_ldconfig then
          { disk := env.ldconfig (remove_in_order env handle.trans.remove.length
              handle.trans.remove 1 (handle, w)).2.disk,
            trace := (remove_in_order env handle.trans.remove.length handle.trans.remove 1
              (handle, w)).2.trace ++ [Action.ldconfig] }
        else (remove_in_order env handle.trans.remove.length handle.trans.remove 1
          (handle, w)).2) := by
  have hloop := remove_packages_loop_prefix env handle.trans.remove.length handle []
    handle.trans.remove 1
    { handle := handle, world := w, run_ldconfig := run_ldconfig, ret := 0 } rfl
    (by intro j hj; rw [Nat.add_comm]; exact hreach j hj)
  rw [List.append_nil] at hloop
  unfold _alpm_remove_packages
  simp only []
  rw [hloop]
  unfold remove_packages_loop
  simp only [Bool.false_eq_true, if_false]
  split_ifs <;> rfl

/-- C29: let the removability precheck reject the package P (DBONLY unset): then
`remove_package_files` returns -1 with PKG_CANT_REMOVE and an untouched world, and
`_alpm_remove_single_package` still returns 0, with P taken out of the package cache of
the local database and its database entry removed, and no action of it is an `unlink`,
a `rename` or an `rmdir`.  When the transaction is not interrupted,
`_alpm_remove_packages` processes every package of `trans->remove` in list order, the
rejected ones too, and returns 0. -/
theorem remove_rejected_package (env : Env) (handle : alpm_handle_t) (oldpkg : alpm_pkg_t)
    (targ_count pkg_count : Nat) (w : World)
    (hdbonly : handle.trans.flags.DBONLY = false)
    (hrej : remove_precheck env handle
      (run_remove_scriptlet env handle oldpkg "pre_remove"
        { w with trace := w.trace ++
            [Action.event alpm_event_t.ALPM_EVENT_REMOVE_START oldpkg.name] })
      (remove_skip_list handle none) oldpkg.files = false) :
    remove_package_files env handle oldpkg none targ_count pkg_count
        (run_remove_scriptlet env handle oldpkg "pre_remove"
          { w with trace := w.trace ++
              [Action.event alpm_event_t.ALPM_EVENT_REMOVE_START oldpkg.name] }) =
      (-1, { handle with pm_errno := alpm_errno_t.ALPM_ERR_PKG_CANT_REMOVE },
        run_remove_scriptlet env handle oldpkg "pre_remove"
          { w with trace := w.trace ++
              [Action.event alpm_event_t.ALPM_EVENT_REMOVE_START oldpkg.name] }) ∧
    (_alpm_remove_single_package env handle oldpkg none targ_count pkg_count w).1 = 0 ∧
    (_alpm_remove_single_package env handle oldpkg none targ_count pkg_count w).2.1 =
      { handle with
        pm_errno := alpm_errno_t.ALPM_ERR_PKG_CANT_REMOVE,
        db_local := _alpm_db_remove_pkgfromcache handle.db_local oldpkg } ∧
    Action.local_db_remove oldpkg.name ∈
      (_alpm_remove_single_package env handle oldpkg none targ_count pkg_count w).2.2.trace ∧
    (∀ a ∈ (_alpm_remove_single_package env handle oldpkg none targ_count pkg_count
        w).2.2.trace, a ∈ w.trace ∨ a.touches_file = false) ∧
    ∀ (h0 : alpm_handle_t) (run_ldconfig : Bool) (w0 : World),
      (∀ j, j < h0.trans.remove.length →
        (poll_interrupt env (j + 1) h0).trans.state ≠
          alpm_transstate_t.STATE_INTERRUPTED) →
      (_alpm_remove_packages env h0 run_ldconfig w0).1 = 0 ∧
        (_alpm_remove_packages env h0 run_ldconfig w0).2.1 =
          (remove_in_order env h0.trans.remove.length h0.trans.remove 1 (h0, w0)).1 := by
  have hfiles : remove_package_files env handle oldpkg none targ_count pkg_count
        (run_remove_scriptlet env handle oldpkg "pre_remove"
          { w with trace := w.trace ++
              [Action.event alpm_event_t.ALPM_EVENT_REMOVE_START oldpkg.name] }) =
      (-1, { handle with pm_errno := alpm_errno_t.ALPM_ERR_PKG_CANT_REMOVE },
        run_remove_scriptlet env handle oldpkg "pre_remove"
          { w with trace := w.trace ++
              [Action.event alpm_event_t.ALPM_EVENT_REMOVE_START oldpkg.name] }) := by
    unfold remove_package_files
    simp only [hrej, Bool.not_false, if_true]
  refine ⟨hfiles, rfl, ?_, ?_, ?_, ?_⟩
  · unfold _alpm_remove_single_package
    simp only [hdbonly, Bool.not_false, if_true, hfiles]
  · unfold _alpm_remove_single_package
    simp only [List.mem_append, List.mem_singleton, or_true]
  · intro a ha
    unfold _alpm_remove_single_package at ha
    simp only [hdbonly, Bool.not_false, if_true, hfiles, List.mem_append,
      List.mem_singleton] at ha
    rcases ha with (ha | ha) | ha
    · rcases run_remove_scriptlet_trace _ _ _ _ _ a ha with h | h
      · rcases run_remove_scriptlet_trace _ _ _ _ _ a h with h | h
        · rcases List.mem_append.1 h with h | h
          · exact Or.inl h
          · rw [List.mem_singleton] at h
            subst h
            exact Or.inr rfl
        · exact Or.inr h
      · exact Or.inr h
    · subst ha
      exact Or.inr rfl
    · subst ha
      exact Or.inr rfl
  · intro h0 run_ldconfig w0 hreach
    rw [remove_packages_all env h0 run_ldconfig w0 hreach]
    exact ⟨rfl, rfl⟩

theorem remove_packages_interrupted_witness :
    (_alpm_remove_packages example_env_interrupt example_two_remove_handle true example_world =
        (0, poll_interrupt example_env_interrupt ([example_pkg].length + 1)
              (remove_in_order example_env_interrupt
                example_two_remove_handle.trans.remove.length [example_pkg] 1
                (example_two_remove_handle, example_world)).1,
          (remove_in_order example_env_interrupt
            example_two_remove_handle.trans.remove.length [example_pkg] 1
            (example_two_remove_handle, example_world)).2) ∧
      (Action.ldconfig ∉ example_world.trace →
        Action.ldconfig ∉ (_alpm_remove_packages example_env_interrupt
          example_two_remove_handle true example_world).2.2.trace)) ∧
    (_alpm_remove_packages example_env_interrupt example_two_remove_handle true
      example_world).2.2.trace =
      [Action.event alpm_event_t.ALPM_EVENT_REMOVE_START "pkg",
       Action.progress "pkg" 0 2 1, Action.unlink "/usr/bin/x",
       Action.progress "pkg" 0 2 1, Action.progress "pkg" 20 2 1,
       Action.progress "pkg" 40 2 1, Action.rename "/etc/x.conf" "/etc/x.conf.pacsave",
       Action.progress "pkg" 60 2 1, Action.progress "pkg" 80 2 1,
       Action.progress "pkg" 100 2 1,
       Action.event alpm_event_t.ALPM_EVENT_REMOVE_DONE "pkg",
       Action.local_db_remove "pkg"] ∧
    (_alpm_remove_packages example_env_interrupt example_two_remove_handle true
      example_world).2.1.db_local = [example_other_pkg] :=
  ⟨remove_packages_interrupted example_env_interrupt example_two_remove_handle true
    example_world [example_pkg] [] example_other_pkg rfl (by decide) (by decide),
    by decide, by decide⟩

theorem remove_rejected_package_witness :
    (_alpm_remove_single_package (example_env_access Errno.EROFS) example_handle example_pkg
      none 1 1 example_world).1 = 0 ∧
    (_alpm_remove_single_package (example_env_access Errno.EROFS) example_handle example_pkg
      none 1 1 example_world).2.1 =
      { example_handle with
        pm_errno := alpm_errno_t.ALPM_ERR_PKG_CANT_REMOVE,
        db_local := _alpm_db_remove_pkgfromcache example_handle.db_local example_pkg } ∧
    (_alpm_remove_single_package (example_env_access Errno.EROFS) example_handle example_pkg
      none 1 1 example_world).2.2.trace =
      [Action.event alpm_event_t.ALPM_EVENT_REMOVE_START "pkg",
       Action.event alpm_event_t.ALPM_EVENT_REMOVE_DONE "pkg",
       Action.local_db_remove "pkg"] ∧
    (_alpm_remove_packages (example_env_access Errno.EROFS) example_handle true
      example_world).1 = 0 :=
  ⟨(remove_rejected_package (example_env_access Errno.EROFS) example_handle example_pkg 1 1
      example_world rfl (by decide)).2.1,
    (remove_rejected_package (example_env_access Errno.EROFS) example_handle example_pkg 1 1
      example_world rfl (by decide)).2.2.1,
    by decide,
    ((remove_rejected_package (example_env_access Errno.EROFS) example_handle example_pkg 1 1
      example_world rfl (by decide)).2.2.2.2.2 example_handle true example_world
      (by decide)).1⟩

/-! ## The configuration lines of pactree -/

/-- C30 fails on the code for a line that starts with whitespace: for the line
` [core]` (with its newline) `strtrim` leaves `[core]` in the buffer, of length 6, but
returns 5, so that `register_syncs` tests `line[4]` for `]` and does not take the line
as a section header; without the leading blank it returns 6 and the header is
recognised. -/
theorem strtrim_leading_whitespace :
    strtrim " [core]\n".data = ("[core]".data, 5) ∧
      "[core]".data.length = 6 ∧
      section_header " [core]\n".data = none ∧
      register_syncs [" [core]\n".data] = [] ∧
      strtrim "[core]\n".data = ("[core]".data, 6) ∧
      section_header "[core]\n".data = some "core".data ∧
      register_syncs ["[core]\n".data] = ["core".data] := by
  decide

/-! ## Install reasons after the preparation of a sync transaction -/

theorem commit_frame_refl (h : alpm_handle_t) : commit_frame h h := ⟨rfl, rfl, rfl⟩

theorem commit_frame_trans {h1 h2 h3 : alpm_handle_t} (a : commit_frame h1 h2)
    (b : commit_frame h2 h3) : commit_frame h1 h3 :=
  ⟨b.1.trans a.1, b.2.1.trans a.2.1, b.2.2.trans a.2.2⟩

theorem checks_only_refl (w : World) : checks_only w w :=
  ⟨[], (List.append_nil _).symm, fun _ h => absurd h (List.not_mem_nil _)⟩

theorem checks_only_trans {w1 w2 w3 : World} (a : checks_only w1 w2)
    (b : checks_only w2 w3) : checks_only w1 w3 := by
  obtain ⟨x, hx, px⟩ := a
  obtain ⟨y, hy, py⟩ := b
  refine ⟨x ++ y, ?_, ?_⟩
  · rw [hy, hx, List.append_assoc]
  · intro a ha
    rcases List.mem_append.1 ha with h | h
    · exact px a h
    · exact py a h

theorem checks_only_step (w : World) (d : Disk) (a : Action) (h : a.is_commit_check = true) :
    checks_only w { disk := d, trace := w.trace ++ [a] } :=
  ⟨[a], rfl, fun b hb => by rw [List.mem_singleton.1 hb]; exact h⟩

theorem checks_only_disk (w : World) (d : Disk) : checks_only w { w with disk := d } :=
  ⟨[], (List.append_nil _).symm, fun _ h => absurd h (List.not_mem_nil _)⟩

theorem foldl_invariant {σ α : Type} (f : σ → α → σ) (P : σ → Prop)
    (step : ∀ s a, P s → P (f s a)) : ∀ (l : List α) (s : σ), P s → P (l.foldl f s) := by
  intro l
  induction l with
  | nil => intro s h; exact h
  | cons a rest ih => intro s h; exact ih _ (step s a h)

theorem prompt_to_delete_checks (env : CommitEnv) (pass : Nat) (w : World)
    (filepath : Option String) (reason : alpm_errno_t) :
    checks_only w (prompt_to_delete env pass w filepath reason).2 := by
  unfold prompt_to_delete
  dsimp only
  split_ifs
  · cases filepath with
    | none => exact checks_only_refl w
    | some path =>
      exact ⟨[Action.unlink path], sys_unlink_trace env.toEnv w path,
        fun b hb => by rw [List.mem_singleton.1 hb]; rfl⟩
  · exact checks_only_refl w

theorem check_validity_pkg_frame (env : CommitEnv) (pass : Nat) (w : World) (h0 : alpm_handle_t)
    (st : alpm_handle_t × List validity) (ip : Nat × alpm_pkg_t)
    (h : commit_frame h0 st.1) : commit_frame h0 (check_validity_pkg env pass w st ip).1 := by
  unfold check_validity_pkg
  dsimp only
  split_ifs
  · exact h
  · exact h
  · exact h

theorem check_validity_error_frame (env : CommitEnv) (pass : Nat) (h0 : alpm_handle_t)
    (w0 : World) (st : alpm_handle_t × World × Int) (v : validity)
    (h : commit_frame h0 st.1 ∧ checks_only w0 st.2.1) :
    commit_frame h0 (check_validity_error env pass st v).1 ∧
      checks_only w0 (check_validity_error env pass st v).2.1 := by
  unfold check_validity_error
  dsimp only
  split_ifs
  · exact ⟨h.1, checks_only_trans h.2 (checks_only_disk _ _)⟩
  · exact ⟨h.1, checks_only_trans h.2 (prompt_to_delete_checks env pass _ _ _)⟩
  · exact h

theorem check_validity_frame (env : CommitEnv) (pass : Nat) (handle : alpm_handle_t)
    (w : World) :
    commit_frame handle (check_validity env pass handle w).2.1 ∧
      checks_only w (check_validity env pass handle w).2.2 := by
  have e1 : checks_only w (EVENT w alpm_event_t.ALPM_EVENT_INTEGRITY_START) :=
    checks_only_step w w.disk (Action.event alpm_event_t.ALPM_EVENT_INTEGRITY_START "") rfl
  have e2 : checks_only w (EVENT (EVENT w alpm_event_t.ALPM_EVENT_INTEGRITY_START)
      alpm_event_t.ALPM_EVENT_INTEGRITY_DONE) :=
    checks_only_trans e1
      (checks_only_step _ _ (Action.event alpm_event_t.ALPM_EVENT_INTEGRITY_DONE "") rfl)
  have f1 := foldl_invariant
    (check_validity_pkg env pass (EVENT w alpm_event_t.ALPM_EVENT_INTEGRITY_START))
    (fun st => commit_frame handle st.1)
    (fun st ip h => check_validity_pkg_frame env pass _ handle st ip h)
    handle.trans.add.enum (handle, []) (commit_frame_refl handle)
  have f2 := foldl_invariant (check_validity_error env pass)
    (fun st => commit_frame handle st.1 ∧ checks_only w st.2.1)
    (fun st v h => check_validity_error_frame env pass handle w st v h)
    (handle.trans.add.enum.foldl
      (check_validity_pkg env pass (EVENT w alpm_event_t.ALPM_EVENT_INTEGRITY_START))
      (handle, [])).2
    ((handle.trans.add.enum.foldl
      (check_validity_pkg env pass (EVENT w alpm_event_t.ALPM_EVENT_INTEGRITY_START))
      (handle, [])).1,
      EVENT (EVENT w alpm_event_t.ALPM_EVENT_INTEGRITY_START)
        alpm_event_t.ALPM_EVENT_INTEGRITY_DONE, 0)
    ⟨f1, e2⟩
  unfold check_validity
  dsimp only
  split_ifs
  · exact ⟨f2.1, f2.2⟩
  · exact f2
  · exact f2
  · exact ⟨f1, e2⟩

theorem validity_loop_frame (env : CommitEnv) :
    ∀ (fuel pass : Nat) (handle : alpm_handle_t) (w : World)
      (r : Int × alpm_handle_t × World),
      validity_loop env fuel pass handle w = some r →
        commit_frame handle r.2.1 ∧ checks_only w r.2.2 := by
  intro fuel
  induction fuel with
  | zero => intro pass handle w r h; simp [validity_loop] at h
  | succ fuel ih =>
    intro pass handle w r h
    have c := check_validity_frame env pass handle w
    unfold validity_loop at h
    dsimp only at h
    by_cases h0 : (check_validity env pass handle w).1 = 0
    · rw [if_pos h0, Option.some.injEq] at h
      rw [← h]
      exact c
    · rw [if_neg h0] at h
      by_cases h1 : (check_validity env pass handle w).1 < 0
      · rw [if_pos h1, Option.some.injEq] at h
        rw [← h]
        exact c
      · rw [if_neg h1] at h
        have n := ih _ _ _ _ h
        exact ⟨commit_frame_trans c.1 n.1, checks_only_trans c.2 n.2⟩

theorem load_packages_pkg_frame (env : CommitEnv) (w : World) (h0 : alpm_handle_t)
    (st : alpm_handle_t × Int × List commit_item) (ip : Nat × alpm_pkg_t)
    (h : commit_frame h0 st.1) : commit_frame h0 (load_packages_pkg env w st ip).1 := by
  unfold load_packages_pkg
  dsimp only
  split_ifs
  · exact h
  · split
    · exact h
    · exact h

theorem load_packages_frame (env : CommitEnv) (handle : alpm_handle_t) (w : World)
    (data : List commit_item) :
    commit_frame handle (load_packages env handle w data).2.1 ∧
      checks_only w (load_packages env handle w data).2.2.1 := by
  have e2 : checks_only w (EVENT (EVENT w alpm_event_t.ALPM_EVENT_LOAD_START)
      alpm_event_t.ALPM_EVENT_LOAD_DONE) :=
    checks_only_trans
      (checks_only_step w w.disk (Action.event alpm_event_t.ALPM_EVENT_LOAD_START "") rfl)
      (checks_only_step _ _ (Action.event alpm_event_t.ALPM_EVENT_LOAD_DONE "") rfl)
  have f1 := foldl_invariant
    (load_packages_pkg env (EVENT w alpm_event_t.ALPM_EVENT_LOAD_START))
    (fun st => commit_frame handle st.1)
    (fun st ip h => load_packages_pkg_frame env _ handle st ip h)
    handle.trans.add.enum (handle, 0, data) (commit_frame_refl handle)
  unfold load_packages
  dsimp only
  split_ifs
  · exact ⟨f1, e2⟩
  · exact ⟨f1, e2⟩
  · exact ⟨f1, e2⟩

theorem download_files_frame (env : CommitEnv) (handle : alpm_handle_t) (w : World) :
    commit_frame handle (download_files env handle w).2.1 ∧
      checks_only w (download_files env handle w).2.2 :=
  ⟨⟨rfl, rfl, rfl⟩, checks_only_disk w _⟩

theorem sync_commit_load_frame (env : CommitEnv) (fuel : Nat) (handle h5 : alpm_handle_t)
    (w w5 : World) (data d5 : List commit_item)
    (hload : sync_commit_load env fuel handle w data = some (commit_step.goes_on h5 w5 d5)) :
    commit_frame handle h5 ∧ checks_only w w5 := by
  unfold sync_commit_load at hload
  dsimp only at hload
  have d := download_files_frame env handle w
  generalize download_files env handle w = dl at hload d
  obtain ⟨dret, h1, w1⟩ := dl
  dsimp only at hload d
  by_cases c1 : dret ≠ 0
  · rw [if_pos c1] at hload
    simp at hload
  rw [if_neg c1] at hload
  generalize env.validate_deltas h1 w1.disk = vd at hload
  by_cases c2 : vd.1 ≠ 0
  · rw [if_pos c2] at hload
    simp at hload
  rw [if_neg c2] at hload
  generalize env.apply_deltas _ _ = ad at hload
  by_cases c3 : ad.1 ≠ 0
  · rw [if_pos c3] at hload
    simp at hload
  rw [if_neg c3] at hload
  split at hload
  · simp at hload
  · rename_i ret h4 w4 hv
    have v := validity_loop_frame env _ _ _ _ _ hv
    have l := load_packages_frame env h4 w4 data
    dsimp only at v
    split_ifs at hload
    any_goals cases hload
    refine ⟨commit_frame_trans (commit_frame_trans d.1 ?_) (commit_frame_trans v.1 l.1),
      checks_only_trans (checks_only_trans d.2 ?_) (checks_only_trans v.2 l.2)⟩
    · exact ⟨rfl, rfl, rfl⟩
    · exact checks_only_disk _ _

theorem validity_loop_scan (env : CommitEnv)
    (scan : alpm_handle_t → Disk → List alpm_pkg_t → List alpm_pkg_t →
      List alpm_fileconflict_t × alpm_errno_t) :
    ∀ (fuel pass : Nat) (handle : alpm_handle_t) (w : World),
      validity_loop { env with find_fileconflicts := scan } fuel pass handle w =
        validity_loop env fuel pass handle w := by
  intro fuel
  induction fuel with
  | zero => intro pass handle w; rfl
  | succ fuel ih =>
    intro pass handle w
    unfold validity_loop
    dsimp only
    rw [ih]
    rfl

theorem sync_commit_load_scan (env : CommitEnv)
    (scan : alpm_handle_t → Disk → List alpm_pkg_t → List alpm_pkg_t →
      List alpm_fileconflict_t × alpm_errno_t)
    (fuel : Nat) (handle : alpm_handle_t) (w : World) (data : List commit_item) :
    sync_commit_load { env with find_fileconflicts := scan } fuel handle w data =
      sync_commit_load env fuel handle w data := by
  unfold sync_commit_load
  dsimp only
  rw [validity_loop_scan]
  rfl

/-- C22: in `_alpm_sync_commit`, when the packages are loaded with FORCE and DBONLY
unset and the scan for file conflicts yields at least one record, commit returns -1 with
`pm_errno` FILE_CONFLICTS and the records in `data`; the disk is the disk that the scan
saw, the local database and `trans->remove` are those of the start of commit, and
everything done since the start of commit is a check (the events of the validation, of
the loading and of the start of the scan, the deletion of a corrupted cache file):
neither the removal nor the installation is started.  With FORCE set the result of commit
does not depend on the scan. -/
theorem sync_commit_file_conflicts (env : CommitEnv) (fuel : Nat) (handle : alpm_handle_t)
    (w : World) (data : List commit_item) :
    (∀ (h5 : alpm_handle_t) (w5 : World) (d5 : List commit_item),
      sync_commit_load env fuel handle w data = some (commit_step.goes_on h5 w5 d5) →
      handle.trans.flags.FORCE = false → handle.trans.flags.DBONLY = false →
      (env.find_fileconflicts (set_state h5 alpm_transstate_t.STATE_COMMITING) w5.disk
        h5.trans.add h5.trans.remove).1 ≠ [] →
      ∃ (h6 : alpm_handle_t) (w6 : World),
        _alpm_sync_commit env fuel handle w data =
          some (-1, h6, w6,
            (env.find_fileconflicts (set_state h5 alpm_transstate_t.STATE_COMMITING) w5.disk
              h5.trans.add h5.trans.remove).1.map commit_item.fileconflict) ∧
        h6.pm_errno = alpm_errno_t.ALPM_ERR_FILE_CONFLICTS ∧
        h6.trans.state = alpm_transstate_t.STATE_COMMITING ∧
        h6.trans.add = h5.trans.add ∧
        h6.trans.remove = handle.trans.remove ∧
        h6.db_local = handle.db_local ∧
        w6.disk = w5.disk ∧
        w6.trace = w5.trace ++
          [Action.event alpm_event_t.ALPM_EVENT_FILECONFLICTS_START ""] ∧
        checks_only w w6) ∧
    (∀ (scan : alpm_handle_t → Disk → List alpm_pkg_t → List alpm_pkg_t →
        List alpm_fileconflict_t × alpm_errno_t),
      handle.trans.flags.FORCE = true →
      _alpm_sync_commit { env with find_fileconflicts := scan } fuel handle w data =
        _alpm_sync_commit env fuel handle w data) := by
  constructor
  · intro h5 w5 d5 hload hforce hdbonly hscan
    obtain ⟨⟨ff, fd, fr⟩, hc⟩ := sync_commit_load_frame env fuel handle h5 w w5 data d5 hload
    refine ⟨{ set_state h5 alpm_transstate_t.STATE_COMMITING with
        pm_errno := alpm_errno_t.ALPM_ERR_FILE_CONFLICTS },
      EVENT w5 alpm_event_t.ALPM_EVENT_FILECONFLICTS_START, ?_, rfl, rfl, rfl, fr, fd, rfl, rfl,
      checks_only_trans hc (checks_only_step w5 w5.disk
        (Action.event alpm_event_t.ALPM_EVENT_FILECONFLICTS_START "") rfl)⟩
    unfold _alpm_sync_commit
    rw [hload]
    dsimp only
    unfold sync_commit_fileconflicts
    dsimp only
    have hf : (set_state h5 alpm_transstate_t.STATE_COMMITING).trans.flags =
        handle.trans.flags := ff
    rw [hf, hforce, hdbonly]
    simp only [Bool.or_self, Bool.not_false, if_true]
    exact congrArg some (if_pos hscan)
  · intro scan hforce
    unfold _alpm_sync_commit
    rw [sync_commit_load_scan]
    cases hl : sync_commit_load env fuel handle w data with
    | none => rfl
    | some step =>
      cases step with
      | returns ret h1 w1 d1 => rfl
      | goes_on h5 w5 d5 =>
        obtain ⟨⟨ff, -, -⟩, -⟩ := sync_commit_load_frame env fuel handle h5 w w5 data d5 hl
        dsimp only
        unfold sync_commit_fileconflicts
        dsimp only
        have hf : (set_state h5 alpm_transstate_t.STATE_COMMITING).trans.flags =
            handle.trans.flags := ff
        rw [hf, hforce]
        simp only [Bool.true_or, Bool.not_true]
        rfl

theorem sync_commit_file_conflicts_witness :
    (∃ (h6 : alpm_handle_t) (w6 : World),
      _alpm_sync_commit example_commit_env 1 example_commit_handle example_commit_world [] =
        some (-1, h6, w6,
          (example_commit_env.find_fileconflicts
            (set_state example_loaded_handle alpm_transstate_t.STATE_COMMITING)
            example_loaded_world.disk example_loaded_handle.trans.add
            example_loaded_handle.trans.remove).1.map commit_item.fileconflict) ∧
      h6.pm_errno = alpm_errno_t.ALPM_ERR_FILE_CONFLICTS ∧
      h6.trans.state = alpm_transstate_t.STATE_COMMITING ∧
      h6.trans.add = example_loaded_handle.trans.add ∧
      h6.trans.remove = example_commit_handle.trans.remove ∧
      h6.db_local = example_commit_handle.db_local ∧
      w6.disk = example_loaded_world.disk ∧
      w6.trace = example_loaded_world.trace ++
        [Action.event alpm_event_t.ALPM_EVENT_FILECONFLICTS_START ""] ∧
      checks_only example_commit_world w6) ∧
    (_alpm_sync_commit example_commit_env 1 example_commit_handle example_commit_world
        []).map (fun r => (r.1, r.2.1.db_local.map (fun p => p.name), r.2.2.1.trace, r.2.2.2)) =
      some (-1, ["a"],
        example_loaded_world.trace ++
          [Action.event alpm_event_t.ALPM_EVENT_FILECONFLICTS_START ""],
        [commit_item.fileconflict
          { target := "b", type := alpm_fileconflicttype_t.ALPM_FILECONFLICT_FILESYSTEM,
            file := "/u/bin/x" }]) ∧
    _alpm_sync_commit
        { example_commit_env with find_fileconflicts := fun _ _ _ _ => ([], alpm_errno_t.OK) }
        1 example_force_handle example_commit_world [] =
      _alpm_sync_commit example_commit_env 1 example_force_handle example_commit_world [] ∧
    (_alpm_sync_commit example_commit_env 1 example_force_handle example_commit_world
        []).map (fun r => (r.1, r.2.1.pm_errno, r.2.2.1.trace, r.2.2.2)) =
      some (0, alpm_errno_t.OK, example_loaded_world.trace ++ [Action.upgrade_packages], []) :=
  ⟨(sync_commit_file_conflicts example_commit_env 1 example_commit_handle example_commit_world
      []).1 example_loaded_handle example_loaded_world [] rfl rfl rfl (by decide),
    by decide,
    (sync_commit_file_conflicts example_commit_env 1 example_force_handle example_commit_world
      []).2 (fun _ _ _ _ => ([], alpm_errno_t.OK)) rfl,
    by decide⟩

/-! ## The validation loop of the commit of a sync transaction -/

end Pacman
